import Mathlib

/-!
# Chess-Library: a shallow embedding of the rules engine

The development follows `src/chessBase.cpp`, `src/chessPiece.cpp`,
`src/chessBoard.cpp` and `src/chessGame.cpp`.

Modelling conventions.

* A square name is the two-character string `{file, rank}` of the source.  It is
  represented by the pair `chessPosToPair` computes from it, `(s[0] - 96, s[1] - 48)`,
  so `"e4"` is `(5, 4)`; `pairToChessPos` is the inverse on such strings.  Character
  arithmetic such as `position[0] - 4` becomes integer arithmetic on the first
  component.  `int` overflow is out of reach of every value used here.
* `std::map<std::string, std::unique_ptr<Piece>>` is a key list (in iteration order)
  together with the content of each slot; `std::map::at` on a missing key throws
  `std::out_of_range`.
* A `std::unique_ptr<Piece>` slot owns its object, so a slot is modelled by the object
  it owns (`none` for `nullptr`).  Each object carries its address `addr`; a raw
  `Piece *` is an `Option Nat` (`none` for `nullptr`) and is dereferenced by looking
  the address up among the live objects.
* Every function that can throw or run into undefined behaviour (a `std::map::at`
  miss, a null or dangling pointer dereference, reading an empty `std::optional`,
  `back()`/`pop_back()` on an empty vector, an integer division by zero, unbounded
  recursion) returns `Option`: `none` is that fault.
* `King::canMove` calls `canMove` on other pieces, which may be kings again.  The
  functions that reach `canMove` take a bound `depth` on this nesting; a result within
  the bound is the result for every larger bound (`canMove_mono` and its companions), and
  running out of it is a fault.
-/

namespace Chess

/-! ## chessBase.hpp -/

inductive PieceColor where
  | white
  | black
deriving DecidableEq, Repr

inductive MoveType where
  | normal
  | enPassant
  | shortCastle
  | longCastle
deriving DecidableEq, Repr

inductive RunResult where
  | invalid
  | still
  | turnedPassed
  | awaitPromotion
deriving DecidableEq, Repr

inductive WinSearchResult where
  | nothing
  | whiteWinCheckmate
  | blackWinCheckmate
  | stalemateDraw
  | repetitionDraw
  | fiftyMoveDraw
  | materialDraw
deriving DecidableEq, Repr

/-- The dynamic class of a `Piece` object (which `canMove` override it has). -/
inductive PieceKind where
  | pawn
  | rook
  | knight
  | bishop
  | queen
  | king
deriving DecidableEq, Repr

/-- A square name, as the pair `chessPosToPair` gives for it. -/
abbrev Pos := Int × Int

/-- The members of `class Piece` the engine reads (`letter` is the member `notation`),
together with the address of the object and its dynamic class. -/
structure Piece where
  addr : Nat
  kind : PieceKind
  position : Pos
  value : Int
  letter : Char
  color : PieceColor
  moveCount : Int
deriving DecidableEq

/-- The struct `Move` (`endSq` is the member `end`); the two pieces are raw pointers. -/
structure Move where
  startPiece : Option Nat
  endPiece : Option Nat
  start : Pos
  endSq : Pos
  type : Option MoveType
  PiecePromoted : Bool
deriving DecidableEq

/-- The live objects a raw pointer can be dereferenced to. -/
abbrev Heap := Nat → Option Piece

/-- The function `std::abs` on `int`. -/
def intAbs (x : Int) : Int := if x < 0 then -x else x

/-- The function `absDistance(start, end)`. -/
def absDistance (s e : Pos) : Int × Int := (intAbs (s.1 - e.1), intAbs (s.2 - e.2))

/-- The function `relativeDistance(start, end)`. -/
def relativeDistance (s e : Pos) : Int × Int := (s.1 - e.1, s.2 - e.2)

/-- Integer division of C++ (truncating); division by zero is undefined. -/
def cdiv (a b : Int) : Option Int := if b = 0 then none else some (Int.tdiv a b)

/-! ## chessBoard.hpp: the piece map -/

/-- The data of `class Board` the rules read: the key set of `pieceMap` in iteration
order with the content of every slot, the key set of `squaresMap`, and `numSquares`.
`pieceMap p` has a meaning only for `p` among `keys`.  `nextAddr` is the address the
next `std::make_unique` returns; addresses are never reused. -/
structure Board where
  keys : List Pos
  pieceMap : Pos → Option Piece
  squaresMap : List Pos
  numSquares : Nat
  nextAddr : Nat

/-- The key set of the 8 by 8 board, `{x, y}` for `1 <= x, y <= 8`. -/
def standardKeys : List Pos :=
  (List.range 8).flatMap fun x => (List.range 8).map fun y => (Int.ofNat x + 1, Int.ofNat y + 1)

/-- Membership in a key set is decided by a range test when the key set is that of the
8 by 8 board, and by a search through the keys otherwise. -/
instance decidableMemKeys (p : Pos) (keys : List Pos) : Decidable (p ∈ keys) :=
  if h : keys = standardKeys then
    decidable_of_iff (1 ≤ p.1 ∧ p.1 ≤ 8 ∧ 1 ≤ p.2 ∧ p.2 ≤ 8) (by
      obtain ⟨x, y⟩ := p
      rw [h]
      simp only [standardKeys, List.mem_flatMap, List.mem_map, List.mem_range, Prod.mk.injEq,
        Int.ofNat_eq_coe]
      constructor
      · intro hxy
        exact ⟨(x - 1).toNat, by omega, (y - 1).toNat, by omega, by omega, by omega⟩
      · rintro ⟨a, ha, c, hc, h1, h2⟩
        omega)
  else inferInstanceAs (Decidable (p ∈ keys))

/-- The call `pieceMap.contains(p)`. -/
def Board.contains (b : Board) (p : Pos) : Bool := decide (p ∈ b.keys)

/-- The call `pieceMap.at(p)`: the slot, or the fault `std::out_of_range`. -/
def Board.slotAt (b : Board) (p : Pos) : Option (Option Piece) :=
  if b.contains p then some (b.pieceMap p) else none

/-- Assignment to the slot `pieceMap.at(p)` (the key is known to exist). -/
def Board.setSlot (b : Board) (p : Pos) (v : Option Piece) : Board :=
  { b with pieceMap := fun q => if q = p then v else b.pieceMap q }

/-! ## chessPiece.cpp -/

/-- The lambda `isAhead` of `Pawn::canMove`, for a pawn of colour `color`. -/
def isAhead (color : PieceColor) (pos1 pos2 : Pos) : Bool :=
  if color = PieceColor.white then decide ((relativeDistance pos2 pos1).2 < 0)
  else decide ((relativeDistance pos2 pos1).2 > 0)

/-- The scanning loop shared by the pawn double step and the sliding pieces:
`for (i = ...; i <= last; i++)` with `k` iterations left, current index `i` and
current value `ret`.  A blocked square ends the loop with `std::nullopt`. -/
def scanLine (b : Board) (position : Pos) (dir : Int × Int) (target : Pos) :
    Nat → Int → Option MoveType → Option (Option MoveType)
  | 0, _, ret => some ret
  | k + 1, i, ret =>
    if (position.1 + dir.1 * i, position.2 + dir.2 * i) = target then
      scanLine b position dir target k (i + 1) (some MoveType.normal)
    else
      match b.slotAt (position.1 + dir.1 * i, position.2 + dir.2 * i) with
      | none => none
      | some (some _) => some none
      | some none => scanLine b position dir target k (i + 1) ret

/-- The last alternative of `Pawn::canMove`, reached when `absDist == (1, 1)`: every
conjunct reads `lastMove`, an empty optional or a null or dangling `startPiece` is a
fault. -/
def enPassantTest (heap : Heap) (self : Piece) (target : Pos) (lastMove : Option Move) :
    Option (Option MoveType) :=
  match lastMove with
  | none => none
  | some lm =>
    match lm.startPiece with
    | none => none
    | some a =>
      match heap a with
      | none => none
      | some sp =>
        if sp.letter = 'p' ∧ sp.color ≠ self.color ∧ lm.endSq.1 = target.1 ∧
            absDistance self.position lm.endSq = (1, 0) ∧
            isAhead self.color lm.endSq target = false ∧
            (absDistance lm.start lm.endSq).2 = 2 then
          some (some MoveType.enPassant)
        else some none

/-- The test `slot != nullptr && slot->color == color`. -/
def holdsOwn (slot : Option Piece) (color : PieceColor) : Bool :=
  match slot with
  | some q => decide (q.color = color)
  | none => false

/-- The test `slot != nullptr && slot->color != color`. -/
def holdsEnemy (slot : Option Piece) (color : PieceColor) : Bool :=
  match slot with
  | some q => decide (q.color ≠ color)
  | none => false

/-- The method `Pawn::canMove`. -/
def Pawn.canMove (heap : Heap) (b : Board) (self : Piece) (target : Pos)
    (lastMove : Option Move) : Option (Option MoveType) :=
  if b.contains target then
    if isAhead self.color target self.position then
      if absDistance self.position target = (0, 1) ∧ b.pieceMap target = none then
        some (some MoveType.normal)
      else if absDistance self.position target = (1, 1) ∧
          holdsEnemy (b.pieceMap target) self.color then
        some (some MoveType.normal)
      else if absDistance self.position target = (0, 2) ∧ self.moveCount = 0 ∧
          b.pieceMap target = none then
        scanLine b self.position
          (if self.color = PieceColor.white then (0, 1) else (0, -1)) target 2 1 none
      else if absDistance self.position target = (1, 1) then
        enPassantTest heap self target lastMove
      else some none
    else some none
  else some none

/-- The direction `dist / (dist == 0 ? 1 : absDist) * -1` of `Rook::canMove` and of the
orthogonal alternative of `Queen::canMove`. -/
def orthDir (position target : Pos) : Option (Int × Int) := do
  let d1 ← cdiv (relativeDistance position target).1
    (if (relativeDistance position target).1 = 0 then 1 else (absDistance position target).1)
  let d2 ← cdiv (relativeDistance position target).2
    (if (relativeDistance position target).2 = 0 then 1 else (absDistance position target).2)
  some (d1 * -1, d2 * -1)

/-- The direction `dist / absDist * -1` of `Bishop::canMove` and of the diagonal
alternative of `Queen::canMove`; it divides by zero when the two squares coincide. -/
def diagDir (position target : Pos) : Option (Int × Int) := do
  let d1 ← cdiv (relativeDistance position target).1 (absDistance position target).1
  let d2 ← cdiv (relativeDistance position target).2 (absDistance position target).2
  some (d1 * -1, d2 * -1)

/-- The method `Rook::canMove`. -/
def Rook.canMove (b : Board) (self : Piece) (target : Pos) : Option (Option MoveType) :=
  if b.contains target then
    if holdsOwn (b.pieceMap target) self.color then some none
    else if (absDistance self.position target).1 = 0 ∨
        (absDistance self.position target).2 = 0 then
      match orthDir self.position target with
      | none => none
      | some dir =>
        scanLine b self.position dir target
          (max (absDistance self.position target).1
            (absDistance self.position target).2).toNat 1 none
    else some none
  else some none

/-- The method `Knight::canMove`. -/
def Knight.canMove (b : Board) (self : Piece) (target : Pos) : Option (Option MoveType) :=
  if b.contains target then
    if holdsOwn (b.pieceMap target) self.color then some none
    else if absDistance self.position target = (2, 1) ∨
        absDistance self.position target = (1, 2) then
      some (some MoveType.normal)
    else some none
  else some none

/-- The method `Bishop::canMove`. -/
def Bishop.canMove (b : Board) (self : Piece) (target : Pos) : Option (Option MoveType) :=
  if b.contains target then
    if holdsOwn (b.pieceMap target) self.color then some none
    else if (absDistance self.position target).1 = (absDistance self.position target).2 then
      match diagDir self.position target with
      | none => none
      | some dir =>
        scanLine b self.position dir target (absDistance self.position target).1.toNat 1 none
    else some none
  else some none

/-- The value of `dir` after the first `if` chain of `Queen::canMove`. -/
def Queen.dir (b : Board) (self : Piece) (target : Pos) : Option (Int × Int) :=
  if holdsOwn (b.pieceMap target) self.color then some (0, 0)
  else if (absDistance self.position target).1 = (absDistance self.position target).2 then
    diagDir self.position target
  else if (absDistance self.position target).1 = 0 ∨
      (absDistance self.position target).2 = 0 then
    orthDir self.position target
  else some (0, 0)

/-- The method `Queen::canMove`. -/
def Queen.canMove (b : Board) (self : Piece) (target : Pos) : Option (Option MoveType) :=
  if b.contains target then
    match Queen.dir b self target with
    | none => none
    | some dir =>
      if dir ≠ (0, 0) then
        scanLine b self.position dir target
          (max (absDistance self.position target).1
            (absDistance self.position target).2).toNat 1 none
      else some none
  else some none

/-- The conjunction `!piece->canMove(pieceMap, pos1).has_value() && ...` of the castling
loops, evaluated left to right; `call` is the virtual call `piece->canMove(pieceMap, _)`. -/
def probeFree (call : Piece → Pos → Option (Option MoveType)) (piece : Piece) :
    List Pos → Option Bool
  | [] => some true
  | p :: ps =>
    match call piece p with
    | none => none
    | some (some _) => some false
    | some none => probeFree call piece ps

/-- The loop `for (auto &[pos, piece] : pieceMap)` of the castling alternatives of
`King::canMove`, over the slots still to visit.  `guard` is the part of the condition
that does not depend on `piece` (the tests on `piece1` .. `piece4`). -/
def castleLoop (call : Piece → Pos → Option (Option MoveType)) (color : PieceColor)
    (guard : Bool) (probes : List Pos) (result : MoveType) :
    List (Option Piece) → Option (Option MoveType)
  | [] => some none
  | none :: rest => castleLoop call color guard probes result rest
  | some piece :: rest =>
    if guard ∧ piece.color ≠ color then
      match probeFree call piece probes with
      | none => none
      | some true => some (some result)
      | some false => castleLoop call color guard probes result rest
    else castleLoop call color guard probes result rest

/-- The test `rook != nullptr && rook->notation == 'r' && rook->color == color`. -/
def isOwnRook (slot : Option Piece) (color : PieceColor) : Bool :=
  match slot with
  | some q => decide (q.letter = 'r' ∧ q.color = color)
  | none => false

/-- The method `King::canMove`; `call` stands for the nested virtual calls
`piece->canMove(pieceMap, pos)`.  Both `piece1` and `piece2` read `pos1`, as in the
source. -/
def King.canMove (call : Piece → Pos → Option (Option MoveType)) (b : Board) (self : Piece)
    (target : Pos) : Option (Option MoveType) :=
  if b.contains target then
    if holdsOwn (b.pieceMap target) self.color then some none
    else if (absDistance self.position target).1 ≤ 1 ∧
        (absDistance self.position target).2 ≤ 1 then
      some (some MoveType.normal)
    else if absDistance self.position target = (2, 0) ∧ self.moveCount = 0 then
      if (relativeDistance self.position target).1 > 0 then
        match b.slotAt (self.position.1 - 1, self.position.2),
            b.slotAt (self.position.1 - 1, self.position.2),
            b.slotAt (self.position.1 - 3, self.position.2),
            b.slotAt (self.position.1 - 4, self.position.2) with
        | some piece1, some piece2, some piece3, some piece4 =>
          castleLoop call self.color
            (isOwnRook piece4 self.color && piece1.isNone && piece2.isNone && piece3.isNone)
            [(self.position.1 - 1, self.position.2), (self.position.1 - 2, self.position.2),
              (self.position.1 - 3, self.position.2)]
            MoveType.longCastle (b.keys.map b.pieceMap)
        | _, _, _, _ => none
      else if (relativeDistance self.position target).1 < 0 then
        match b.slotAt (self.position.1 + 1, self.position.2),
            b.slotAt (self.position.1 + 1, self.position.2),
            b.slotAt (self.position.1 + 3, self.position.2) with
        | some piece1, some piece2, some piece3 =>
          castleLoop call self.color
            (isOwnRook piece3 self.color && piece1.isNone && piece2.isNone)
            [(self.position.1 + 1, self.position.2), (self.position.1 + 2, self.position.2)]
            MoveType.shortCastle (b.keys.map b.pieceMap)
        | _, _, _ => none
      else some none
    else some none
  else some none

/-- Virtual dispatch of `canMove` on the dynamic class of `self`. -/
def canMoveWith (call : Piece → Pos → Option (Option MoveType)) (heap : Heap) (b : Board)
    (self : Piece) (target : Pos) (lastMove : Option Move) : Option (Option MoveType) :=
  match self.kind with
  | PieceKind.pawn => Pawn.canMove heap b self target lastMove
  | PieceKind.rook => Rook.canMove b self target
  | PieceKind.knight => Knight.canMove b self target
  | PieceKind.bishop => Bishop.canMove b self target
  | PieceKind.queen => Queen.canMove b self target
  | PieceKind.king => King.canMove call b self target

/-- The calls `piece->canMove(pieceMap, pos)` made from inside `King::canMove` (no
`lastMove`), allowed to nest `depth` levels deep; deeper recursion is a fault. -/
def nestedCanMove (heap : Heap) (b : Board) : Nat → Piece → Pos → Option (Option MoveType)
  | 0 => fun _ _ => none
  | depth + 1 => fun piece pos => canMoveWith (nestedCanMove heap b depth) heap b piece pos none

/-- The virtual method `Piece::canMove(pieceMap, where, lastMove)` called on `self`, with
the recursion of `King::canMove` into other pieces bounded by `depth`. -/
def canMove (depth : Nat) (heap : Heap) (b : Board) (self : Piece) (target : Pos)
    (lastMove : Option Move) : Option (Option MoveType) :=
  canMoveWith (nestedCanMove heap b depth) heap b self target lastMove

/-! ## chessBoard.cpp -/

/-- The order of `std::map` on two-character keys. -/
def posLt (a b : Pos) : Bool := decide (a.1 < b.1 ∨ (a.1 = b.1 ∧ a.2 < b.2))

/-- The key set after `pieceMap[p]` (which inserts a missing key in order). -/
def insertKey (p : Pos) : List Pos → List Pos
  | [] => [p]
  | q :: qs =>
    if p = q then q :: qs
    else if posLt p q then p :: q :: qs
    else q :: insertKey p qs

/-- The statement `pieceMap[p] = std::make_unique<Kind>(p, value, letter, color)`: the
constructor `Piece::Piece` sets `moveCount` to 0. -/
def Board.emplace (b : Board) (kind : PieceKind) (p : Pos) (value : Int) (letter : Char)
    (color : PieceColor) : Board :=
  { b with
    keys := insertKey p b.keys
    pieceMap := fun q =>
      if q = p then some ⟨b.nextAddr, kind, p, value, letter, color, 0⟩ else b.pieceMap q
    nextAddr := b.nextAddr + 1 }

/-- The two nested loops of the constructor `Board::Board`, as the list of the pairs
`{x, y}` they visit, `1 <= x, y <= k`. -/
def gridSquares (k : Nat) : List Pos :=
  (List.range k).flatMap fun x =>
    (List.range k).map fun y => (Int.ofNat x + 1, Int.ofNat y + 1)

/-- The search behind `intSqrt`: the largest `k` up to the bound with `k * k <= n`. -/
def intSqrtBelow (n : Nat) : Nat → Nat
  | 0 => 0
  | k + 1 => if (k + 1) * (k + 1) ≤ n then k + 1 else intSqrtBelow n k

/-- The function `intSqrt`, `floor(sqrt(n))`. -/
def intSqrt (n : Nat) : Nat := intSqrtBelow n n

/-- The pawn loop of `Board::createDefaultPieceMap`, for the files still to visit. -/
def placePawns (b : Board) : List Nat → Board
  | [] => b
  | x :: xs =>
    placePawns
      (((b.emplace PieceKind.pawn ((x : Int) + 1, 2) 1 'p' PieceColor.white).emplace
        PieceKind.pawn ((x : Int) + 1, 7) 1 'p' PieceColor.black)) xs

/-- The method `Board::createDefaultPieceMap`. -/
def Board.createDefaultPieceMap (b : Board) : Board :=
  ((((((((((((((((placePawns b (List.range (intSqrt b.numSquares))).emplace
    PieceKind.rook (1, 1) 5 'r' PieceColor.white).emplace
    PieceKind.rook (8, 1) 5 'r' PieceColor.white).emplace
    PieceKind.rook (1, 8) 5 'r' PieceColor.black).emplace
    PieceKind.rook (8, 8) 5 'r' PieceColor.black).emplace
    PieceKind.knight (2, 1) 3 'n' PieceColor.white).emplace
    PieceKind.knight (7, 1) 3 'n' PieceColor.white).emplace
    PieceKind.knight (2, 8) 3 'n' PieceColor.black).emplace
    PieceKind.knight (7, 8) 3 'n' PieceColor.black).emplace
    PieceKind.bishop (3, 1) 3 'b' PieceColor.white).emplace
    PieceKind.bishop (6, 1) 3 'b' PieceColor.white).emplace
    PieceKind.bishop (3, 8) 3 'b' PieceColor.black).emplace
    PieceKind.bishop (6, 8) 3 'b' PieceColor.black).emplace
    PieceKind.queen (4, 1) 9 'q' PieceColor.white).emplace
    PieceKind.queen (4, 8) 9 'q' PieceColor.black).emplace
    PieceKind.king (5, 1) 0 'k' PieceColor.white).emplace
    PieceKind.king (5, 8) 0 'k' PieceColor.black

/-- The constructor `Board::Board(length, numSquares, flipped, offset, colors,
createPieceMap, ren)`; the rendering members are left out. -/
def Board.new (numSquares : Nat) (createPieceMap : Bool) : Board :=
  let b : Board :=
    { keys := gridSquares (intSqrt numSquares)
      pieceMap := fun _ => none
      squaresMap := gridSquares (intSqrt numSquares)
      numSquares := numSquares
      nextAddr := 1 }
  if createPieceMap then b.createDefaultPieceMap else b

/-- The method `Board::clear`. -/
def Board.clear (b : Board) : Board := { b with pieceMap := fun _ => none }

/-- Exchange of two slots, `pieceMap.at(p).swap(pieceMap.at(q))`. -/
def Board.swapSlots (b : Board) (p q : Pos) : Option Board :=
  match b.slotAt p, b.slotAt q with
  | some x, some y => some ((b.setSlot p y).setSlot q x)
  | _, _ => none

/-- The statement `pieceMap.at(p)->position = pos`; a null slot is a fault. -/
def Board.setPosition (b : Board) (p pos : Pos) : Option Board :=
  match b.slotAt p with
  | some (some x) => some (b.setSlot p (some { x with position := pos }))
  | _ => none

/-- The rank offset from the destination of an en-passant capture to the captured pawn. -/
def enPassantDir (color : PieceColor) : Int := if color = PieceColor.white then -1 else 1

/-- The square `pos1` of the castling code: the rook's destination. -/
def castlePos1 (move : Move) : Pos :=
  (move.start.1 + (if move.type = some MoveType.shortCastle then 1 else -1), move.start.2)

/-- The square `pos2` of the castling code: the rook's corner. -/
def castlePos2 (move : Move) : Pos :=
  (move.start.1 + (if move.type = some MoveType.shortCastle then 3 else -4), move.start.2)

/-- The special-move part of `Board::makeMove(Move, capturedPieces)`, run once the guard
holds; `sp` is the object `move.startPiece` points to (the slot at `move.start`). -/
def Board.makeMoveSpecial (b : Board) (move : Move) (sp : Piece)
    (capturedPieces : List (Option Piece)) : Option (Board × List (Option Piece)) :=
  if move.type = some MoveType.enPassant then
    match b.slotAt (move.endSq.1, move.endSq.2 + enPassantDir sp.color) with
    | none => none
    | some none => some (b, capturedPieces)
    | some (some pawn) =>
      some (b.setSlot (move.endSq.1, move.endSq.2 + enPassantDir sp.color) none,
        capturedPieces ++ [some pawn])
  else if move.type = some MoveType.shortCastle ∨ move.type = some MoveType.longCastle then
    match b.swapSlots (castlePos1 move) (castlePos2 move) with
    | none => none
    | some b1 =>
      match b1.setPosition (castlePos1 move) (castlePos1 move) with
      | none => none
      | some b2 => some (b2, capturedPieces)
  else if move.endPiece ≠ none then
    match b.pieceMap move.endSq with
    | none => none
    | some ep =>
      match b.slotAt ep.position with
      | none => none
      | some slot => some (b.setSlot ep.position none, capturedPieces ++ [slot])
  else some (b, capturedPieces)

/-- The method `Board::makeMove(Move move, std::vector<std::unique_ptr<Piece>> &capturedPieces)`.
Inside the guard `move.startPiece` equals the slot at `move.start`, and where
`move.endPiece` is dereferenced it equals the slot at `move.end`, so both are read from
these slots. -/
def Board.makeMove (b : Board) (move : Move) (capturedPieces : List (Option Piece)) :
    Option (Bool × Board × List (Option Piece)) :=
  match b.slotAt move.start with
  | none => none
  | some s =>
    if move.startPiece = s.map Piece.addr then
      match b.slotAt move.endSq with
      | none => none
      | some e =>
        if (move.endPiece = e.map Piece.addr ∨ move.type = some MoveType.enPassant) ∧
            move.startPiece ≠ none ∧ move.startPiece ≠ move.endPiece then
          match s with
          | none => none
          | some sp =>
            match b.makeMoveSpecial move sp capturedPieces with
            | none => none
            | some (b1, captured1) =>
              match b1.swapSlots move.start move.endSq with
              | none => none
              | some b2 =>
                match b2.setPosition move.endSq move.endSq with
                | none => none
                | some b3 => some (true, b3, captured1)
        else some (false, b, capturedPieces)
    else some (false, b, capturedPieces)

/-! ## chessGame.hpp, chessGame.cpp -/

/-- The members of `class Player` the engine uses; `selectedPiece` belongs to the input
handling and is left out. -/
structure Player where
  color : PieceColor
  materialCaptured : Int
  capturedPieces : List (Option Piece)

/-- The constructor `Player::Player(color)`. -/
def Player.new (color : PieceColor) : Player :=
  { color := color, materialCaptured := 0, capturedPieces := [] }

/-- The pointer `currentPlayer`: it addresses `player1` or `player2`. -/
inductive PlayerRef where
  | player1
  | player2
deriving DecidableEq, Repr

/-- The members of `class Game` (`positions` is `_positions`). -/
structure Game where
  positions : List String
  running : Bool
  moveLogText : List String
  moveLog : List Move
  board : Board
  player1 : Player
  player2 : Player
  currentPlayer : PlayerRef
  movesUntilDraw : Int
  turnCount : Int
  moveCount : Int

/-- The player a `PlayerRef` addresses. -/
def Game.player (g : Game) : PlayerRef → Player
  | PlayerRef.player1 => g.player1
  | PlayerRef.player2 => g.player2

/-- Assignment through a `PlayerRef`. -/
def Game.setPlayer (g : Game) (r : PlayerRef) (p : Player) : Game :=
  match r with
  | PlayerRef.player1 => { g with player1 := p }
  | PlayerRef.player2 => { g with player2 := p }

/-- The object at address `a` among the objects a list of slots owns. -/
def findAddr (a : Nat) : List (Option Piece) → Option Piece
  | [] => none
  | none :: rest => findAddr a rest
  | some p :: rest => if p.addr = a then some p else findAddr a rest

/-- The live `Piece` objects of a game: those owned by the slots of the board and by the
two captured lists. -/
def Game.heap (g : Game) : Heap := fun a =>
  findAddr a (g.board.keys.map g.board.pieceMap ++ g.player1.capturedPieces ++
    g.player2.capturedPieces)

/-- Dereference of a raw `Piece *`: null and dangling pointers are faults. -/
def deref (heap : Heap) (ptr : Option Nat) : Option Piece :=
  match ptr with
  | none => none
  | some a => heap a

/-- A write through a raw pointer: `f` is applied to the object at address `a`. -/
def Game.modifyAt (g : Game) (a : Nat) (f : Piece → Piece) : Game :=
  { g with
    board := { g.board with
      pieceMap := fun q => (g.board.pieceMap q).map fun p => if p.addr = a then f p else p }
    player1 := { g.player1 with
      capturedPieces := g.player1.capturedPieces.map fun s =>
        s.map fun p => if p.addr = a then f p else p }
    player2 := { g.player2 with
      capturedPieces := g.player2.capturedPieces.map fun s =>
        s.map fun p => if p.addr = a then f p else p } }

/-- The constructor `Game::Game(board, player1, player2, event)`. -/
def Game.new (board : Board) (player1 player2 : Player) : Game :=
  { positions := []
    running := false
    moveLogText := []
    moveLog := []
    board := board
    player1 := player1
    player2 := player2
    currentPlayer :=
      if player1.color = PieceColor.white then PlayerRef.player1 else PlayerRef.player2
    movesUntilDraw := 50
    turnCount := 0
    moveCount := 0 }

/-- The method `Game::start`. -/
def Game.start (g : Game) : Option RunResult × Game :=
  if g.player1.color = g.player2.color then (some RunResult.invalid, { g with running := false })
  else (none, { g with running := true })

/-- The name of a square as a string, `pairToChessPos`. -/
def posString (p : Pos) : String :=
  String.mk [Char.ofNat (p.1 + 96).toNat, Char.ofNat (p.2 + 48).toNat]

/-- The loop of `Game::logMove` that builds the position string, over the keys still to
visit. -/
def fingerprint (b : Board) : List Pos → String
  | [] => ""
  | pos :: rest =>
    match b.pieceMap pos with
    | none => fingerprint b rest
    | some piece => String.singleton piece.letter ++ posString pos ++ fingerprint b rest

/-- The text `Game::logMove` appends to `moveLogText`; for a move that is not a castle
it reads `move.startPiece->notation`. -/
def moveText (g : Game) (move : Move) (moveCount : Int) : Option String :=
  if move.type ≠ some MoveType.normal ∧ move.type ≠ some MoveType.enPassant then
    some (if move.type = some MoveType.longCastle then "O-O-O" else "O-O")
  else
    match deref g.heap move.startPiece with
    | none => none
    | some sp =>
      some (toString moveCount ++ ". " ++
        String.singleton (if sp.letter = 'p' then Char.ofNat 0 else sp.letter) ++
        (if move.endPiece ≠ none then "x" else "") ++ posString move.endSq)

/-- The method `Game::logMove`. -/
def Game.logMove (g : Game) (move : Move) : Option Game :=
  match moveText g move (g.moveCount + 1) with
  | none => none
  | some text =>
    some { g with
      moveCount := g.moveCount + 1
      turnCount :=
        g.turnCount + (if (g.player g.currentPlayer).color = PieceColor.white then 1 else 0)
      moveLog := g.moveLog ++ [move]
      moveLogText := g.moveLogText ++ [text]
      positions := g.positions ++ [fingerprint g.board g.board.keys] }

/-- The first `std::find_if` of `Game::isKingInCheck`: the first slot holding a king
(`notation == 'k'`) of the colour. -/
def findKing (color : PieceColor) : List (Option Piece) → Option Piece
  | [] => none
  | none :: rest => findKing color rest
  | some p :: rest => if p.letter = 'k' ∧ p.color = color then some p else findKing color rest

/-- The second `std::find_if` of `Game::isKingInCheck`, over the slots still to visit:
whether some piece has `canMove(pieceMap, kingPos) == MoveType::normal`. -/
def checkScan (depth : Nat) (heap : Heap) (b : Board) (kingPos : Pos) :
    List (Option Piece) → Option Bool
  | [] => some false
  | none :: rest => checkScan depth heap b kingPos rest
  | some p :: rest =>
    match canMove depth heap b p kingPos none with
    | none => none
    | some r =>
      if r = some MoveType.normal then some true else checkScan depth heap b kingPos rest

/-- The method `Game::isKingInCheck`.  Without a king `kingPos` is the empty string, which
is no key of the map, so every `canMove` returns `std::nullopt`. -/
def Game.isKingInCheck (depth : Nat) (g : Game) (color : PieceColor) : Option Bool :=
  match findKing color (g.board.keys.map g.board.pieceMap) with
  | none => some false
  | some king =>
    checkScan depth g.heap g.board king.position (g.board.keys.map g.board.pieceMap)

/-- The last element of a vector, `back()`; undefined on an empty vector. -/
def back {α : Type} (v : List α) : Option α := v.getLast?

/-- The call `pop_back()`; undefined on an empty vector. -/
def popBack {α : Type} (v : List α) : Option (List α) :=
  match v with
  | [] => none
  | _ :: _ => some v.dropLast

/-- The statements `capturedPieces.back().swap(board.pieceMap.at(pos));
capturedPieces.pop_back();` on the captured list of player `r`: the slot receives the last
captured piece, and what the slot held is destroyed with the popped element. -/
def Game.restoreCaptured (g : Game) (r : PlayerRef) (pos : Pos) : Option Game :=
  match back (g.player r).capturedPieces, g.board.slotAt pos with
  | some last, some _ =>
    some ((({ g with board := g.board.setSlot pos last }).setPlayer r
      { g.player r with capturedPieces := (g.player r).capturedPieces.dropLast }))
  | _, _ => none

/-- The statements that take a tentative move back in `Game::isMoveLegal`. -/
def Game.revertMove (g : Game) (move : Move) : Option Game :=
  match g.board.swapSlots move.endSq move.start with
  | none => none
  | some b1 =>
    match b1.setPosition move.start move.start with
    | none => none
    | some b2 =>
      if move.type = some MoveType.enPassant then
        match deref ({ g with board := b2 }).heap move.startPiece with
        | none => none
        | some sp =>
          ({ g with board := b2 }).restoreCaptured g.currentPlayer
            (move.endSq.1, move.endSq.2 + enPassantDir sp.color)
      else if move.type = some MoveType.shortCastle ∨ move.type = some MoveType.longCastle then
        match b2.swapSlots (castlePos1 move) (castlePos2 move) with
        | none => none
        | some b3 =>
          match b3.setPosition (castlePos2 move) (castlePos2 move) with
          | none => none
          | some b4 => some { g with board := b4 }
      else if move.endPiece ≠ none then
        ({ g with board := b2 }).restoreCaptured g.currentPlayer move.endSq
      else some { g with board := b2 }

/-- The call `board.makeMove(move, currentPlayer->capturedPieces)` inside a `Game`. -/
def Game.makeMove (g : Game) (move : Move) : Option (Bool × Game) :=
  match g.board.makeMove move (g.player g.currentPlayer).capturedPieces with
  | none => none
  | some (made, b1, captured1) =>
    some (made, ({ g with board := b1 }).setPlayer g.currentPlayer
      { g.player g.currentPlayer with capturedPieces := captured1 })

/-- The method `Game::isMoveLegal(Move &move, const Player &player)`: the result, the
move (its `type` is written) and the game afterwards.  `move.startPiece->canMove` is
called before the null test, and the result of `makeMove` is ignored, as in the source.
The argument `moveLog.empty() ? std::nullopt : std::make_optional(moveLog.back())` is
`back g.moveLog`. -/
def Game.isMoveLegal (depth : Nat) (g : Game) (move : Move) (player : Player) :
    Option (Bool × Move × Game) :=
  match deref g.heap move.startPiece with
  | none => none
  | some sp =>
    match canMove depth g.heap g.board sp move.endSq (back g.moveLog) with
    | none => none
    | some type =>
      if move.startPiece ≠ none ∧ player.color = sp.color ∧ type ≠ none then
        match g.makeMove { move with type := type } with
        | none => none
        | some (_, g1) =>
          match g1.isKingInCheck depth (g1.player g1.currentPlayer).color with
          | none => none
          | some inCheck =>
            match g1.revertMove { move with type := type } with
            | none => none
            | some g2 => some (!inCheck, { move with type := type }, g2)
      else some (false, move, g)

/-- The loop of `Game::getLegalMoves` over the keys of `squaresMap` still to visit;
`piece` is the address of the piece. -/
def Game.legalMovesLoop (depth : Nat) (piece : Nat) (player : Player) :
    Game → List Pos → Option (List Move × Game)
  | g, [] => some ([], g)
  | g, pos :: rest =>
    match g.board.slotAt pos, g.heap piece with
    | some slot, some self =>
      match g.isMoveLegal depth
          ⟨some piece, slot.map Piece.addr, self.position, pos, none, false⟩ player with
      | none => none
      | some (legal, move, g1) =>
        match Game.legalMovesLoop depth piece player g1 rest with
        | none => none
        | some (moves, g2) => some (if legal then move :: moves else moves, g2)
    | _, _ => none

/-- The method `Game::getLegalMoves(Piece &piece, Player &player)`. -/
def Game.getLegalMoves (depth : Nat) (g : Game) (piece : Nat) (player : Player) :
    Option (List Move × Game) :=
  Game.legalMovesLoop depth piece player g g.board.squaresMap

/-- The first `std::find_if` of `Game::lookForPromotion`, over the slots in map order. -/
def findPromotion : List (Option Piece) → Option Piece
  | [] => none
  | none :: rest => findPromotion rest
  | some p :: rest =>
    if p.letter = 'p' ∧ p.position.2 = (if p.color = PieceColor.white then 8 else 1) then some p
    else findPromotion rest

/-- The method `Game::lookForPromotion`. -/
def Game.lookForPromotion (g : Game) : Option Piece :=
  findPromotion (g.board.keys.map g.board.pieceMap)

/-- The keys `Game::defaultPromotionHandler` distinguishes in a key-up event. -/
inductive Key where
  | q
  | r
  | n
  | b
  | otherKey
deriving DecidableEq, Repr

/-- What `Game::defaultPromotionHandler` reads of the SDL event. -/
inductive Event where
  | keyUp (sym : Key)
  | otherEvent
deriving DecidableEq, Repr

/-- One case of the inner `switch` of `Game::defaultPromotionHandler`: the pawn's slot is
assigned a new piece, the last logged move points to it and is marked promoted, and the
suffix is appended to the last text. -/
def Game.promote (g : Game) (pawn : Piece) (kind : PieceKind) (value : Int) (letter : Char)
    (suffix : String) : Option Game :=
  if g.board.contains pawn.position then
    match back g.moveLog, back g.moveLogText with
    | some lastMove, some lastText =>
      some { g with
        board := { g.board with
          pieceMap := fun q =>
            if q = pawn.position then
              some ⟨g.board.nextAddr, kind, pawn.position, value, letter, pawn.color, 0⟩
            else g.board.pieceMap q
          nextAddr := g.board.nextAddr + 1 }
        moveLog := g.moveLog.dropLast ++
          [{ lastMove with startPiece := some g.board.nextAddr, PiecePromoted := true }]
        moveLogText := g.moveLogText.dropLast ++ [lastText ++ suffix] }
    | _, _ => none
  else none

/-- The method `Game::defaultPromotionHandler`. -/
def Game.defaultPromotionHandler (g : Game) (piece : Piece) (event : Event) :
    Option (RunResult × Game) :=
  match event with
  | Event.keyUp Key.q => (g.promote piece PieceKind.queen 9 'q' "=q").map fun g1 =>
      (RunResult.still, g1)
  | Event.keyUp Key.r => (g.promote piece PieceKind.rook 5 'r' "=r").map fun g1 =>
      (RunResult.still, g1)
  | Event.keyUp Key.n => (g.promote piece PieceKind.knight 3 'n' "=n").map fun g1 =>
      (RunResult.still, g1)
  | Event.keyUp Key.b => (g.promote piece PieceKind.bishop 3 'b' "=b").map fun g1 =>
      (RunResult.still, g1)
  | Event.keyUp Key.otherKey => some (RunResult.still, g)
  | Event.otherEvent => some (RunResult.awaitPromotion, g)

/-- The other player, `(currentPlayer == &player1) ? &player2 : &player1`. -/
def PlayerRef.other : PlayerRef → PlayerRef
  | PlayerRef.player1 => PlayerRef.player2
  | PlayerRef.player2 => PlayerRef.player1

/-- The body of the last `if` of `Game::run`, once the move is legal and made: `g` is the
game after `board.makeMove`. -/
def Game.commit (g : Game) (move : Move) : Option (RunResult × Game) :=
  match g.logMove move with
  | none => none
  | some g1 =>
    match (if move.endPiece ≠ none then
        (match back (g1.player g1.currentPlayer).capturedPieces with
          | some (some captured) => some captured.value
          | _ => none)
      else some (if move.type = some MoveType.enPassant then 1 else 0)) with
    | none => none
    | some gain =>
      match move.startPiece, deref g1.heap move.startPiece with
      | some a, some sp =>
        some (RunResult.turnedPassed,
          { ((g1.setPlayer g1.currentPlayer
                { g1.player g1.currentPlayer with
                  materialCaptured := (g1.player g1.currentPlayer).materialCaptured + gain
                }).modifyAt a fun p => { p with moveCount := p.moveCount + 1 }) with
            currentPlayer := g1.currentPlayer.other
            movesUntilDraw :=
              if sp.letter = 'p' ∨ move.endPiece ≠ none then 50 else g1.movesUntilDraw - 1 })
      | _, _ => none

/-- The first part of `Game::run`: `piece = lookForPromotion()` and, when a pawn is
pending, `ret = defaultPromotionHandler(piece)`; otherwise `ret` stays `still`. -/
def Game.promotionStep (g : Game) (event : Event) : Option (RunResult × Game) :=
  match g.lookForPromotion with
  | some piece => g.defaultPromotionHandler piece event
  | none => some (RunResult.still, g)

/-- The method `Game::run` with no `promotionFn`.  `intent` is what
`currentPlayer->handleEvents(board, _event)` returns and `event` what the promotion
handler reads of `_event`. -/
def Game.run (depth : Nat) (g : Game) (intent : Option Move) (event : Event) :
    Option (RunResult × Game) :=
  if g.running then
    match g.promotionStep event with
    | none => none
    | some (ret, g1) =>
      if ret = RunResult.still then
        match intent with
        | none => some (ret, g1)
        | some move =>
          match g1.isMoveLegal depth move (g1.player g1.currentPlayer) with
          | none => none
          | some (false, _, g2) => some (ret, g2)
          | some (true, move1, g2) =>
            match g2.makeMove move1 with
            | none => none
            | some (false, g3) => some (ret, g3)
            | some (true, g3) => g3.commit move1
      else some (ret, g1)
  else some (RunResult.still, g)

/-- The assignment `board.pieceMap.at(lastMove.end) = std::make_unique<Pawn>(lastMove.end,
1, 'p', lastMove.startPiece->color)` of `Game::undoLastMove`. -/
def Game.recreatePawn (g : Game) (lastMove : Move) : Option Game :=
  match deref g.heap lastMove.startPiece, g.board.slotAt lastMove.endSq with
  | some sp, some _ =>
    some { g with
      board := { g.board with
        pieceMap := fun q =>
          if q = lastMove.endSq then
            some ⟨g.board.nextAddr, PieceKind.pawn, lastMove.endSq, 1, 'p', sp.color, 0⟩
          else g.board.pieceMap q
        nextAddr := g.board.nextAddr + 1 } }
  | _, _ => none

/-- The special-move part of `Game::undoLastMove`; `currentPlayer` is already the mover. -/
def Game.undoSpecial (g : Game) (lastMove : Move) : Option Game :=
  if lastMove.type = some MoveType.enPassant then
    match deref g.heap lastMove.startPiece with
    | none => none
    | some sp =>
      match g.restoreCaptured g.currentPlayer
          (lastMove.endSq.1, lastMove.endSq.2 + enPassantDir sp.color) with
      | none => none
      | some g1 =>
        match deref g1.heap lastMove.endPiece with
        | none => none
        | some ep =>
          some (g1.setPlayer g1.currentPlayer
            { g1.player g1.currentPlayer with
              materialCaptured := (g1.player g1.currentPlayer).materialCaptured - ep.value })
  else if lastMove.type = some MoveType.shortCastle ∨
      lastMove.type = some MoveType.longCastle then
    match g.board.swapSlots (castlePos1 lastMove) (castlePos2 lastMove) with
    | none => none
    | some b1 =>
      match b1.setPosition (castlePos2 lastMove) (castlePos2 lastMove) with
      | none => none
      | some b2 => some { g with board := b2 }
  else if lastMove.endPiece ≠ none then
    match g.restoreCaptured g.currentPlayer lastMove.endSq with
    | none => none
    | some g1 =>
      match deref g1.heap lastMove.endPiece with
      | none => none
      | some ep =>
        some (g1.setPlayer g1.currentPlayer
          { g1.player g1.currentPlayer with
            materialCaptured := (g1.player g1.currentPlayer).materialCaptured - ep.value })
  else some g

/-- The method `Game::undoLastMove`. -/
def Game.undoLastMove (g : Game) : Option Game :=
  match back g.moveLog with
  | none => some g
  | some lastMove =>
    match (if lastMove.PiecePromoted then g.recreatePawn lastMove else some g) with
    | none => none
    | some g1 =>
      match g1.board.swapSlots lastMove.endSq lastMove.start with
      | none => none
      | some b2 =>
        match b2.setPosition lastMove.start lastMove.start with
        | none => none
        | some b3 =>
          match lastMove.startPiece, deref ({ g1 with board := b3 }).heap lastMove.startPiece with
          | some a, some sp =>
            match (({ g1 with
                board := b3
                currentPlayer :=
                  if sp.color = g1.player1.color then PlayerRef.player1
                  else PlayerRef.player2 }).modifyAt a fun p =>
                { p with moveCount := p.moveCount - 1 }).undoSpecial lastMove with
            | none => none
            | some g4 =>
              match deref g4.heap lastMove.startPiece, popBack g4.moveLog,
                  popBack g4.moveLogText, popBack g4.positions with
              | some sp4, some moveLog, some moveLogText, some positions =>
                some { g4 with
                  moveCount := g4.moveCount - 1
                  turnCount :=
                    g4.turnCount - (if sp4.color = PieceColor.black then 1 else 0)
                  moveLog := moveLog
                  moveLogText := moveLogText
                  positions := positions }
              | _, _, _, _ => none
          | _, _ => none

/-- The method `Game::reset`; `boardResetFn` refills the cleared board when given. -/
def Game.reset (g : Game) (boardResetFn : Option (Board → Board)) : Game :=
  { positions := []
    running := false
    moveLogText := []
    moveLog := []
    board :=
      match boardResetFn with
      | some fn => fn g.board.clear
      | none => g.board.clear.createDefaultPieceMap
    player1 := { g.player1 with capturedPieces := [], materialCaptured := 0 }
    player2 := { g.player2 with capturedPieces := [], materialCaptured := 0 }
    currentPlayer :=
      if g.player1.color = PieceColor.white then PlayerRef.player1 else PlayerRef.player2
    movesUntilDraw := 50
    turnCount := 0
    moveCount := 0 }

/-- One of the two `std::accumulate` calls of `Game::lookForWin`, over the keys still to
visit: the number of legal moves of the pieces of one colour. -/
def Game.countLegalMoves (depth : Nat) (color : PieceColor) (player : Player) :
    Game → List Pos → Option (Nat × Game)
  | g, [] => some (0, g)
  | g, pos :: rest =>
    match g.board.pieceMap pos with
    | none => Game.countLegalMoves depth color player g rest
    | some piece =>
      if piece.color = color then
        match g.getLegalMoves depth piece.addr player with
        | none => none
        | some (moves, g1) =>
          match Game.countLegalMoves depth color player g1 rest with
          | none => none
          | some (count, g2) => some (moves.length + count, g2)
      else Game.countLegalMoves depth color player g rest

/-- The lambda `getMaterial` of `Game::lookForWin`. -/
def getMaterial (b : Board) (color : PieceColor) : Int :=
  ((b.keys.filterMap b.pieceMap).filter fun p => decide (p.color = color)).foldl
    (fun val p => val + p.value) 0

/-- The lambda `hasPawn` of `Game::lookForWin`: true when no pawn of the colour is found. -/
def hasPawn (b : Board) (color : PieceColor) : Bool :=
  ((b.keys.filterMap b.pieceMap).find? fun p =>
    decide (p.letter = 'p' ∧ p.color = color)).isNone

/-- The repetition loop of `Game::lookForWin`: `seen` holds the positions counted so
far. -/
def repetitionLoop (seen : List String) : List String → Bool
  | [] => false
  | pos :: rest =>
    if seen.count pos + 1 = 3 then true else repetitionLoop (pos :: seen) rest

/-- The statement `moveLogText.back() += "#"`. -/
def Game.markMate (g : Game) : Option Game :=
  match back g.moveLogText with
  | none => none
  | some text => some { g with moveLogText := g.moveLogText.dropLast ++ [text ++ "#"] }

/-- The mate and stalemate part of `Game::lookForWin`. -/
def Game.mateSearch (depth : Nat) (g : Game) : Option (WinSearchResult × Game) :=
  match Game.countLegalMoves depth PieceColor.white
      (if g.player1.color = PieceColor.white then g.player1 else g.player2) g g.board.keys with
  | none => none
  | some (numWhiteLegalMoves, g1) =>
    match Game.countLegalMoves depth PieceColor.black
        (if g1.player1.color = PieceColor.black then g1.player1 else g1.player2) g1
        g1.board.keys with
    | none => none
    | some (numBlackLegalMoves, g2) =>
      if numWhiteLegalMoves = 0 then
        match g2.isKingInCheck depth PieceColor.white with
        | none => none
        | some true => g2.markMate.map fun g3 => (WinSearchResult.blackWinCheckmate, g3)
        | some false => some (WinSearchResult.stalemateDraw, g2)
      else if numBlackLegalMoves = 0 then
        match g2.isKingInCheck depth PieceColor.black with
        | none => none
        | some true => g2.markMate.map fun g3 => (WinSearchResult.whiteWinCheckmate, g3)
        | some false => some (WinSearchResult.stalemateDraw, g2)
      else some (WinSearchResult.nothing, g2)

/-- The method `Game::lookForWin`. -/
def Game.lookForWin (depth : Nat) (g : Game) : Option (WinSearchResult × Game) :=
  match g.mateSearch depth with
  | none => none
  | some (ret, g1) =>
    if ret ≠ WinSearchResult.nothing then some (ret, g1)
    else if g1.movesUntilDraw = 0 then some (WinSearchResult.fiftyMoveDraw, g1)
    else if getMaterial g1.board g1.player1.color < 5 ∧ hasPawn g1.board g1.player1.color ∧
        getMaterial g1.board g1.player2.color < 5 ∧ hasPawn g1.board g1.player2.color then
      some (WinSearchResult.materialDraw, g1)
    else if g1.positions.length > 2 ∧ repetitionLoop [] g1.positions then
      some (WinSearchResult.repetitionDraw, g1)
    else some (WinSearchResult.nothing, g1)

/-! ## Notions of the specification -/

/-- The rank step of a pawn of the given colour: up the board for White, down for Black. -/
def fwd (c : PieceColor) : Int := if c = PieceColor.white then 1 else -1

/-- A unit step: each component is -1, 0 or 1 and they are not both 0. -/
def UnitDir (dir : Int × Int) : Prop :=
  (dir.1 = -1 ∨ dir.1 = 0 ∨ dir.1 = 1) ∧ (dir.2 = -1 ∨ dir.2 = 0 ∨ dir.2 = 1) ∧
    ¬(dir.1 = 0 ∧ dir.2 = 0)

/-- The unit step from `s` towards `t`. -/
def lineDir (s t : Pos) : Int × Int := (Int.sign (t.1 - s.1), Int.sign (t.2 - s.2))

/-- The number of steps from `s` to `t` along a rank, a file or a diagonal. -/
def lineLen (s t : Pos) : Int := max (absDistance s t).1 (absDistance s t).2

/-- The board has exactly the squares of the `n` by `n` grid. -/
def DenseBoard (b : Board) (n : Int) : Prop :=
  ∀ p : Pos, b.contains p = true ↔ (1 ≤ p.1 ∧ p.1 ≤ n ∧ 1 ≤ p.2 ∧ p.2 ≤ n)

/-- Square `q` lies strictly between `s` and `t`: it is the `k`-th square on the way from
`s` to `t` for some `0 < k` below the number of steps. -/
def StrictlyBetween (s t q : Pos) : Prop :=
  ∃ k : Int, 0 < k ∧ k < lineLen s t ∧
    q = (s.1 + (lineDir s t).1 * k, s.2 + (lineDir s t).2 * k)

/-- Same rank or same file. -/
def Orthogonal (s t : Pos) : Prop := s.1 = t.1 ∨ s.2 = t.2

/-- Same diagonal. -/
def Diagonal (s t : Pos) : Prop := intAbs (s.1 - t.1) = intAbs (s.2 - t.2)

instance (s t : Pos) : Decidable (Orthogonal s t) := by unfold Orthogonal; infer_instance

instance (s t : Pos) : Decidable (Diagonal s t) := by unfold Diagonal; infer_instance

/-- The scan every sliding piece runs on a line towards `target`. -/
def slideScan (b : Board) (s target : Pos) : Option (Option MoveType) :=
  scanLine b s (lineDir s target) target (lineLen s target).toNat 1 none

/-- The condition under which the specification lets a sliding piece move to `target`:
the target is another square of the board on a line of the piece (rank or file for a
rook, diagonal for a bishop, either for a queen), every square strictly between is empty,
and the target is empty or holds an enemy piece. -/
def SlideAllowed (b : Board) (self : Piece) (target : Pos) : Prop :=
  b.contains target = true ∧ target ≠ self.position ∧
    ((self.kind = PieceKind.rook ∧ Orthogonal self.position target) ∨
      (self.kind = PieceKind.bishop ∧ Diagonal self.position target) ∨
      (self.kind = PieceKind.queen ∧
        (Orthogonal self.position target ∨ Diagonal self.position target))) ∧
    (∀ q, StrictlyBetween self.position target q → b.pieceMap q = none) ∧
    (b.pieceMap target = none ∨ ∃ q, b.pieceMap target = some q ∧ q.color ≠ self.color)

/-- Every piece on the board has its stored position equal to the key of its slot. -/
def Board.inSync (b : Board) : Bool :=
  b.keys.all fun p =>
    match b.pieceMap p with
    | some q => decide (q.position = p)
    | none => true

/-! ## Concrete games -/

/-- The move `Player::handleEvents` returns when the piece selected on `s` is released on
`e`: `{selectedPiece, pieceMap.at(e).get(), selectedPiece->position, e}`. -/
def Game.intent (g : Game) (s e : Pos) : Move :=
  ⟨(g.board.pieceMap s).map Piece.addr, (g.board.pieceMap e).map Piece.addr,
    match g.board.pieceMap s with
    | some p => p.position
    | none => s,
    e, none, false⟩

/-- The intents of a list of moves submitted one after the other to `Game::run`, each
with a mouse event; the result is the game after the last one if every call committed
its move (`turnedPassed`). -/
def Game.play (depth : Nat) : Game → List (Pos × Pos) → Option Game
  | g, [] => some g
  | g, (s, e) :: rest =>
    match g.run depth (some (g.intent s e)) Event.otherEvent with
    | some (RunResult.turnedPassed, g1) => Game.play depth g1 rest
    | _ => none

/-- The example program's game after `reset()` and `start()`: an 8 by 8 board with the
default layout, White as `player1`. -/
def startGame : Game :=
  (((Game.new (Board.new 64 true) (Player.new PieceColor.white)
    (Player.new PieceColor.black)).reset none).start).2

/-- A custom layout: white king a1 and rook h1, black king h8 and rook h7. -/
def pinBoard : Board :=
  ((((Board.new 64 false).emplace PieceKind.king (1, 1) 0 'k' PieceColor.white).emplace
    PieceKind.rook (8, 1) 5 'r' PieceColor.white).emplace
    PieceKind.rook (8, 7) 5 'r' PieceColor.black).emplace
    PieceKind.king (8, 8) 0 'k' PieceColor.black

/-- A started game on `pinBoard`, White (`player1`) to move. -/
def pinGame : Game :=
  ((Game.new pinBoard (Player.new PieceColor.white) (Player.new PieceColor.black)).start).2

/-- A custom layout: white pawn d2 and king e3, black rook e8 and king h8. -/
def shieldBoard : Board :=
  ((((Board.new 64 false).emplace PieceKind.pawn (4, 2) 1 'p' PieceColor.white).emplace
    PieceKind.king (5, 3) 0 'k' PieceColor.white).emplace
    PieceKind.rook (5, 8) 5 'r' PieceColor.black).emplace
    PieceKind.king (8, 8) 0 'k' PieceColor.black

/-- A started game on `shieldBoard`. -/
def shieldGame : Game :=
  ((Game.new shieldBoard (Player.new PieceColor.white) (Player.new PieceColor.black)).start).2

/-- The moves 1. e4 Nf6 2. Ba6 Nh5 3. Bxb7 Nf4 4. a3 Nh3 5. a4 Nxg1. -/
def castleLine : List (Pos × Pos) :=
  [((5, 2), (5, 4)), ((7, 8), (6, 6)), ((6, 1), (1, 6)), ((6, 6), (8, 5)), ((1, 6), (2, 7)),
    ((8, 5), (6, 4)), ((1, 2), (1, 3)), ((6, 4), (8, 3)), ((1, 3), (1, 4)), ((8, 3), (7, 1))]

/-- The moves 1. e4 a6 2. e5 d5. -/
def enPassantLine : List (Pos × Pos) :=
  [((5, 2), (5, 4)), ((1, 7), (1, 6)), ((5, 4), (5, 5)), ((4, 7), (4, 5))]

/-- The moves 1. h4 a6 2. h5 a5 3. h6 a4 4. hxg7 a3 5. gxh8. -/
def promotionLine : List (Pos × Pos) :=
  [((8, 2), (8, 4)), ((1, 7), (1, 6)), ((8, 4), (8, 5)), ((1, 6), (1, 5)), ((8, 5), (8, 6)),
    ((1, 5), (1, 4)), ((8, 6), (7, 7)), ((1, 4), (1, 3)), ((7, 7), (8, 8))]

/-- A custom layout: white pawn e5 and knight d6, black pawn d5. -/
def ownTargetBoard : Board :=
  (((Board.new 64 false).emplace PieceKind.pawn (5, 5) 1 'p' PieceColor.white).emplace
    PieceKind.knight (4, 6) 3 'n' PieceColor.white).emplace
    PieceKind.pawn (4, 5) 1 'p' PieceColor.black

/-- The pieces on `ownTargetBoard`, by address. -/
def ownTargetHeap : Heap := fun a => findAddr a (ownTargetBoard.keys.map ownTargetBoard.pieceMap)

/-- The white pawn on e5 of `ownTargetBoard`. -/
def ownTargetPawn : Piece := ⟨1, PieceKind.pawn, (5, 5), 1, 'p', PieceColor.white, 0⟩

/-- The double step d7-d5 of the black pawn of `ownTargetBoard`, as a logged move. -/
def ownTargetLastMove : Move := ⟨some 3, none, (4, 7), (4, 5), some MoveType.normal, false⟩

/-- A custom layout: a white pawn on e3 that has not moved. -/
def thirdRankBoard : Board :=
  (Board.new 64 false).emplace PieceKind.pawn (5, 3) 1 'p' PieceColor.white

/-- The white pawn on e3 of `thirdRankBoard`. -/
def thirdRankPawn : Piece := ⟨1, PieceKind.pawn, (5, 3), 1, 'p', PieceColor.white, 0⟩

/-- A custom layout: white rook a1 and white pawn a4. -/
def fileBoard : Board :=
  ((Board.new 64 false).emplace PieceKind.rook (1, 1) 5 'r' PieceColor.white).emplace
    PieceKind.pawn (1, 4) 1 'p' PieceColor.white

/-- The white rook on a1 of `fileBoard`. -/
def fileRook : Piece := ⟨1, PieceKind.rook, (1, 1), 5, 'r', PieceColor.white, 0⟩

/-! ## Conditions of the specification and concrete positions for the special moves -/

/-- The conditions of the specification on the preceding move `lm`, made by the piece `sp`,
for an en-passant capture by `self` onto `target`: `sp` is an enemy pawn, the move covered
two ranks and ended on the square directly beside `self` (same rank, adjacent file), and
`target` is the square one rank ahead of `self` in the file of that pawn. -/
def EnPassantAllowed (self : Piece) (target : Pos) (lm : Move) (sp : Piece) : Prop :=
  sp.letter = 'p' ∧ sp.color ≠ self.color ∧ (absDistance lm.start lm.endSq).2 = 2 ∧
    lm.endSq.2 = self.position.2 ∧
    (lm.endSq.1 = self.position.1 + 1 ∨ lm.endSq.1 = self.position.1 - 1) ∧
    target = (lm.endSq.1, self.position.2 + fwd self.color)

instance (self : Piece) (target : Pos) (lm : Move) (sp : Piece) :
    Decidable (EnPassantAllowed self target lm sp) := by
  unfold EnPassantAllowed; infer_instance

/-- The condition of the specification for a knight move: the absolute (file, rank) offset
is (2, 1) or (1, 2) and the target is empty or holds an enemy piece. -/
def KnightAllowed (b : Board) (self : Piece) (target : Pos) : Prop :=
  (absDistance self.position target = (2, 1) ∨ absDistance self.position target = (1, 2)) ∧
    (b.pieceMap target = none ∨ ∃ q, b.pieceMap target = some q ∧ q.color ≠ self.color)

/-- A custom layout: white pawn e5, black pawns d5 and a6. -/
def passingBoard : Board :=
  (((Board.new 64 false).emplace PieceKind.pawn (5, 5) 1 'p' PieceColor.white).emplace
    PieceKind.pawn (4, 5) 1 'p' PieceColor.black).emplace
    PieceKind.pawn (1, 6) 1 'p' PieceColor.black

/-- The pieces on `passingBoard`, by address. -/
def passingHeap : Heap := fun a => findAddr a (passingBoard.keys.map passingBoard.pieceMap)

/-- The white pawn on e5 of `passingBoard`. -/
def passingPawn : Piece := ⟨1, PieceKind.pawn, (5, 5), 1, 'p', PieceColor.white, 2⟩

/-- The black pawn on d5 of `passingBoard`. -/
def passedPawn : Piece := ⟨2, PieceKind.pawn, (4, 5), 1, 'p', PieceColor.black, 0⟩

/-- The black pawn on a6 of `passingBoard`. -/
def idlePawn : Piece := ⟨3, PieceKind.pawn, (1, 6), 1, 'p', PieceColor.black, 0⟩

/-- The double step d7-d5 of the black pawn of `passingBoard`, as a logged move. -/
def passingLastMove : Move := ⟨some 2, none, (4, 7), (4, 5), some MoveType.normal, false⟩

/-- The single step a7-a6 of the other black pawn of `passingBoard`, as a logged move. -/
def idleLastMove : Move := ⟨some 3, none, (1, 7), (1, 6), some MoveType.normal, false⟩

/-- A custom layout: white king e1 and rook h1, black king e8. -/
def castleBoard : Board :=
  (((Board.new 64 false).emplace PieceKind.king (5, 1) 0 'k' PieceColor.white).emplace
    PieceKind.rook (8, 1) 5 'r' PieceColor.white).emplace
    PieceKind.king (5, 8) 0 'k' PieceColor.black

/-- The pieces on `castleBoard`, by address. -/
def castleHeap : Heap := fun a => findAddr a (castleBoard.keys.map castleBoard.pieceMap)

/-- The white king on e1 of `castleBoard`. -/
def castleKing : Piece := ⟨1, PieceKind.king, (5, 1), 0, 'k', PieceColor.white, 0⟩

/-- The white knight on b1 of the starting position. -/
def startKnight : Piece := ⟨53, PieceKind.knight, (2, 1), 3, 'n', PieceColor.white, 0⟩

/-- The moves 1. Nf3 a6 2. g3 a5 3. Bg2 a4 4. Rg1 b6 5. Rh1 b5: the white rook has left
h1 and come back. -/
def rookReturnLine : List (Pos × Pos) :=
  [((7, 1), (6, 3)), ((1, 7), (1, 6)), ((7, 2), (7, 3)), ((1, 6), (1, 5)), ((6, 1), (7, 2)),
    ((1, 5), (1, 4)), ((8, 1), (7, 1)), ((2, 7), (2, 6)), ((7, 1), (8, 1)), ((2, 6), (2, 5))]

/-- The moves 1. e4 b6 2. Bc4 Ba6 3. Bd5 c6 4. Nf3 h6: the black bishop on a6 looks down
the open diagonal to f1. -/
def bishopLine : List (Pos × Pos) :=
  [((5, 2), (5, 4)), ((2, 7), (2, 6)), ((6, 1), (3, 4)), ((3, 8), (1, 6)), ((3, 4), (4, 5)),
    ((3, 7), (3, 6)), ((7, 1), (6, 3)), ((8, 7), (8, 6))]

/-- The moves 1. e4 Nf6 2. Ba6 Nh5 3. a3 Nf4 4. a4 Nh3 5. a5 Nxg1: White has captured
nothing and the black knight stands on g1. -/
def quietLine : List (Pos × Pos) :=
  [((5, 2), (5, 4)), ((7, 8), (6, 6)), ((6, 1), (1, 6)), ((6, 6), (8, 5)), ((1, 2), (1, 3)),
    ((8, 5), (6, 4)), ((1, 3), (1, 4)), ((6, 4), (8, 3)), ((1, 4), (1, 5)), ((8, 3), (7, 1))]

/-- The sum of the values of the pieces of a captured list. -/
def capturedValue (captured : List (Option Piece)) : Int :=
  (captured.map fun s => match s with
    | some p => p.value
    | none => 0).sum

/-- The moves 1. e4 Nf6 2. Ba6 Nh5 3. Bxb7 Nf4 4. Nf3 Nh3 5. Nd4 Ng1: the last capture and
the last pawn move are five plies back, and the black knight stands on the empty g1. -/
def countdownLine : List (Pos × Pos) :=
  [((5, 2), (5, 4)), ((7, 8), (6, 6)), ((6, 1), (1, 6)), ((6, 6), (8, 5)), ((1, 6), (2, 7)),
    ((8, 5), (6, 4)), ((7, 1), (6, 3)), ((6, 4), (8, 3)), ((6, 3), (4, 4)), ((8, 3), (7, 1))]

/-! ## Conditions of the specification and concrete positions for promotion and the end
of the game -/

/-- The promotion choices of the specification: the key, and the type, value and letter of
the piece it asks for. -/
def promotionOf : Key → Option (PieceKind × Int × Char)
  | Key.q => some (PieceKind.queen, 9, 'q')
  | Key.r => some (PieceKind.rook, 5, 'r')
  | Key.n => some (PieceKind.knight, 3, 'n')
  | Key.b => some (PieceKind.bishop, 3, 'b')
  | Key.otherKey => none

/-- The two `std::accumulate` calls of `Game::lookForWin`: the number of legal moves
counted for White, the number counted for Black, and the game as the two enumerations
leave it. -/
def Game.moveCounts (depth : Nat) (g : Game) : Option (Nat × Nat × Game) :=
  match Game.countLegalMoves depth PieceColor.white
      (if g.player1.color = PieceColor.white then g.player1 else g.player2) g g.board.keys with
  | none => none
  | some (numWhiteLegalMoves, g1) =>
    match Game.countLegalMoves depth PieceColor.black
        (if g1.player1.color = PieceColor.black then g1.player1 else g1.player2) g1
        g1.board.keys with
    | none => none
    | some (numBlackLegalMoves, g2) => some (numWhiteLegalMoves, numBlackLegalMoves, g2)

/-- What the legal-move enumeration leaves alone: the position history, the fifty-move
countdown and the colours of the two players. -/
def Game.SameCounters (g g' : Game) : Prop :=
  g'.positions = g.positions ∧ g'.movesUntilDraw = g.movesUntilDraw ∧
    g'.player1.color = g.player1.color ∧ g'.player2.color = g.player2.color

/-- The material of one colour that remains on the board: the sum of the values of its
pieces. -/
def Board.materialOf (b : Board) (color : PieceColor) : Int :=
  (((b.keys.filterMap b.pieceMap).filter fun p => decide (p.color = color)).map
    Piece.value).sum

/-- Some piece on the board is a pawn of the colour. -/
def Board.hasPawnOf (b : Board) (color : PieceColor) : Prop :=
  ∃ p ∈ b.keys.filterMap b.pieceMap, p.letter = 'p' ∧ p.color = color

/-- The condition of the specification for an insufficient-material draw between the
colours `c1` and `c2`: each has material below 5 and neither has a pawn. -/
def Board.Insufficient (b : Board) (c1 c2 : PieceColor) : Prop :=
  b.materialOf c1 < 5 ∧ ¬b.hasPawnOf c1 ∧ b.materialOf c2 < 5 ∧ ¬b.hasPawnOf c2

instance (b : Board) (c1 c2 : PieceColor) : Decidable (b.Insufficient c1 c2) := by
  unfold Board.Insufficient Board.hasPawnOf; infer_instance

/-- Some fingerprint of the history occurs in it at least three times. -/
def Threefold (positions : List String) : Prop :=
  ∃ s ∈ positions, 3 ≤ positions.count s

instance (positions : List String) : Decidable (Threefold positions) := by
  unfold Threefold; infer_instance

/-- Two boards agree on a list of squares in what the fingerprint records of a square:
whether it is occupied and the notation letter of its piece. -/
def SameLetters (b b' : Board) (keys : List Pos) : Prop :=
  ∀ k ∈ keys, (b.pieceMap k).map Piece.letter = (b'.pieceMap k).map Piece.letter

/-- The game after a list of moves played from `g`, or `g` itself when a move of the list
is not committed. -/
def Game.after (g : Game) (moves : List (Pos × Pos)) : Game := (g.play 1 moves).getD g

/-- The fool's mate 1. f3 e5 2. g4 Qh4. -/
def foolsLine : List (Pos × Pos) :=
  [((6, 2), (6, 3)), ((5, 7), (5, 5)), ((7, 2), (7, 4)), ((4, 8), (8, 4))]

/-- The scholar's mate 1. e4 e5 2. Bc4 Nc6 3. Qh5 Nf6 4. Qxf7. -/
def scholarsLine : List (Pos × Pos) :=
  [((5, 2), (5, 4)), ((5, 7), (5, 5)), ((6, 1), (3, 4)), ((2, 8), (3, 6)), ((4, 1), (8, 5)),
    ((7, 8), (6, 6)), ((8, 5), (6, 7))]

/-- A custom layout: white king c6, bishop a6 and pawn h2, black king a8 and pawns a7
and h4. -/
def blockedBoard : Board :=
  ((((((Board.new 64 false).emplace PieceKind.king (3, 6) 0 'k' PieceColor.white).emplace
    PieceKind.bishop (1, 6) 3 'b' PieceColor.white).emplace
    PieceKind.pawn (8, 2) 1 'p' PieceColor.white).emplace
    PieceKind.king (1, 8) 0 'k' PieceColor.black).emplace
    PieceKind.pawn (1, 7) 1 'p' PieceColor.black).emplace
    PieceKind.pawn (8, 4) 1 'p' PieceColor.black

/-- A started game on `blockedBoard`, White (`player1`) to move. -/
def blockedGame : Game :=
  ((Game.new blockedBoard (Player.new PieceColor.white) (Player.new PieceColor.black)).start).2

/-- The moves 1. Kc7 h3 on `blockedBoard`: Black's king and pawns cannot move without
coming next to the white king, and it is White's turn. -/
def blockedLine : List (Pos × Pos) := [((3, 6), (3, 7)), ((8, 4), (8, 3))]

/-- A custom layout: white king e1 and a white piece on c1, black king e8. -/
def minorBoard (kind : PieceKind) (value : Int) (letter : Char) : Board :=
  (((Board.new 64 false).emplace PieceKind.king (5, 1) 0 'k' PieceColor.white).emplace
    kind (3, 1) value letter PieceColor.white).emplace
    PieceKind.king (5, 8) 0 'k' PieceColor.black

/-- A started game on `minorBoard`, White (`player1`) to move. -/
def minorGame (kind : PieceKind) (value : Int) (letter : Char) : Game :=
  ((Game.new (minorBoard kind value letter) (Player.new PieceColor.white)
    (Player.new PieceColor.black)).start).2

/-- A custom layout: white king e1 and rook b2, black king e8 and rook b7. -/
def shuffleBoard : Board :=
  ((((Board.new 64 false).emplace PieceKind.king (5, 1) 0 'k' PieceColor.white).emplace
    PieceKind.rook (2, 2) 5 'r' PieceColor.white).emplace
    PieceKind.king (5, 8) 0 'k' PieceColor.black).emplace
    PieceKind.rook (2, 7) 5 'r' PieceColor.black

/-- A started game on `shuffleBoard`, White (`player1`) to move. -/
def shuffleGame : Game :=
  ((Game.new shuffleBoard (Player.new PieceColor.white) (Player.new PieceColor.black)).start).2

/-- The move pair 1. Rc2 Rc7 2. Rb2 Rb7 on `shuffleBoard`, after which the layout is the
initial one again. -/
def shufflePair : List (Pos × Pos) :=
  [((2, 2), (3, 2)), ((2, 7), (3, 7)), ((3, 2), (2, 2)), ((3, 7), (2, 7))]

/-- A custom layout: a white pawn on e4. -/
def whitePawnBoard : Board :=
  (Board.new 64 false).emplace PieceKind.pawn (5, 4) 1 'p' PieceColor.white

/-- A custom layout: a black pawn on e4. -/
def blackPawnBoard : Board :=
  (Board.new 64 false).emplace PieceKind.pawn (5, 4) 1 'p' PieceColor.black

/-- The move pair 1. Bd2 Kd8 2. Bc1 Ke8 on `minorBoard` with a bishop. -/
def minorPair : List (Pos × Pos) :=
  [((3, 1), (4, 2)), ((5, 8), (4, 8)), ((4, 2), (3, 1)), ((4, 8), (5, 8))]

/-- Fifty plies on `minorBoard` with a bishop: `minorPair` twelve times and its first two
moves once more. -/
def fiftyLine : List (Pos × Pos) :=
  (List.replicate 12 minorPair).flatten ++ minorPair.take 2

/-- The notation letter `createDefaultPieceMap` and the promotion handler give to a piece
of each type. -/
def letterOf : PieceKind → Char
  | PieceKind.pawn => 'p'
  | PieceKind.rook => 'r'
  | PieceKind.knight => 'n'
  | PieceKind.bishop => 'b'
  | PieceKind.queen => 'q'
  | PieceKind.king => 'k'

/-- Every piece on the listed squares carries the notation letter of its type. -/
def StandardLetters (b : Board) (keys : List Pos) : Prop :=
  ∀ k ∈ keys, ∀ p, b.pieceMap k = some p → p.letter = letterOf p.kind

/-- Two boards agree on a list of squares in occupancy and piece type. -/
def SameKinds (b b' : Board) (keys : List Pos) : Prop :=
  ∀ k ∈ keys, (b.pieceMap k).map Piece.kind = (b'.pieceMap k).map Piece.kind

/-- Two boards agree on a list of squares in occupancy, piece type and colour: every square
is empty in both or holds a piece of the same type and the same colour in both. -/
def SameKindsAndColours (b b' : Board) (keys : List Pos) : Prop :=
  ∀ k ∈ keys, (b.pieceMap k).map (fun p => (p.kind, p.color)) =
    (b'.pieceMap k).map fun p => (p.kind, p.color)

instance (b : Board) (keys : List Pos) : Decidable (StandardLetters b keys) := by
  unfold StandardLetters
  exact List.decidableBAll _ _

/-! ## Definitions for the claims on invariants, `reset` and the counters -/

/-- What the engine reads of a slot apart from the address of the object: type, letter,
value and colour of the piece, its stored position and its move-count. -/
def slotData (slot : Option Piece) :
    Option ((PieceKind × Char × Int × PieceColor) × Pos × Int) :=
  slot.map fun q => ((q.kind, q.letter, q.value, q.color), q.position, q.moveCount)

/-- The pieces of the first and of the last rank of the standard layout, by file: rooks on
a and h, knights on b and g, bishops on c and f, the queen on d and the king on e. -/
def backRank (file : Int) : Option (PieceKind × Char × Int) :=
  if file = 1 ∨ file = 8 then some (PieceKind.rook, 'r', 5)
  else if file = 2 ∨ file = 7 then some (PieceKind.knight, 'n', 3)
  else if file = 3 ∨ file = 6 then some (PieceKind.bishop, 'b', 3)
  else if file = 4 then some (PieceKind.queen, 'q', 9)
  else if file = 5 then some (PieceKind.king, 'k', 0)
  else none

/-- The standard starting layout in the words of the specification: pawns on ranks 2 and
7, the pieces of `backRank` on ranks 1 and 8, White on ranks 1 and 2. -/
def standardSlot (p : Pos) : Option (PieceKind × Char × Int × PieceColor) :=
  if p.2 = 2 then some (PieceKind.pawn, 'p', 1, PieceColor.white)
  else if p.2 = 7 then some (PieceKind.pawn, 'p', 1, PieceColor.black)
  else if p.2 = 1 then (backRank p.1).map fun x => (x.1, x.2.1, x.2.2, PieceColor.white)
  else if p.2 = 8 then (backRank p.1).map fun x => (x.1, x.2.1, x.2.2, PieceColor.black)
  else none

/-- Two boards with the same keys and size whose slots hold the same data. -/
def Board.Alike (b b' : Board) : Prop :=
  b.keys = b'.keys ∧ b.numSquares = b'.numSquares ∧
    ∀ p, slotData (b.pieceMap p) = slotData (b'.pieceMap p)

/-- The kings on the board, in map order: colour and square. -/
def kingsOf (b : Board) : List (PieceColor × Pos) :=
  (b.keys.filter fun k => (b.pieceMap k).any fun p => decide (p.kind = PieceKind.king)).filterMap
    fun k => (b.pieceMap k).map fun p => (p.color, k)

/-- The letter, the colour and the stored position of the piece on a square. -/
def Board.look (b : Board) (p : Pos) : Option (Char × PieceColor × Pos) :=
  (b.pieceMap p).map fun q => (q.letter, q.color, q.position)

/-- Equality of what `Board.look` returns is decidable. -/
instance decEqLook : DecidableEq (Option (Char × PieceColor × Pos)) := inferInstance

/-- The moves 1. h4 e6 2. h5 Be7 3. h6 Nf6 4. hxg7 a6 5. gxh8, after which a white pawn
stands unpromoted on h8 and f8 and g8 are empty. -/
def huntLine : List (Pos × Pos) :=
  [((8, 2), (8, 4)), ((5, 7), (5, 6)), ((8, 4), (8, 5)), ((6, 8), (5, 7)), ((8, 5), (8, 6)),
    ((7, 8), (6, 6)), ((8, 6), (7, 7)), ((1, 7), (1, 6)), ((7, 7), (8, 8))]

/-- A layout function for `reset`: white king e1, rooks a1 and h1 and pawn h2, black
knights c1 and g1, pawn g3 and king e8. -/
def crowdedSetup (b : Board) : Board :=
  (((((((b.emplace PieceKind.king (5, 1) 0 'k' PieceColor.white).emplace
    PieceKind.rook (1, 1) 5 'r' PieceColor.white).emplace
    PieceKind.rook (8, 1) 5 'r' PieceColor.white).emplace
    PieceKind.pawn (8, 2) 1 'p' PieceColor.white).emplace
    PieceKind.knight (3, 1) 3 'n' PieceColor.black).emplace
    PieceKind.knight (7, 1) 3 'n' PieceColor.black).emplace
    PieceKind.pawn (7, 3) 1 'p' PieceColor.black).emplace
    PieceKind.king (5, 8) 0 'k' PieceColor.black

/-- A game on an 8 by 8 board after `reset(crowdedSetup)` and `start()`, White
(`player1`) to move. -/
def crowdedGame : Game :=
  (((Game.new (Board.new 64 false) (Player.new PieceColor.white)
    (Player.new PieceColor.black)).reset (some crowdedSetup)).start).2

/-- The moves 1. hxg3 Ke7 on the board of `crowdedGame`. -/
def crowdedLine : List (Pos × Pos) := [((8, 2), (7, 3)), ((5, 8), (5, 7))]

/-- A layout function for `reset`: white king b1 and black king b3. -/
def tinySetup (b : Board) : Board :=
  (b.emplace PieceKind.king (2, 1) 0 'k' PieceColor.white).emplace
    PieceKind.king (2, 3) 0 'k' PieceColor.black

/-- A game on a 3 by 3 board after `reset(tinySetup)` and `start()`, White (`player1`) to
move. -/
def tinyGame : Game :=
  (((Game.new (Board.new 9 false) (Player.new PieceColor.white)
    (Player.new PieceColor.black)).reset (some tinySetup)).start).2

/-- The move pair 1. Ka1 Ka3 2. Kb1 Kb3 on the 3 by 3 board, after which the layout is the
initial one again. -/
def tinyPair : List (Pos × Pos) :=
  [((2, 1), (1, 1)), ((2, 3), (1, 3)), ((1, 1), (2, 1)), ((1, 3), (2, 3))]

/-- The first `n` plies of `tinyPair` played over and over. -/
def tinyLine (n : Nat) : List (Pos × Pos) :=
  ((List.replicate (n / 4 + 1) tinyPair).flatten).take n

/-- The three counters of a game: `moveCount`, `turnCount` and `movesUntilDraw`. -/
def Game.tallies (g : Game) : Int × Int × Int := (g.moveCount, g.turnCount, g.movesUntilDraw)

/-- Equality of what `Game.tallies` returns is decidable. -/
instance decEqTallies : DecidableEq (Int × Int × Int) := inferInstance

/-- The side to move and the colours of the two players. -/
def Game.sides (g : Game) : PlayerRef × PieceColor × PieceColor :=
  (g.currentPlayer, g.player1.color, g.player2.color)

/-- A list of calls of `Game::run`, each with the intent and the event it receives; the
result is the game after the last call. -/
def Game.runs (depth : Nat) : Game → List (Option Move × Event) → Option Game
  | g, [] => some g
  | g, (intent, event) :: rest =>
    match g.run depth intent event with
    | none => none
    | some (_, g1) => Game.runs depth g1 rest

/-- What the legality test, the promotion and the moves on the board leave alone: the
three counters, the side to move and the colours of the two players. -/
def Game.SameTallies (g g' : Game) : Prop := g'.tallies = g.tallies ∧ g'.sides = g.sides

/-- A layout function for `reset`: white king b1, a white piece on `p` and black king
b3. -/
def smallSetup (kind : PieceKind) (value : Int) (letter : Char) (p : Pos) (b : Board) : Board :=
  ((b.emplace PieceKind.king (2, 1) 0 'k' PieceColor.white).emplace kind p value letter
    PieceColor.white).emplace PieceKind.king (2, 3) 0 'k' PieceColor.black

/-- A game on a 3 by 3 board after `reset(smallSetup ...)` and `start()`, White
(`player1`) to move. -/
def smallGame (kind : PieceKind) (value : Int) (letter : Char) (p : Pos) : Game :=
  (((Game.new (Board.new 9 false) (Player.new PieceColor.white)
    (Player.new PieceColor.black)).reset (some (smallSetup kind value letter p))).start).2

/-- The move pair 1. Kc1 Kc3 2. Kb1 Kb3 on the 3 by 3 board, after which the layout is the
initial one again. -/
def kingPair : List (Pos × Pos) :=
  [((2, 1), (3, 1)), ((2, 3), (3, 3)), ((3, 1), (2, 1)), ((3, 3), (2, 3))]

/-! ## Lemmas on the scans and directions -/

theorem step_eq_iff (position dir : Int × Int) (hd : UnitDir dir) (i m : Int) :
    (position.1 + dir.1 * i, position.2 + dir.2 * i) =
      (position.1 + dir.1 * m, position.2 + dir.2 * m) ↔ i = m := by
  obtain ⟨d1, d2⟩ := dir
  obtain ⟨h1, h2, h3⟩ := hd
  simp only at h1 h2 h3
  simp only [Prod.mk.injEq]
  rcases h1 with h1 | h1 | h1 <;> rcases h2 with h2 | h2 | h2 <;> subst h1 <;> subst h2 <;>
    omega

/-- When every square before the target is an empty slot, the scan ends with `normal`. -/
theorem scanLine_clear (b : Board) (position dir : Int × Int) (hd : UnitDir dir) (m : Int) :
    ∀ (k : Nat) (i : Int) (ret : Option MoveType), 0 < k → i + k = m + 1 →
      (∀ j : Int, i ≤ j → j < m →
        b.slotAt (position.1 + dir.1 * j, position.2 + dir.2 * j) = some none) →
      scanLine b position dir (position.1 + dir.1 * m, position.2 + dir.2 * m) k i ret =
        some (some MoveType.normal) := by
  intro k
  induction k with
  | zero => intro i ret h0; omega
  | succ k ih =>
    intro i ret _ hik hfree
    rw [scanLine]
    by_cases him : i = m
    · have hk : k = 0 := by omega
      subst hk
      rw [if_pos ((step_eq_iff position dir hd i m).2 him)]
      rfl
    · rw [if_neg (fun h => him ((step_eq_iff position dir hd i m).1 h))]
      rw [hfree i (le_refl i) (by omega)]
      exact ih (i + 1) ret (by omega) (by omega) (fun j h1 h2 => hfree j (by omega) h2)

/-- A scan that returns a category returned `normal` and met only empty slots. -/
theorem scanLine_some (b : Board) (position dir : Int × Int) (hd : UnitDir dir) (m : Int) :
    ∀ (k : Nat) (i : Int) (ret : Option MoveType) (t : MoveType), 0 < k → i + k = m + 1 →
      scanLine b position dir (position.1 + dir.1 * m, position.2 + dir.2 * m) k i ret =
        some (some t) →
      t = MoveType.normal ∧ ∀ j : Int, i ≤ j → j < m →
        b.slotAt (position.1 + dir.1 * j, position.2 + dir.2 * j) = some none := by
  intro k
  induction k with
  | zero => intro i ret t h0; omega
  | succ k ih =>
    intro i ret t _ hik h
    rw [scanLine] at h
    by_cases him : i = m
    · have hk : k = 0 := by omega
      subst hk
      rw [if_pos ((step_eq_iff position dir hd i m).2 him)] at h
      simp only [scanLine, Option.some.injEq] at h
      exact ⟨h.symm, fun j h1 h2 => by omega⟩
    · rw [if_neg (fun h => him ((step_eq_iff position dir hd i m).1 h))] at h
      split at h
      · simp at h
      · simp at h
      · rename_i hslot
        obtain ⟨ht, hrest⟩ := ih (i + 1) ret t (by omega) (by omega) h
        refine ⟨ht, fun j h1 h2 => ?_⟩
        by_cases hji : j = i
        · subst hji; exact hslot
        · exact hrest j (by omega) h2

/-- On squares of the board the scan never faults: it returns `normal` or nothing. -/
theorem scanLine_total (b : Board) (position dir : Int × Int) (hd : UnitDir dir) (m : Int) :
    ∀ (k : Nat) (i : Int) (ret : Option MoveType), 0 < k → i + k = m + 1 →
      (∀ j : Int, i ≤ j → j < m →
        b.contains (position.1 + dir.1 * j, position.2 + dir.2 * j) = true) →
      scanLine b position dir (position.1 + dir.1 * m, position.2 + dir.2 * m) k i ret =
          some (some MoveType.normal) ∨
        scanLine b position dir (position.1 + dir.1 * m, position.2 + dir.2 * m) k i ret =
          some none := by
  intro k
  induction k with
  | zero => intro i ret h0; omega
  | succ k ih =>
    intro i ret _ hik hon
    rw [scanLine]
    by_cases him : i = m
    · have hk : k = 0 := by omega
      subst hk
      rw [if_pos ((step_eq_iff position dir hd i m).2 him)]
      exact Or.inl rfl
    · rw [if_neg (fun h => him ((step_eq_iff position dir hd i m).1 h))]
      have hc := hon i (le_refl i) (by omega)
      simp only [Board.slotAt, hc, if_true]
      cases hq : b.pieceMap (position.1 + dir.1 * i, position.2 + dir.2 * i) with
      | none => exact ih (i + 1) ret (by omega) (by omega) (fun j h1 h2 => hon j (by omega) h2)
      | some q => exact Or.inr rfl

theorem sign_cases (x : Int) :
    (x < 0 ∧ Int.sign x = -1) ∨ (x = 0 ∧ Int.sign x = 0) ∨ (0 < x ∧ Int.sign x = 1) := by
  rcases lt_trichotomy x 0 with h | h | h
  · exact Or.inl ⟨h, Int.sign_eq_neg_one_of_neg h⟩
  · exact Or.inr (Or.inl ⟨h, by rw [h]; rfl⟩)
  · exact Or.inr (Or.inr ⟨h, Int.sign_eq_one_of_pos h⟩)

theorem intAbs_cases (x : Int) : (x < 0 ∧ intAbs x = -x) ∨ (0 ≤ x ∧ intAbs x = x) := by
  unfold intAbs; split <;> omega

theorem cdiv_intAbs (x : Int) :
    cdiv x (if x = 0 then 1 else intAbs x) = some (Int.sign x) := by
  unfold cdiv intAbs
  rcases sign_cases x with ⟨h, hs⟩ | ⟨h, hs⟩ | ⟨h, hs⟩
  · rw [hs, if_neg (by omega), if_pos h, if_neg (by omega), Int.tdiv_neg,
      Int.tdiv_self (by omega)]
  · subst h; simp
  · rw [hs, if_neg (by omega), if_neg (by omega), if_neg (by omega), Int.tdiv_self (by omega)]

theorem cdiv_intAbs_ne (x : Int) (hx : x ≠ 0) : cdiv x (intAbs x) = some (Int.sign x) := by
  have := cdiv_intAbs x
  rwa [if_neg hx] at this

theorem cdiv_zero (x : Int) : cdiv x 0 = none := by simp [cdiv]

theorem sign_sub_neg (a b : Int) : Int.sign (a - b) * -1 = Int.sign (b - a) := by
  rcases sign_cases (a - b) with ⟨h, hs⟩ | ⟨h, hs⟩ | ⟨h, hs⟩ <;>
    rcases sign_cases (b - a) with ⟨h', hs'⟩ | ⟨h', hs'⟩ | ⟨h', hs'⟩ <;>
    omega

theorem orthDir_eq (s t : Pos) : orthDir s t = some (lineDir s t) := by
  simp only [orthDir, relativeDistance, absDistance, cdiv_intAbs, lineDir, Option.bind_eq_bind,
    Option.some_bind, sign_sub_neg]

theorem diagDir_eq (s t : Pos) (h1 : s.1 ≠ t.1) (h2 : s.2 ≠ t.2) :
    diagDir s t = some (lineDir s t) := by
  simp only [diagDir, relativeDistance, absDistance, cdiv_intAbs_ne _ (sub_ne_zero.2 h1),
    cdiv_intAbs_ne _ (sub_ne_zero.2 h2), lineDir, Option.bind_eq_bind,
    Option.some_bind, sign_sub_neg]

theorem diagDir_same (s t : Pos) (h1 : s.1 = t.1) : diagDir s t = none := by
  simp [diagDir, relativeDistance, absDistance, h1, intAbs, cdiv]


theorem line_geometry (s t : Pos) (hne : t ≠ s) (hl : Orthogonal s t ∨ Diagonal s t) :
    UnitDir (lineDir s t) ∧ 1 ≤ lineLen s t ∧
      t = (s.1 + (lineDir s t).1 * lineLen s t, s.2 + (lineDir s t).2 * lineLen s t) := by
  obtain ⟨s1, s2⟩ := s
  obtain ⟨t1, t2⟩ := t
  have hne' : ¬(t1 = s1 ∧ t2 = s2) := fun h => hne (by rw [h.1, h.2])
  simp only [Orthogonal, Diagonal, UnitDir, lineDir, lineLen, absDistance, Prod.mk.injEq] at *
  rcases sign_cases (t1 - s1) with ⟨h1, hs1⟩ | ⟨h1, hs1⟩ | ⟨h1, hs1⟩ <;>
    rcases sign_cases (t2 - s2) with ⟨h2, hs2⟩ | ⟨h2, hs2⟩ | ⟨h2, hs2⟩ <;>
    rcases intAbs_cases (s1 - t1) with ⟨ha1, he1⟩ | ⟨ha1, he1⟩ <;>
    rcases intAbs_cases (s2 - t2) with ⟨ha2, he2⟩ | ⟨ha2, he2⟩ <;>
    rw [hs1, hs2, he1, he2] <;> rw [he1, he2] at hl <;> omega

theorem between_on_board (b : Board) (n : Int) (hb : DenseBoard b n) (s t : Pos)
    (hs : b.contains s = true) (ht : b.contains t = true) (hne : t ≠ s)
    (hl : Orthogonal s t ∨ Diagonal s t) (j : Int) (h1 : 1 ≤ j) (h2 : j < lineLen s t) :
    b.contains (s.1 + (lineDir s t).1 * j, s.2 + (lineDir s t).2 * j) = true := by
  obtain ⟨_, _, hgeo⟩ := line_geometry s t hne hl
  rw [hb] at hs ht ⊢
  obtain ⟨s1, s2⟩ := s
  obtain ⟨t1, t2⟩ := t
  simp only [lineDir, Prod.mk.injEq] at *
  generalize lineLen (s1, s2) (t1, t2) = m at *
  rcases sign_cases (t1 - s1) with ⟨h1, hs1⟩ | ⟨h1, hs1⟩ | ⟨h1, hs1⟩ <;>
    rcases sign_cases (t2 - s2) with ⟨h2, hs2⟩ | ⟨h2, hs2⟩ | ⟨h2, hs2⟩ <;>
    rw [hs1, hs2] at hgeo ⊢ <;> omega

/-- The scan of a sliding piece towards a square on its line, on a dense board: it
returns `normal` when the squares strictly between are empty and nothing otherwise. -/
theorem slideScan_spec (b : Board) (n : Int) (hb : DenseBoard b n) (s t : Pos)
    (hs : b.contains s = true) (ht : b.contains t = true) (hne : t ≠ s)
    (hl : Orthogonal s t ∨ Diagonal s t) :
    ((∀ q, StrictlyBetween s t q → b.pieceMap q = none) →
        slideScan b s t = some (some MoveType.normal)) ∧
      (¬(∀ q, StrictlyBetween s t q → b.pieceMap q = none) → slideScan b s t = some none) := by
  obtain ⟨hd, hlen, hgeo⟩ := line_geometry s t hne hl
  have hk : 0 < (lineLen s t).toNat := by omega
  have hik : (1 : Int) + ((lineLen s t).toNat : Int) = lineLen s t + 1 := by omega
  have hon := between_on_board b n hb s t hs ht hne hl
  have hclear : (∀ q, StrictlyBetween s t q → b.pieceMap q = none) →
      slideScan b s t = some (some MoveType.normal) := by
    intro hfree
    unfold slideScan
    have h := scanLine_clear b s (lineDir s t) hd (lineLen s t) (lineLen s t).toNat 1 none hk hik
      (fun j h1 h2 => by
        rw [Board.slotAt, hon j h1 h2, if_pos rfl, hfree _ ⟨j, by omega, h2, rfl⟩])
    rw [← hgeo] at h
    exact h
  refine ⟨hclear, fun hnot => ?_⟩
  have htot := scanLine_total b s (lineDir s t) hd (lineLen s t) (lineLen s t).toNat 1 none hk hik
    (fun j h1 h2 => hon j h1 h2)
  rw [← hgeo] at htot
  rcases htot with h | h
  · exfalso
    apply hnot
    have hsome := scanLine_some b s (lineDir s t) hd (lineLen s t) (lineLen s t).toNat 1 none
      MoveType.normal hk hik (by rw [← hgeo]; exact h)
    rintro q ⟨k, hk1, hk2, rfl⟩
    have := hsome.2 k (by omega) hk2
    rw [Board.slotAt, hon k (by omega) hk2, if_pos rfl] at this
    exact Option.some.inj this
  · exact h

theorem holdsOwn_eq_false_iff (slot : Option Piece) (c : PieceColor) :
    holdsOwn slot c = false ↔ (slot = none ∨ ∃ q, slot = some q ∧ q.color ≠ c) := by
  cases slot <;> simp [holdsOwn]

theorem absDistance_fst_eq_zero (s t : Pos) : (absDistance s t).1 = 0 ↔ s.1 = t.1 := by
  simp only [absDistance]; rcases intAbs_cases (s.1 - t.1) with ⟨h, e⟩ | ⟨h, e⟩ <;> omega

theorem absDistance_snd_eq_zero (s t : Pos) : (absDistance s t).2 = 0 ↔ s.2 = t.2 := by
  simp only [absDistance]; rcases intAbs_cases (s.2 - t.2) with ⟨h, e⟩ | ⟨h, e⟩ <;> omega

theorem lineDir_ne_zero (s t : Pos) (hne : t ≠ s) (hl : Orthogonal s t ∨ Diagonal s t) :
    lineDir s t ≠ (0, 0) := by
  obtain ⟨⟨_, _, h⟩, _, _⟩ := line_geometry s t hne hl
  intro h0
  rw [h0] at h
  exact h ⟨rfl, rfl⟩

theorem lineLen_diag (s t : Pos) (hl : Diagonal s t) : lineLen s t = (absDistance s t).1 := by
  unfold Diagonal at hl
  simp only [lineLen, absDistance, hl, max_self]

theorem rook_canMove_eq (b : Board) (self : Piece) (target : Pos)
    (hc : b.contains target = true) (hown : holdsOwn (b.pieceMap target) self.color = false) :
    Rook.canMove b self target =
      if Orthogonal self.position target then slideScan b self.position target
      else some none := by
  unfold Rook.canMove
  rw [if_pos hc, hown]
  simp only [absDistance_fst_eq_zero, absDistance_snd_eq_zero, orthDir_eq, Orthogonal, slideScan,
    lineLen, Bool.false_eq_true, if_false]

theorem bishop_canMove_eq (b : Board) (self : Piece) (target : Pos)
    (hc : b.contains target = true) (hown : holdsOwn (b.pieceMap target) self.color = false)
    (hne : target ≠ self.position) :
    Bishop.canMove b self target =
      if Diagonal self.position target then slideScan b self.position target
      else some none := by
  unfold Bishop.canMove
  rw [if_pos hc, hown]
  simp only [Bool.false_eq_true, if_false]
  by_cases hd : Diagonal self.position target
  · have hd' := hd
    unfold Diagonal at hd'
    have h1 : self.position.1 ≠ target.1 := by
      intro h
      apply hne
      have h2 : self.position.2 = target.2 := by
        rcases intAbs_cases (self.position.1 - target.1) with ⟨_, e1⟩ | ⟨_, e1⟩ <;>
          rcases intAbs_cases (self.position.2 - target.2) with ⟨_, e2⟩ | ⟨_, e2⟩ <;> omega
      exact (Prod.ext h h2).symm
    have h2 : self.position.2 ≠ target.2 := by
      intro h
      apply h1
      rcases intAbs_cases (self.position.1 - target.1) with ⟨_, e1⟩ | ⟨_, e1⟩ <;>
        rcases intAbs_cases (self.position.2 - target.2) with ⟨_, e2⟩ | ⟨_, e2⟩ <;> omega
    rw [if_pos hd, if_pos (by simpa only [absDistance] using hd'), diagDir_eq _ _ h1 h2]
    simp only [slideScan, lineLen_diag _ _ hd]
  · rw [if_neg hd, if_neg (by simpa only [absDistance, Diagonal] using hd)]

theorem queen_canMove_eq (b : Board) (self : Piece) (target : Pos)
    (hc : b.contains target = true) (hown : holdsOwn (b.pieceMap target) self.color = false)
    (hne : target ≠ self.position) :
    Queen.canMove b self target =
      if Orthogonal self.position target ∨ Diagonal self.position target then
        slideScan b self.position target
      else some none := by
  unfold Queen.canMove Queen.dir
  rw [if_pos hc, hown]
  simp only [Bool.false_eq_true, if_false]
  by_cases hd : Diagonal self.position target
  · have hd' := hd
    unfold Diagonal at hd'
    have h1 : self.position.1 ≠ target.1 := by
      intro h
      apply hne
      have h2 : self.position.2 = target.2 := by
        rcases intAbs_cases (self.position.1 - target.1) with ⟨_, e1⟩ | ⟨_, e1⟩ <;>
          rcases intAbs_cases (self.position.2 - target.2) with ⟨_, e2⟩ | ⟨_, e2⟩ <;> omega
      exact (Prod.ext h h2).symm
    have h2 : self.position.2 ≠ target.2 := by
      intro h
      apply h1
      rcases intAbs_cases (self.position.1 - target.1) with ⟨_, e1⟩ | ⟨_, e1⟩ <;>
        rcases intAbs_cases (self.position.2 - target.2) with ⟨_, e2⟩ | ⟨_, e2⟩ <;> omega
    rw [if_pos (Or.inr hd), if_pos (by simpa only [absDistance] using hd'),
      diagDir_eq _ _ h1 h2]
    simp only [if_pos (lineDir_ne_zero _ _ hne (Or.inr hd)), slideScan, lineLen]
  · rw [if_neg (by simpa only [absDistance, Diagonal] using hd)]
    by_cases ho : Orthogonal self.position target
    · rw [if_pos (Or.inl ho),
        if_pos (by simpa only [absDistance_fst_eq_zero, absDistance_snd_eq_zero] using ho),
        orthDir_eq]
      simp only [if_pos (lineDir_ne_zero _ _ hne (Or.inl ho)), slideScan, lineLen]
    · rw [if_neg (by simpa only [absDistance_fst_eq_zero, absDistance_snd_eq_zero] using ho),
        if_neg (fun h => h.elim ho hd)]
      simp


theorem queen_iff_rook_or_bishop (b : Board) (p : Piece) (t : Pos) :
    (∃ c, Queen.canMove b p t = some (some c)) ↔
      ((∃ c, Rook.canMove b p t = some (some c)) ∨ ∃ c, Bishop.canMove b p t = some (some c)) := by
  by_cases hc : b.contains t = true
  · cases hown : holdsOwn (b.pieceMap t) p.color
    · by_cases hne : t = p.position
      · subst hne
        have hq : Queen.canMove b p p.position = none := by
          simp [Queen.canMove, Queen.dir, hc, hown, diagDir_same, absDistance]
        have hb : Bishop.canMove b p p.position = none := by
          simp [Bishop.canMove, hc, hown, diagDir_same, absDistance]
        have hr : Rook.canMove b p p.position = some none := by
          rw [rook_canMove_eq b p _ hc hown]
          simp [Orthogonal, slideScan, lineLen, absDistance, intAbs, scanLine]
        simp [hq, hb, hr]
      · rw [queen_canMove_eq b p t hc hown hne, rook_canMove_eq b p t hc hown,
          bishop_canMove_eq b p t hc hown hne]
        by_cases ho : Orthogonal p.position t <;> by_cases hd : Diagonal p.position t <;>
          simp [ho, hd]
    · simp [Queen.canMove, Queen.dir, Rook.canMove, Bishop.canMove, hc, hown]
  · simp [Queen.canMove, Rook.canMove, Bishop.canMove, hc]


/-! ## Lemmas on the pawn -/

theorem intAbs_eq_iff (x y : Int) : intAbs x = y ↔ (0 ≤ y ∧ (x = y ∨ x = -y)) := by
  unfold intAbs; split <;> omega

theorem holdsEnemy_iff (s : Option Piece) (c : PieceColor) :
    holdsEnemy s c = true ↔ ∃ q, s = some q ∧ q.color ≠ c := by
  cases s <;> simp [holdsEnemy]

theorem fwd_cases (c : PieceColor) : fwd c = 1 ∨ fwd c = -1 := by
  unfold fwd; split <;> simp


theorem isAhead_iff (c : PieceColor) (t p : Pos) :
    isAhead c t p = true ↔ 0 < (t.2 - p.2) * fwd c := by
  unfold isAhead fwd relativeDistance
  split <;> simp

theorem enPassantTest_ne_normal (heap : Heap) (self : Piece) (target : Pos) (lm : Option Move) :
    enPassantTest heap self target lm ≠ some (some MoveType.normal) := by
  unfold enPassantTest
  split
  · simp
  · split
    · simp
    · split
      · simp
      · split <;> simp


/-! ## The nesting depth of `canMove`

A result obtained within some depth is the result for every larger depth, so an
evaluation at a fixed depth tells what the unbounded recursion of the source returns. -/

theorem probeFree_mono (c c' : Piece → Pos → Option (Option MoveType))
    (h : ∀ p t r, c p t = some r → c' p t = some r) (piece : Piece) :
    ∀ (ps : List Pos) (r : Bool), probeFree c piece ps = some r →
      probeFree c' piece ps = some r := by
  intro ps
  induction ps with
  | nil => intro r hr; exact hr
  | cons p ps ih =>
    intro r hr
    unfold probeFree at hr ⊢
    cases hc : c piece p with
    | none => rw [hc] at hr; simp at hr
    | some x =>
      rw [hc] at hr
      rw [h _ _ _ hc]
      cases x with
      | none => exact ih r hr
      | some t => exact hr

theorem castleLoop_mono (c c' : Piece → Pos → Option (Option MoveType))
    (h : ∀ p t r, c p t = some r → c' p t = some r) (color : PieceColor) (guard : Bool)
    (probes : List Pos) (result : MoveType) :
    ∀ (slots : List (Option Piece)) (r : Option MoveType),
      castleLoop c color guard probes result slots = some r →
        castleLoop c' color guard probes result slots = some r := by
  intro slots
  induction slots with
  | nil => intro r hr; exact hr
  | cons s rest ih =>
    intro r hr
    cases s with
    | none => exact ih r hr
    | some piece =>
      unfold castleLoop at hr ⊢
      split
      · rename_i hg
        rw [if_pos hg] at hr
        cases hp : probeFree c piece probes with
        | none => rw [hp] at hr; simp at hr
        | some x =>
          rw [hp] at hr
          rw [probeFree_mono c c' h piece probes x hp]
          cases x with
          | true => exact hr
          | false => exact ih r hr
      · rename_i hg
        rw [if_neg hg] at hr
        exact ih r hr

theorem canMoveWith_mono (c c' : Piece → Pos → Option (Option MoveType))
    (h : ∀ p t r, c p t = some r → c' p t = some r) (heap : Heap) (b : Board) (self : Piece)
    (target : Pos) (lastMove : Option Move) (r : Option MoveType)
    (hr : canMoveWith c heap b self target lastMove = some r) :
    canMoveWith c' heap b self target lastMove = some r := by
  unfold canMoveWith at hr ⊢
  cases hk : self.kind <;> simp only [hk] at hr ⊢ <;> try exact hr
  unfold King.canMove at hr ⊢
  by_cases h1 : b.contains target = true
  · rw [if_pos h1] at hr ⊢
    by_cases h2 : holdsOwn (b.pieceMap target) self.color = true
    · rw [if_pos h2] at hr ⊢
      exact hr
    · rw [if_neg h2] at hr ⊢
      by_cases h3 : (absDistance self.position target).1 ≤ 1 ∧
          (absDistance self.position target).2 ≤ 1
      · rw [if_pos h3] at hr ⊢
        exact hr
      · rw [if_neg h3] at hr ⊢
        by_cases h4 : absDistance self.position target = (2, 0) ∧ self.moveCount = 0
        · rw [if_pos h4] at hr ⊢
          by_cases h5 : (relativeDistance self.position target).1 > 0
          · rw [if_pos h5] at hr ⊢
            cases e1 : b.slotAt (self.position.1 - 1, self.position.2) <;>
              cases e3 : b.slotAt (self.position.1 - 3, self.position.2) <;>
              cases e4 : b.slotAt (self.position.1 - 4, self.position.2) <;>
              simp only [e1, e3, e4] at hr ⊢ <;>
              first
                | exact castleLoop_mono c c' h _ _ _ _ _ _ hr
                | exact absurd hr (by simp)
          · rw [if_neg h5] at hr ⊢
            by_cases h6 : (relativeDistance self.position target).1 < 0
            · rw [if_pos h6] at hr ⊢
              cases e1 : b.slotAt (self.position.1 + 1, self.position.2) <;>
                cases e3 : b.slotAt (self.position.1 + 3, self.position.2) <;>
                simp only [e1, e3] at hr ⊢ <;>
                first
                  | exact castleLoop_mono c c' h _ _ _ _ _ _ hr
                  | exact absurd hr (by simp)
            · rw [if_neg h6] at hr ⊢
              exact hr
        · rw [if_neg h4] at hr ⊢
          exact hr
  · rw [if_neg h1] at hr ⊢
    exact hr

theorem nestedCanMove_succ (heap : Heap) (b : Board) :
    ∀ (d : Nat) (p : Piece) (t : Pos) (r : Option MoveType),
      nestedCanMove heap b d p t = some r → nestedCanMove heap b (d + 1) p t = some r := by
  intro d
  induction d with
  | zero => intro p t r hr; simp [nestedCanMove] at hr
  | succ d ih =>
    intro p t r hr
    rw [nestedCanMove] at hr ⊢
    exact canMoveWith_mono _ _ ih heap b p t none r hr

theorem nestedCanMove_mono (heap : Heap) (b : Board) (d d' : Nat) (hd : d ≤ d') (p : Piece)
    (t : Pos) (r : Option MoveType) (hr : nestedCanMove heap b d p t = some r) :
    nestedCanMove heap b d' p t = some r := by
  induction hd with
  | refl => exact hr
  | step _ ih => exact nestedCanMove_succ heap b _ p t r ih

/-- A result of `canMove` obtained within some nesting depth is the result for every
larger depth. -/
theorem canMove_mono (d d' : Nat) (hd : d ≤ d') (heap : Heap) (b : Board) (self : Piece)
    (target : Pos) (lastMove : Option Move) (r : Option MoveType)
    (hr : canMove d heap b self target lastMove = some r) :
    canMove d' heap b self target lastMove = some r :=
  canMoveWith_mono _ _ (fun p t r h => nestedCanMove_mono heap b d d' hd p t r h) heap b self
    target lastMove r hr

theorem checkScan_mono (d d' : Nat) (hd : d ≤ d') (heap : Heap) (b : Board) (kingPos : Pos) :
    ∀ (slots : List (Option Piece)) (r : Bool),
      checkScan d heap b kingPos slots = some r → checkScan d' heap b kingPos slots = some r := by
  intro slots
  induction slots with
  | nil => intro r hr; exact hr
  | cons s rest ih =>
    intro r hr
    cases s with
    | none => exact ih r hr
    | some p =>
      unfold checkScan at hr ⊢
      cases hc : canMove d heap b p kingPos none with
      | none => rw [hc] at hr; simp at hr
      | some x =>
        rw [hc] at hr
        rw [canMove_mono d d' hd heap b p kingPos none x hc]
        simp only at hr ⊢
        by_cases hx : x = some MoveType.normal
        · rw [if_pos hx] at hr ⊢; exact hr
        · rw [if_neg hx] at hr ⊢; exact ih r hr

theorem isKingInCheck_mono (d d' : Nat) (hd : d ≤ d') (g : Game) (color : PieceColor)
    (r : Bool) (hr : g.isKingInCheck d color = some r) : g.isKingInCheck d' color = some r := by
  unfold Game.isKingInCheck at hr ⊢
  split
  · rename_i hk
    rw [hk] at hr; exact hr
  · rename_i king hk
    rw [hk] at hr
    exact checkScan_mono d d' hd _ _ _ _ r hr

theorem isMoveLegal_mono (d d' : Nat) (hd : d ≤ d') (g : Game) (move : Move) (player : Player)
    (r : Bool × Move × Game) (hr : g.isMoveLegal d move player = some r) :
    g.isMoveLegal d' move player = some r := by
  unfold Game.isMoveLegal at hr ⊢
  cases hs : deref g.heap move.startPiece with
  | none => rw [hs] at hr; simp at hr
  | some sp =>
    rw [hs] at hr
    simp only at hr ⊢
    cases hc : canMove d g.heap g.board sp move.endSq (back g.moveLog) with
    | none => rw [hc] at hr; simp at hr
    | some type =>
      rw [hc] at hr
      rw [canMove_mono d d' hd _ _ _ _ _ type hc]
      simp only at hr ⊢
      split
      · rename_i hcond
        rw [if_pos hcond] at hr
        cases hm : g.makeMove { move with type := type } with
        | none => rw [hm] at hr; simp at hr
        | some mg =>
          obtain ⟨made, g1⟩ := mg
          rw [hm] at hr
          simp only at hr ⊢
          cases hk : g1.isKingInCheck d (g1.player g1.currentPlayer).color with
          | none => rw [hk] at hr; simp at hr
          | some inCheck =>
            rw [hk] at hr
            rw [isKingInCheck_mono d d' hd g1 _ inCheck hk]
            exact hr
      · rename_i hcond
        rw [if_neg hcond] at hr
        exact hr

theorem run_mono (d d' : Nat) (hd : d ≤ d') (g : Game) (intent : Option Move) (event : Event)
    (r : RunResult × Game) (hr : g.run d intent event = some r) :
    g.run d' intent event = some r := by
  unfold Game.run at hr ⊢
  by_cases hrun : g.running = true
  · rw [if_pos hrun] at hr ⊢
    cases hp : g.promotionStep event with
    | none => rw [hp] at hr; simp at hr
    | some rg =>
      obtain ⟨ret, g1⟩ := rg
      rw [hp] at hr
      simp only at hr ⊢
      by_cases hret : ret = RunResult.still
      · rw [if_pos hret] at hr ⊢
        cases intent with
        | none => exact hr
        | some move =>
          simp only at hr ⊢
          cases hl : g1.isMoveLegal d move (g1.player g1.currentPlayer) with
          | none => rw [hl] at hr; simp at hr
          | some x =>
            rw [hl] at hr
            rw [isMoveLegal_mono d d' hd g1 move _ x hl]
            exact hr
      · rw [if_neg hret] at hr ⊢
        exact hr
  · rw [if_neg hrun] at hr ⊢
    exact hr

/-- A game reached by `play` within some nesting depth is reached for every larger
depth. -/
theorem play_mono (d d' : Nat) (hd : d ≤ d') :
    ∀ (moves : List (Pos × Pos)) (g g' : Game), g.play d moves = some g' →
      g.play d' moves = some g' := by
  intro moves
  induction moves with
  | nil => intro g g' h; exact h
  | cons m rest ih =>
    intro g g' h
    obtain ⟨s, e⟩ := m
    unfold Game.play at h ⊢
    cases hr : g.run d (some (g.intent s e)) Event.otherEvent with
    | none => rw [hr] at h; simp at h
    | some x =>
      rw [hr] at h
      rw [run_mono d d' hd g _ _ x hr]
      obtain ⟨ret, g1⟩ := x
      cases ret <;> simp only at h ⊢ <;> first | exact ih g1 g' h | exact absurd h (by simp)

theorem play_bind_mono {α : Type} (d d' : Nat) (hd : d ≤ d') (moves : List (Pos × Pos))
    (g : Game) (f : Game → Option α) (x : α) (h : (g.play d moves).bind f = some x) :
    (g.play d' moves).bind f = some x := by
  cases hp : g.play d moves with
  | none => rw [hp] at h; simp at h
  | some g' =>
    rw [hp] at h
    rw [play_mono d d' hd moves g g' hp]
    exact h

/-! ## Own-colour targets and the check scan -/

theorem holdsOwn_not_enemy (slot : Option Piece) (c : PieceColor) (h : holdsOwn slot c = true) :
    slot ≠ none ∧ holdsEnemy slot c = false := by
  cases slot with
  | none => simp [holdsOwn] at h
  | some q => simpa [holdsOwn, holdsEnemy] using h

theorem enPassantTest_some (heap : Heap) (self : Piece) (target : Pos) (lm : Option Move)
    (t : MoveType) (h : enPassantTest heap self target lm = some (some t)) :
    t = MoveType.enPassant := by
  unfold enPassantTest at h
  split at h
  · simp at h
  · split at h
    · simp at h
    · split at h
      · simp at h
      · split at h
        · simpa using h.symm
        · simp at h

/-- Onto a square that holds a piece of the mover's colour the only category `canMove`
ever returns is `enPassant`, and only for a pawn: every other alternative refuses the
square. -/
theorem canMove_own_target (depth : Nat) (heap : Heap) (b : Board) (self : Piece)
    (target : Pos) (lastMove : Option Move) (t : MoveType)
    (hown : holdsOwn (b.pieceMap target) self.color = true)
    (h : canMove depth heap b self target lastMove = some (some t)) :
    self.kind = PieceKind.pawn ∧ t = MoveType.enPassant := by
  obtain ⟨hne, hen⟩ := holdsOwn_not_enemy _ _ hown
  unfold canMove canMoveWith at h
  cases hk : self.kind <;> simp only [hk] at h
  · refine ⟨rfl, ?_⟩
    unfold Pawn.canMove at h
    simp only [hne, hen, and_false, if_false, Bool.false_eq_true] at h
    split at h
    · split at h
      · split at h
        · exact enPassantTest_some _ _ _ _ _ h
        · simp at h
      · simp at h
    · simp at h
  · simp [Rook.canMove, hown] at h
  · simp [Knight.canMove, hown] at h
  · simp [Bishop.canMove, hown] at h
  · simp [Queen.canMove, Queen.dir, hown] at h
  · simp [King.canMove, hown] at h

theorem checkScan_true (depth : Nat) (heap : Heap) (b : Board) (kingPos : Pos) :
    ∀ slots : List (Option Piece), checkScan depth heap b kingPos slots = some true →
      ∃ p, some p ∈ slots ∧
        canMove depth heap b p kingPos none = some (some MoveType.normal) := by
  intro slots
  induction slots with
  | nil => intro h; simp [checkScan] at h
  | cons s rest ih =>
    intro h
    cases s with
    | none =>
      obtain ⟨p, hp, hc⟩ := ih h
      exact ⟨p, List.mem_cons_of_mem _ hp, hc⟩
    | some q =>
      unfold checkScan at h
      cases hq : canMove depth heap b q kingPos none with
      | none => rw [hq] at h; simp at h
      | some r =>
        rw [hq] at h
        simp only at h
        by_cases hr : r = some MoveType.normal
        · exact ⟨q, List.mem_cons_self _ _, by rw [hq, hr]⟩
        · rw [if_neg hr] at h
          obtain ⟨p, hp, hc⟩ := ih h
          exact ⟨p, List.mem_cons_of_mem _ hp, hc⟩

theorem findKing_some (color : PieceColor) :
    ∀ (slots : List (Option Piece)) (king : Piece), findKing color slots = some king →
      some king ∈ slots ∧ king.letter = 'k' ∧ king.color = color := by
  intro slots
  induction slots with
  | nil => intro king h; simp [findKing] at h
  | cons s rest ih =>
    intro king h
    cases s with
    | none =>
      obtain ⟨h1, h2⟩ := ih king h
      exact ⟨List.mem_cons_of_mem _ h1, h2⟩
    | some q =>
      unfold findKing at h
      split at h
      · rename_i hq
        obtain rfl := Option.some.inj h
        exact ⟨List.mem_cons_self _ _, hq⟩
      · obtain ⟨h1, h2⟩ := ih king h
        exact ⟨List.mem_cons_of_mem _ h1, h2⟩

theorem inSync_slot (b : Board) (hs : b.inSync = true) (p : Piece)
    (hp : some p ∈ b.keys.map b.pieceMap) :
    b.contains p.position = true ∧ b.pieceMap p.position = some p := by
  obtain ⟨k, hk, hkp⟩ := List.mem_map.1 hp
  unfold Board.inSync at hs
  rw [List.all_eq_true] at hs
  have := hs k hk
  rw [hkp] at this
  simp only [decide_eq_true_eq] at this
  rw [this]
  exact ⟨by simpa [Board.contains] using hk, hkp⟩

/-- When `isKingInCheck(color)` returns true on a board with stored positions in sync,
some piece of the other colour on the board reaches the square of the king of that colour
with category `normal`: a piece of the king's own colour never triggers the result. -/
theorem isKingInCheck_true_sound (depth : Nat) (g : Game) (color : PieceColor)
    (hs : g.board.inSync = true) (h : g.isKingInCheck depth color = some true) :
    ∃ king p, findKing color (g.board.keys.map g.board.pieceMap) = some king ∧
      some p ∈ g.board.keys.map g.board.pieceMap ∧ p.color ≠ color ∧
      canMove depth g.heap g.board p king.position none = some (some MoveType.normal) := by
  unfold Game.isKingInCheck at h
  cases hk : findKing color (g.board.keys.map g.board.pieceMap) with
  | none => rw [hk] at h; simp at h
  | some king =>
    rw [hk] at h
    obtain ⟨p, hp, hc⟩ := checkScan_true _ _ _ _ _ h
    obtain ⟨hmem, _, hcol⟩ := findKing_some _ _ _ hk
    obtain ⟨_, hslot⟩ := inSync_slot _ hs king hmem
    refine ⟨king, p, rfl, hp, ?_, hc⟩
    intro hpc
    have hown : holdsOwn (g.board.pieceMap king.position) p.color = true := by
      rw [hslot]; simp [holdsOwn, hcol, hpc]
    have := canMove_own_target depth _ _ _ _ _ _ hown hc
    simp at this

/-! ## Lemmas on the special moves -/

theorem fwd_opposite (c c' : PieceColor) (h : c ≠ c') : fwd c = -fwd c' := by
  cases c <;> cases c' <;> simp_all [fwd]

theorem enPassantTest_spec (heap : Heap) (self : Piece) (target : Pos) (lm : Move) (a : Nat)
    (sp : Piece) (ha : lm.startPiece = some a) (hsp : heap a = some sp)
    (hahead : isAhead self.color target self.position = true)
    (hdist : absDistance self.position target = (1, 1)) :
    (EnPassantAllowed self target lm sp →
        enPassantTest heap self target (some lm) = some (some MoveType.enPassant)) ∧
      (¬EnPassantAllowed self target lm sp →
        enPassantTest heap self target (some lm) = some none) := by
  have hf := fwd_cases self.color
  rw [isAhead_iff] at hahead
  simp only [absDistance, Prod.mk.injEq, intAbs_eq_iff] at hdist
  have key : (sp.letter = 'p' ∧ sp.color ≠ self.color ∧ lm.endSq.1 = target.1 ∧
      absDistance self.position lm.endSq = (1, 0) ∧
      isAhead self.color lm.endSq target = false ∧
      (absDistance lm.start lm.endSq).2 = 2) ↔ EnPassantAllowed self target lm sp := by
    unfold EnPassantAllowed
    obtain ⟨t1, t2⟩ := target
    have hnot : (isAhead self.color lm.endSq (t1, t2) = false) ↔
        ¬ 0 < (lm.endSq.2 - t2) * fwd self.color := by
      have h := isAhead_iff self.color lm.endSq (t1, t2)
      simp only at h
      rw [← h]; simp
    simp only [hnot, absDistance, Prod.mk.injEq, intAbs_eq_iff] at hdist hahead ⊢
    constructor
    · rintro ⟨h1, h2, h3, h4, h5, h6⟩
      refine ⟨h1, h2, h6, ?_, ?_, ?_, ?_⟩
      · omega
      · omega
      · exact h3.symm
      · rcases hf with hf | hf <;> rw [hf] at hahead ⊢ <;> omega
    · rintro ⟨h1, h2, h3, h4, h5, h6, h7⟩
      refine ⟨h1, h2, h6.symm, ?_, ?_, h3⟩
      · omega
      · rcases hf with hf | hf <;> rw [hf] at hahead h7 ⊢ <;> omega
  unfold enPassantTest
  simp only [ha, hsp]
  constructor
  · intro h
    rw [if_pos (key.2 h)]
  · intro h
    rw [if_neg (fun hc => h (key.1 hc))]

theorem scanLine_result (b : Board) (position : Pos) (dir : Int × Int) (target : Pos) :
    ∀ (k : Nat) (i : Int) (ret r : Option MoveType),
      scanLine b position dir target k i ret = some r →
        r = ret ∨ r = some MoveType.normal ∨ r = none := by
  intro k
  induction k with
  | zero =>
    intro i ret r h
    simp only [scanLine, Option.some.injEq] at h
    exact Or.inl h.symm
  | succ k ih =>
    intro i ret r h
    rw [scanLine] at h
    split at h
    · rcases ih _ _ _ h with h1 | h1 | h1
      · exact Or.inr (Or.inl h1)
      · exact Or.inr (Or.inl h1)
      · exact Or.inr (Or.inr h1)
    · split at h
      · simp at h
      · simp only [Option.some.injEq] at h
        exact Or.inr (Or.inr h.symm)
      · exact ih _ _ _ h

theorem probeFree_true (call : Piece → Pos → Option (Option MoveType)) (piece : Piece) :
    ∀ probes : List Pos, probeFree call piece probes = some true →
      ∀ p ∈ probes, call piece p = some none := by
  intro probes
  induction probes with
  | nil => intro _ p hp; simp at hp
  | cons q qs ih =>
    intro h p hp
    unfold probeFree at h
    cases hq : call piece q with
    | none => rw [hq] at h; simp at h
    | some r =>
      rw [hq] at h
      cases r with
      | some t => simp at h
      | none =>
        simp only at h
        rcases List.mem_cons.1 hp with rfl | hp'
        · exact hq
        · exact ih h p hp'

/-- A castling loop that returns a category returned its own, its guard held, and it
stopped at a piece of the other colour that reaches none of the probed squares. -/
theorem castleLoop_some (call : Piece → Pos → Option (Option MoveType)) (color : PieceColor)
    (guard : Bool) (probes : List Pos) (result : MoveType) :
    ∀ (slots : List (Option Piece)) (t : MoveType),
      castleLoop call color guard probes result slots = some (some t) →
        t = result ∧ guard = true ∧
          ∃ piece, some piece ∈ slots ∧ piece.color ≠ color ∧
            ∀ p ∈ probes, call piece p = some none := by
  intro slots
  induction slots with
  | nil => intro t h; simp [castleLoop] at h
  | cons s rest ih =>
    intro t h
    cases s with
    | none =>
      obtain ⟨h1, h2, piece, h3, h4⟩ := ih t h
      exact ⟨h1, h2, piece, List.mem_cons_of_mem _ h3, h4⟩
    | some q =>
      unfold castleLoop at h
      by_cases hg : guard = true ∧ q.color ≠ color
      · rw [if_pos hg] at h
        cases hp : probeFree call q probes with
        | none => rw [hp] at h; simp at h
        | some x =>
          rw [hp] at h
          cases x with
          | true =>
            simp only [Option.some.injEq] at h
            exact ⟨h.symm, hg.1, q, List.mem_cons_self _ _, hg.2,
              probeFree_true call q probes hp⟩
          | false =>
            obtain ⟨h1, h2, piece, h3, h4⟩ := ih t h
            exact ⟨h1, h2, piece, List.mem_cons_of_mem _ h3, h4⟩
      · rw [if_neg hg] at h
        obtain ⟨h1, h2, piece, h3, h4⟩ := ih t h
        exact ⟨h1, h2, piece, List.mem_cons_of_mem _ h3, h4⟩

theorem isOwnRook_iff (slot : Option Piece) (c : PieceColor) :
    isOwnRook slot c = true ↔ ∃ q, slot = some q ∧ q.letter = 'r' ∧ q.color = c := by
  cases slot <;> simp [isOwnRook]

/-- What `King::canMove` has tested when it returns a category other than `normal`. -/
theorem king_castle_tested (call : Piece → Pos → Option (Option MoveType)) (b : Board)
    (self : Piece) (target : Pos) (t : MoveType) (hn : t ≠ MoveType.normal)
    (h : King.canMove call b self target = some (some t)) :
    self.moveCount = 0 ∧ holdsOwn (b.pieceMap target) self.color = false ∧
      ((t = MoveType.shortCastle ∧ target = (self.position.1 + 2, self.position.2) ∧
          (∃ rook, b.pieceMap (self.position.1 + 3, self.position.2) = some rook ∧
            rook.letter = 'r' ∧ rook.color = self.color) ∧
          b.pieceMap (self.position.1 + 1, self.position.2) = none ∧
          ∃ piece, some piece ∈ b.keys.map b.pieceMap ∧ piece.color ≠ self.color ∧
            call piece (self.position.1 + 1, self.position.2) = some none ∧
            call piece (self.position.1 + 2, self.position.2) = some none) ∨
        (t = MoveType.longCastle ∧ target = (self.position.1 - 2, self.position.2) ∧
          (∃ rook, b.pieceMap (self.position.1 - 4, self.position.2) = some rook ∧
            rook.letter = 'r' ∧ rook.color = self.color) ∧
          b.pieceMap (self.position.1 - 1, self.position.2) = none ∧
          b.pieceMap (self.position.1 - 3, self.position.2) = none ∧
          ∃ piece, some piece ∈ b.keys.map b.pieceMap ∧ piece.color ≠ self.color ∧
            call piece (self.position.1 - 1, self.position.2) = some none ∧
            call piece (self.position.1 - 2, self.position.2) = some none ∧
            call piece (self.position.1 - 3, self.position.2) = some none)) := by
  unfold King.canMove at h
  by_cases h1 : b.contains target = true
  · rw [if_pos h1] at h
    cases hown : holdsOwn (b.pieceMap target) self.color with
    | true => rw [hown] at h; simp at h
    | false =>
      rw [hown] at h
      simp only [Bool.false_eq_true, if_false] at h
      by_cases h3 : (absDistance self.position target).1 ≤ 1 ∧
          (absDistance self.position target).2 ≤ 1
      · rw [if_pos h3] at h
        simp only [Option.some.injEq] at h
        exact absurd h.symm hn
      · rw [if_neg h3] at h
        by_cases h4 : absDistance self.position target = (2, 0) ∧ self.moveCount = 0
        · rw [if_pos h4] at h
          refine ⟨h4.2, rfl, ?_⟩
          have hd := h4.1
          simp only [absDistance, Prod.mk.injEq, intAbs_eq_iff] at hd
          have hrow : target.2 = self.position.2 := by omega
          by_cases h5 : (relativeDistance self.position target).1 > 0
          · rw [if_pos h5] at h
            right
            simp only [relativeDistance] at h5
            have htgt : target = (self.position.1 - 2, self.position.2) :=
              Prod.ext (by simp only; omega) (by simp only; omega)
            cases e1 : b.slotAt (self.position.1 - 1, self.position.2) <;>
              cases e3 : b.slotAt (self.position.1 - 3, self.position.2) <;>
              cases e4 : b.slotAt (self.position.1 - 4, self.position.2) <;>
              simp only [e1, e3, e4] at h <;> try contradiction
            rename_i p1 p3 p4
            obtain ⟨ht, hg, piece, hmem, hcol, hfree⟩ := castleLoop_some _ _ _ _ _ _ _ h
            simp only [Bool.and_eq_true, Option.isNone_iff_eq_none, isOwnRook_iff] at hg
            obtain ⟨⟨⟨hrook, hp1⟩, _⟩, hp3⟩ := hg
            have s1 : b.pieceMap (self.position.1 - 1, self.position.2) = p1 := by
              unfold Board.slotAt at e1; split at e1 <;> simp_all
            have s3 : b.pieceMap (self.position.1 - 3, self.position.2) = p3 := by
              unfold Board.slotAt at e3; split at e3 <;> simp_all
            have s4 : b.pieceMap (self.position.1 - 4, self.position.2) = p4 := by
              unfold Board.slotAt at e4; split at e4 <;> simp_all
            refine ⟨ht, htgt, ?_, by rw [s1, hp1], by rw [s3, hp3], piece, hmem, hcol,
              hfree _ (by simp), hfree _ (by simp), hfree _ (by simp)⟩
            rw [s4]; exact hrook
          · rw [if_neg h5] at h
            by_cases h6 : (relativeDistance self.position target).1 < 0
            · rw [if_pos h6] at h
              left
              simp only [relativeDistance] at h6
              have htgt : target = (self.position.1 + 2, self.position.2) :=
                Prod.ext (by simp only; omega) (by simp only; omega)
              cases e1 : b.slotAt (self.position.1 + 1, self.position.2) <;>
                cases e3 : b.slotAt (self.position.1 + 3, self.position.2) <;>
                simp only [e1, e3] at h <;> try contradiction
              rename_i p1 p3
              obtain ⟨ht, hg, piece, hmem, hcol, hfree⟩ := castleLoop_some _ _ _ _ _ _ _ h
              simp only [Bool.and_eq_true, Option.isNone_iff_eq_none, isOwnRook_iff] at hg
              obtain ⟨⟨hrook, hp1⟩, _⟩ := hg
              have s1 : b.pieceMap (self.position.1 + 1, self.position.2) = p1 := by
                unfold Board.slotAt at e1; split at e1 <;> simp_all
              have s3 : b.pieceMap (self.position.1 + 3, self.position.2) = p3 := by
                unfold Board.slotAt at e3; split at e3 <;> simp_all
              refine ⟨ht, htgt, ?_, by rw [s1, hp1], piece, hmem, hcol,
                hfree _ (by simp), hfree _ (by simp)⟩
              rw [s3]; exact hrook
            · rw [if_neg h6] at h
              simp at h
        · rw [if_neg h4] at h
          simp at h
  · rw [if_neg h1] at h
    simp at h

/-- A `bind` that returns a value keeps returning it when both of its parts do. -/
theorem bind_some_lift {α β : Type} {x x' : Option α} {f f' : α → Option β} {r : β}
    (h : x.bind f = some r) (hx : ∀ a, x = some a → x' = some a)
    (hf : ∀ a, f a = some r → f' a = some r) : x'.bind f' = some r := by
  cases hxa : x with
  | none => rw [hxa] at h; simp at h
  | some a =>
    rw [hxa] at h
    rw [hx a hxa]
    exact hf a h

/-- Once `isMoveLegal` has accepted the intent within some nesting depth, a fault of `run`
at that depth is a fault of `run` at every larger depth: it does not come from the bound. -/
theorem run_fault_of_accept (d d' : Nat) (hd : d ≤ d') (g : Game) (move : Move) (event : Event)
    (hpro : g.lookForPromotion = none)
    (hacc : (g.isMoveLegal d move (g.player g.currentPlayer)).map Prod.fst = some true)
    (hf : g.run d (some move) event = none) : g.run d' (some move) event = none := by
  cases hl : g.isMoveLegal d move (g.player g.currentPlayer) with
  | none => rw [hl] at hacc; simp at hacc
  | some r =>
    have hl' := isMoveLegal_mono d d' hd g move _ r hl
    have hstep : g.promotionStep event = some (RunResult.still, g) := by
      simp [Game.promotionStep, hpro]
    unfold Game.run at hf ⊢
    rw [hstep] at hf ⊢
    simp only [hl, hl'] at hf ⊢
    exact hf

/-! ## Lemmas on the end of the game -/

theorem legalMovesLoop_mono (d d' : Nat) (hd : d ≤ d') (piece : Nat) (player : Player) :
    ∀ (squares : List Pos) (g : Game) (r : List Move × Game),
      Game.legalMovesLoop d piece player g squares = some r →
        Game.legalMovesLoop d' piece player g squares = some r := by
  intro squares
  induction squares with
  | nil => intro g r h; exact h
  | cons pos rest ih =>
    intro g r h
    unfold Game.legalMovesLoop at h ⊢
    revert h
    cases hs : g.board.slotAt pos with
    | none => intro h; simp at h
    | some slot =>
      cases hh : g.heap piece with
      | none => intro h; simp at h
      | some self =>
        intro h
        simp only at h ⊢
        cases hl : g.isMoveLegal d
            ⟨some piece, slot.map Piece.addr, self.position, pos, none, false⟩ player with
        | none => rw [hl] at h; simp at h
        | some x =>
          obtain ⟨legal, move, g1⟩ := x
          rw [hl] at h
          rw [isMoveLegal_mono d d' hd g _ player _ hl]
          simp only at h ⊢
          cases hrec : Game.legalMovesLoop d piece player g1 rest with
          | none => rw [hrec] at h; simp at h
          | some y =>
            rw [hrec] at h
            rw [ih g1 y hrec]
            exact h

theorem getLegalMoves_mono (d d' : Nat) (hd : d ≤ d') (g : Game) (piece : Nat)
    (player : Player) (r : List Move × Game) (h : g.getLegalMoves d piece player = some r) :
    g.getLegalMoves d' piece player = some r :=
  legalMovesLoop_mono d d' hd piece player _ g r h

theorem countLegalMoves_mono (d d' : Nat) (hd : d ≤ d') (color : PieceColor)
    (player : Player) :
    ∀ (keys : List Pos) (g : Game) (r : Nat × Game),
      Game.countLegalMoves d color player g keys = some r →
        Game.countLegalMoves d' color player g keys = some r := by
  intro keys
  induction keys with
  | nil => intro g r h; exact h
  | cons pos rest ih =>
    intro g r h
    unfold Game.countLegalMoves at h ⊢
    revert h
    cases hp : g.board.pieceMap pos with
    | none => intro h; exact ih g r h
    | some p =>
      intro h
      simp only at h ⊢
      by_cases hc : p.color = color
      · rw [if_pos hc] at h ⊢
        cases hl : g.getLegalMoves d p.addr player with
        | none => rw [hl] at h; simp at h
        | some x =>
          obtain ⟨moves, g1⟩ := x
          rw [hl] at h
          rw [getLegalMoves_mono d d' hd g _ player _ hl]
          simp only at h ⊢
          cases hrec : Game.countLegalMoves d color player g1 rest with
          | none => rw [hrec] at h; simp at h
          | some y =>
            rw [hrec] at h
            rw [ih g1 y hrec]
            exact h
      · rw [if_neg hc] at h ⊢
        exact ih g r h

theorem mateSearch_mono (d d' : Nat) (hd : d ≤ d') (g : Game) (r : WinSearchResult × Game)
    (h : g.mateSearch d = some r) : g.mateSearch d' = some r := by
  unfold Game.mateSearch at h ⊢
  cases hw : Game.countLegalMoves d PieceColor.white
      (if g.player1.color = PieceColor.white then g.player1 else g.player2) g g.board.keys with
  | none => rw [hw] at h; simp at h
  | some x =>
    obtain ⟨nW, g1⟩ := x
    rw [hw] at h
    rw [countLegalMoves_mono d d' hd _ _ _ g _ hw]
    simp only at h ⊢
    cases hb : Game.countLegalMoves d PieceColor.black
        (if g1.player1.color = PieceColor.black then g1.player1 else g1.player2) g1
        g1.board.keys with
    | none => rw [hb] at h; simp at h
    | some y =>
      obtain ⟨nB, g2⟩ := y
      rw [hb] at h
      rw [countLegalMoves_mono d d' hd _ _ _ g1 _ hb]
      simp only at h ⊢
      by_cases h0 : nW = 0
      · rw [if_pos h0] at h ⊢
        cases hc : g2.isKingInCheck d PieceColor.white with
        | none => rw [hc] at h; simp at h
        | some c =>
          rw [hc] at h
          rw [isKingInCheck_mono d d' hd g2 _ c hc]
          exact h
      · rw [if_neg h0] at h ⊢
        by_cases h1 : nB = 0
        · rw [if_pos h1] at h ⊢
          cases hc : g2.isKingInCheck d PieceColor.black with
          | none => rw [hc] at h; simp at h
          | some c =>
            rw [hc] at h
            rw [isKingInCheck_mono d d' hd g2 _ c hc]
            exact h
        · rw [if_neg h1] at h ⊢
          exact h

theorem lookForWin_mono (d d' : Nat) (hd : d ≤ d') (g : Game) (r : WinSearchResult × Game)
    (h : g.lookForWin d = some r) : g.lookForWin d' = some r := by
  unfold Game.lookForWin at h ⊢
  cases hm : g.mateSearch d with
  | none => rw [hm] at h; simp at h
  | some x =>
    rw [hm] at h
    rw [mateSearch_mono d d' hd g x hm]
    exact h

theorem sameCounters_refl (g : Game) : g.SameCounters g := ⟨rfl, rfl, rfl, rfl⟩

theorem sameCounters_trans {g g' g'' : Game} (h : g.SameCounters g')
    (h' : g'.SameCounters g'') : g.SameCounters g'' :=
  ⟨h'.1.trans h.1, h'.2.1.trans h.2.1, h'.2.2.1.trans h.2.2.1, h'.2.2.2.trans h.2.2.2⟩

theorem sameCounters_setPlayer (g : Game) (b : Board) (r : PlayerRef)
    (captured : List (Option Piece)) :
    g.SameCounters (({ g with board := b }).setPlayer r
      { ({ g with board := b } : Game).player r with capturedPieces := captured }) := by
  cases r <;> exact ⟨rfl, rfl, rfl, rfl⟩

theorem makeMove_sameCounters (g : Game) (move : Move) (r : Bool × Game)
    (h : g.makeMove move = some r) : g.SameCounters r.2 := by
  unfold Game.makeMove at h
  cases hb : g.board.makeMove move (g.player g.currentPlayer).capturedPieces with
  | none => rw [hb] at h; simp at h
  | some x =>
    obtain ⟨made, b1, captured1⟩ := x
    rw [hb] at h
    simp only [Option.some.injEq] at h
    rw [← h]
    exact sameCounters_setPlayer g b1 g.currentPlayer captured1

theorem restoreCaptured_sameCounters (g : Game) (r : PlayerRef) (pos : Pos) (g' : Game)
    (h : g.restoreCaptured r pos = some g') : g.SameCounters g' := by
  unfold Game.restoreCaptured at h
  split at h
  · simp only [Option.some.injEq] at h
    rw [← h]
    cases r <;> exact ⟨rfl, rfl, rfl, rfl⟩
  · simp at h

theorem revertMove_sameCounters (g : Game) (move : Move) (g' : Game)
    (h : g.revertMove move = some g') : g.SameCounters g' := by
  unfold Game.revertMove at h
  cases h1 : g.board.swapSlots move.endSq move.start with
  | none => rw [h1] at h; simp at h
  | some b1 =>
    rw [h1] at h
    simp only at h
    cases h2 : b1.setPosition move.start move.start with
    | none => rw [h2] at h; simp at h
    | some b2 =>
      rw [h2] at h
      simp only at h
      have hb : g.SameCounters { g with board := b2 } := ⟨rfl, rfl, rfl, rfl⟩
      split at h
      · split at h
        · simp at h
        · exact sameCounters_trans hb (restoreCaptured_sameCounters _ _ _ _ h)
      · split at h
        · split at h
          · simp at h
          · split at h
            · simp at h
            · simp only [Option.some.injEq] at h
              rw [← h]
              exact ⟨rfl, rfl, rfl, rfl⟩
        · split at h
          · exact sameCounters_trans hb (restoreCaptured_sameCounters _ _ _ _ h)
          · simp only [Option.some.injEq] at h
            rw [← h]
            exact ⟨rfl, rfl, rfl, rfl⟩

theorem isMoveLegal_sameCounters (d : Nat) (g : Game) (move : Move) (player : Player)
    (r : Bool × Move × Game) (h : g.isMoveLegal d move player = some r) :
    g.SameCounters r.2.2 := by
  unfold Game.isMoveLegal at h
  split at h
  · simp at h
  · split at h
    · simp at h
    · split at h
      · cases hm : g.makeMove { move with type := _ } with
        | none => rw [hm] at h; simp at h
        | some x =>
          obtain ⟨made, g1⟩ := x
          rw [hm] at h
          simp only at h
          have s1 := makeMove_sameCounters g _ _ hm
          split at h
          · simp at h
          · split at h
            · simp at h
            · rename_i g2 hr
              simp only [Option.some.injEq] at h
              rw [← h]
              exact sameCounters_trans s1 (revertMove_sameCounters _ _ _ hr)
      · simp only [Option.some.injEq] at h
        rw [← h]
        exact sameCounters_refl g

theorem legalMovesLoop_sameCounters (d : Nat) (piece : Nat) (player : Player) :
    ∀ (squares : List Pos) (g : Game) (r : List Move × Game),
      Game.legalMovesLoop d piece player g squares = some r → g.SameCounters r.2 := by
  intro squares
  induction squares with
  | nil =>
    intro g r h
    simp only [Game.legalMovesLoop, Option.some.injEq] at h
    rw [← h]
    exact sameCounters_refl g
  | cons pos rest ih =>
    intro g r h
    unfold Game.legalMovesLoop at h
    revert h
    cases hs : g.board.slotAt pos with
    | none => intro h; simp at h
    | some slot =>
      cases hh : g.heap piece with
      | none => intro h; simp at h
      | some self =>
        intro h
        simp only at h
        cases hl : g.isMoveLegal d
            ⟨some piece, slot.map Piece.addr, self.position, pos, none, false⟩ player with
        | none => rw [hl] at h; simp at h
        | some x =>
          obtain ⟨legal, move, g1⟩ := x
          rw [hl] at h
          simp only at h
          have s1 := isMoveLegal_sameCounters d g _ player _ hl
          cases hrec : Game.legalMovesLoop d piece player g1 rest with
          | none => rw [hrec] at h; simp at h
          | some y =>
            obtain ⟨moves, g2⟩ := y
            rw [hrec] at h
            have s2 := ih g1 _ hrec
            simp only [Option.some.injEq] at h
            rw [← h]
            exact sameCounters_trans s1 s2

theorem countLegalMoves_sameCounters (d : Nat) (color : PieceColor) (player : Player) :
    ∀ (keys : List Pos) (g : Game) (r : Nat × Game),
      Game.countLegalMoves d color player g keys = some r → g.SameCounters r.2 := by
  intro keys
  induction keys with
  | nil =>
    intro g r h
    simp only [Game.countLegalMoves, Option.some.injEq] at h
    rw [← h]
    exact sameCounters_refl g
  | cons pos rest ih =>
    intro g r h
    unfold Game.countLegalMoves at h
    revert h
    cases hp : g.board.pieceMap pos with
    | none => intro h; exact ih g r h
    | some p =>
      intro h
      simp only at h
      by_cases hc : p.color = color
      · rw [if_pos hc] at h
        cases hl : g.getLegalMoves d p.addr player with
        | none => rw [hl] at h; simp at h
        | some x =>
          obtain ⟨moves, g1⟩ := x
          rw [hl] at h
          simp only at h
          have s1 := legalMovesLoop_sameCounters d p.addr player _ g _ hl
          cases hrec : Game.countLegalMoves d color player g1 rest with
          | none => rw [hrec] at h; simp at h
          | some y =>
            obtain ⟨count, g2⟩ := y
            rw [hrec] at h
            have s2 := ih g1 _ hrec
            simp only [Option.some.injEq] at h
            rw [← h]
            exact sameCounters_trans s1 s2
      · rw [if_neg hc] at h
        exact ih g r h

/-- The mate and stalemate part of `lookForWin` in terms of the two counts. -/
theorem mateSearch_eq (depth : Nat) (g : Game) :
    g.mateSearch depth =
      match g.moveCounts depth with
      | none => none
      | some (numWhiteLegalMoves, numBlackLegalMoves, g2) =>
        if numWhiteLegalMoves = 0 then
          match g2.isKingInCheck depth PieceColor.white with
          | none => none
          | some true => g2.markMate.map fun g3 => (WinSearchResult.blackWinCheckmate, g3)
          | some false => some (WinSearchResult.stalemateDraw, g2)
        else if numBlackLegalMoves = 0 then
          match g2.isKingInCheck depth PieceColor.black with
          | none => none
          | some true => g2.markMate.map fun g3 => (WinSearchResult.whiteWinCheckmate, g3)
          | some false => some (WinSearchResult.stalemateDraw, g2)
        else some (WinSearchResult.nothing, g2) := by
  unfold Game.mateSearch Game.moveCounts
  cases Game.countLegalMoves depth PieceColor.white
      (if g.player1.color = PieceColor.white then g.player1 else g.player2) g g.board.keys with
  | none => rfl
  | some x =>
    obtain ⟨nW, g1⟩ := x
    simp only
    cases Game.countLegalMoves depth PieceColor.black
        (if g1.player1.color = PieceColor.black then g1.player1 else g1.player2) g1
        g1.board.keys with
    | none => rfl
    | some y => rfl

theorem moveCounts_sameCounters (depth : Nat) (g : Game) (r : Nat × Nat × Game)
    (h : g.moveCounts depth = some r) : g.SameCounters r.2.2 := by
  unfold Game.moveCounts at h
  cases hw : Game.countLegalMoves depth PieceColor.white
      (if g.player1.color = PieceColor.white then g.player1 else g.player2) g g.board.keys with
  | none => rw [hw] at h; simp at h
  | some x =>
    obtain ⟨nW, g1⟩ := x
    rw [hw] at h
    simp only at h
    have s1 := countLegalMoves_sameCounters depth _ _ _ g _ hw
    cases hb : Game.countLegalMoves depth PieceColor.black
        (if g1.player1.color = PieceColor.black then g1.player1 else g1.player2) g1
        g1.board.keys with
    | none => rw [hb] at h; simp at h
    | some y =>
      obtain ⟨nB, g2⟩ := y
      rw [hb] at h
      have s2 := countLegalMoves_sameCounters depth _ _ _ g1 _ hb
      simp only [Option.some.injEq] at h
      rw [← h]
      exact sameCounters_trans s1 s2

theorem markMate_sameCounters (g g' : Game) (h : g.markMate = some g') :
    g.SameCounters g' := by
  unfold Game.markMate at h
  split at h
  · simp at h
  · simp only [Option.some.injEq] at h
    rw [← h]
    exact ⟨rfl, rfl, rfl, rfl⟩

/-- A mate search that finds nothing returns the game of the two counts, and both counts
are non-zero. -/
theorem mateSearch_nothing (depth : Nat) (g g1 : Game)
    (h : g.mateSearch depth = some (WinSearchResult.nothing, g1)) :
    ∃ nW nB, g.moveCounts depth = some (nW, nB, g1) ∧ nW ≠ 0 ∧ nB ≠ 0 := by
  rw [mateSearch_eq] at h
  cases hc : g.moveCounts depth with
  | none => rw [hc] at h; simp at h
  | some x =>
    obtain ⟨nW, nB, g2⟩ := x
    rw [hc] at h
    simp only at h
    by_cases h0 : nW = 0
    · rw [if_pos h0] at h
      cases hk : g2.isKingInCheck depth PieceColor.white with
      | none => rw [hk] at h; simp at h
      | some c =>
        rw [hk] at h
        cases c <;> simp at h
    · rw [if_neg h0] at h
      by_cases h1 : nB = 0
      · rw [if_pos h1] at h
        cases hk : g2.isKingInCheck depth PieceColor.black with
        | none => rw [hk] at h; simp at h
        | some c =>
          rw [hk] at h
          cases c <;> simp at h
      · rw [if_neg h1] at h
        simp only [Option.some.injEq, Prod.mk.injEq, true_and] at h
        exact ⟨nW, nB, by rw [h], h0, h1⟩

theorem mateSearch_sameCounters (depth : Nat) (g : Game) (r : WinSearchResult × Game)
    (h : g.mateSearch depth = some r) : g.SameCounters r.2 := by
  rw [mateSearch_eq] at h
  cases hc : g.moveCounts depth with
  | none => rw [hc] at h; simp at h
  | some x =>
    obtain ⟨nW, nB, g2⟩ := x
    have s := moveCounts_sameCounters depth g _ hc
    rw [hc] at h
    simp only at h
    have key : ∀ (color : PieceColor) (res : WinSearchResult),
        (match g2.isKingInCheck depth color with
          | none => none
          | some true => g2.markMate.map fun g3 => (res, g3)
          | some false => some (WinSearchResult.stalemateDraw, g2)) = some r →
        g.SameCounters r.2 := by
      intro color res hk
      cases hi : g2.isKingInCheck depth color with
      | none => rw [hi] at hk; simp at hk
      | some c =>
        rw [hi] at hk
        cases c with
        | false =>
          simp only [Option.some.injEq] at hk
          rw [← hk]; exact s
        | true =>
          simp only at hk
          cases hm : g2.markMate with
          | none => rw [hm] at hk; simp at hk
          | some g3 =>
            rw [hm] at hk
            simp only [Option.map_some', Option.some.injEq] at hk
            rw [← hk]
            exact sameCounters_trans s (markMate_sameCounters _ _ hm)
    by_cases h0 : nW = 0
    · rw [if_pos h0] at h
      exact key _ _ h
    · rw [if_neg h0] at h
      by_cases h1 : nB = 0
      · rw [if_pos h1] at h
        exact key _ _ h
      · rw [if_neg h1] at h
        simp only [Option.some.injEq] at h
        rw [← h]; exact s

theorem foldl_add_values (l : List Piece) (acc : Int) :
    l.foldl (fun val p => val + p.value) acc = acc + (l.map Piece.value).sum := by
  induction l generalizing acc with
  | nil => simp
  | cons p rest ih =>
    simp only [List.foldl_cons, List.map_cons, List.sum_cons]
    rw [ih]
    omega

/-- The lambda `getMaterial` computes the material of the colour on the board. -/
theorem getMaterial_eq (b : Board) (color : PieceColor) :
    getMaterial b color = b.materialOf color := by
  unfold getMaterial Board.materialOf
  rw [foldl_add_values]
  omega

/-- The lambda `hasPawn` is true exactly when the colour has no pawn on the board. -/
theorem hasPawn_iff (b : Board) (color : PieceColor) :
    hasPawn b color = true ↔ ¬b.hasPawnOf color := by
  unfold hasPawn Board.hasPawnOf
  rw [Option.isNone_iff_eq_none, List.find?_eq_none]
  constructor
  · rintro h ⟨p, hp, hl, hc⟩
    have := h p hp
    simp [hl, hc] at this
  · intro h p hp
    simp only [decide_eq_true_eq]
    intro hh
    exact h ⟨p, hp, hh.1, hh.2⟩

/-- The material test of `lookForWin` is the condition of the specification. -/
theorem material_test_iff (b : Board) (c1 c2 : PieceColor) :
    (getMaterial b c1 < 5 ∧ hasPawn b c1 = true ∧ getMaterial b c2 < 5 ∧ hasPawn b c2 = true) ↔
      b.Insufficient c1 c2 := by
  unfold Board.Insufficient
  rw [getMaterial_eq, getMaterial_eq, hasPawn_iff, hasPawn_iff]

/-- The repetition loop finds a third occurrence exactly when some position occurs three
times among those seen and those still to visit, when no position was seen three times. -/
theorem repetitionLoop_iff :
    ∀ (rest seen : List String), (∀ s, seen.count s ≤ 2) →
      (repetitionLoop seen rest = true ↔ ∃ s, 3 ≤ (seen ++ rest).count s) := by
  intro rest
  induction rest with
  | nil =>
    intro seen hs
    simp only [repetitionLoop, List.append_nil, Bool.false_eq_true, false_iff, not_exists]
    intro s
    have := hs s
    omega
  | cons pos rest ih =>
    intro seen hs
    unfold repetitionLoop
    by_cases h3 : seen.count pos + 1 = 3
    · rw [if_pos h3]
      simp only [true_iff]
      refine ⟨pos, ?_⟩
      rw [List.count_append, List.count_cons_self]
      omega
    · rw [if_neg h3]
      have hs' : ∀ s, (pos :: seen).count s ≤ 2 := by
        intro s
        rw [List.count_cons]
        have h1 := hs s
        have h2 := hs pos
        by_cases e : pos = s
        · subst e
          simp only [beq_self_eq_true, if_true]
          omega
        · have : (pos == s) = false := by simpa using e
          simp only [this, Bool.false_eq_true, if_false]
          omega
      rw [ih (pos :: seen) hs']
      constructor
      · rintro ⟨s, h⟩
        refine ⟨s, ?_⟩
        rw [List.count_append, List.count_cons] at h
        rw [List.count_append, List.count_cons]
        omega
      · rintro ⟨s, h⟩
        refine ⟨s, ?_⟩
        rw [List.count_append, List.count_cons] at h
        rw [List.count_append, List.count_cons]
        omega

/-- The repetition test of `lookForWin` holds exactly when some position occurs at least
three times in the history. -/
theorem repetition_test_iff (positions : List String) :
    (positions.length > 2 ∧ repetitionLoop [] positions = true) ↔ Threefold positions := by
  rw [repetitionLoop_iff positions [] (by simp)]
  simp only [List.nil_append]
  unfold Threefold
  constructor
  · rintro ⟨_, s, h⟩
    exact ⟨s, List.count_pos_iff.1 (by omega), h⟩
  · rintro ⟨s, _, h⟩
    exact ⟨by have := List.count_le_length s positions; omega, s, h⟩

theorem posString_data (p : Pos) :
    (posString p).data = [Char.ofNat (p.1 + 96).toNat, Char.ofNat (p.2 + 48).toNat] := rfl

theorem fingerprint_cons_none (b : Board) (pos : Pos) (rest : List Pos)
    (h : b.pieceMap pos = none) : fingerprint b (pos :: rest) = fingerprint b rest := by
  simp only [fingerprint, h]

theorem fingerprint_cons_some (b : Board) (pos : Pos) (rest : List Pos) (piece : Piece)
    (h : b.pieceMap pos = some piece) :
    (fingerprint b (pos :: rest)).data =
      piece.letter :: ((posString pos).data ++ (fingerprint b rest).data) := by
  simp only [fingerprint, h, String.data_append]
  rfl

/-- A non-empty fingerprint starts with a letter and the name of one of the squares. -/
theorem fingerprint_head (b : Board) :
    ∀ keys : List Pos, (fingerprint b keys).data = [] ∨
      ∃ k ∈ keys, ∃ c tail, (fingerprint b keys).data = c :: ((posString k).data ++ tail) := by
  intro keys
  induction keys with
  | nil => left; rfl
  | cons pos rest ih =>
    cases h : b.pieceMap pos with
    | none =>
      rw [fingerprint_cons_none b pos rest h]
      rcases ih with h0 | ⟨k, hk, c, tail, e⟩
      · exact Or.inl h0
      · exact Or.inr ⟨k, List.mem_cons_of_mem _ hk, c, tail, e⟩
    | some piece =>
      exact Or.inr ⟨pos, List.mem_cons_self _ _, piece.letter, (fingerprint b rest).data,
        fingerprint_cons_some b pos rest piece h⟩

theorem posString_eq_of_data {k k' : Pos} {t t' : List Char}
    (h : (posString k).data ++ t = (posString k').data ++ t') :
    posString k = posString k' ∧ t = t' := by
  simp only [posString_data, List.cons_append, List.nil_append, List.cons.injEq] at h
  refine ⟨?_, h.2.2⟩
  apply String.ext
  simp only [posString_data, h.1, h.2.1]

/-- The fingerprint records, square by square, whether the square is occupied and the
letter of its piece, and nothing else: two boards have the same fingerprint over squares
with distinct names exactly when they agree in these. -/
theorem fingerprint_eq_iff (b b' : Board) :
    ∀ keys : List Pos, (keys.map posString).Nodup →
      (fingerprint b keys = fingerprint b' keys ↔ SameLetters b b' keys) := by
  intro keys
  induction keys with
  | nil => intro _; simp [SameLetters, fingerprint]
  | cons pos rest ih =>
    intro hn
    rw [List.map_cons, List.nodup_cons] at hn
    obtain ⟨hpos, hrest⟩ := hn
    have ih' := ih hrest
    have hclash : ∀ (b1 : Board) (c : Char) (t : List Char),
        (fingerprint b1 rest).data ≠ c :: ((posString pos).data ++ t) := by
      intro b1 c t e
      rcases fingerprint_head b1 rest with h0 | ⟨k, hk, c', tail, e'⟩
      · rw [h0] at e; simp at e
      · rw [e'] at e
        simp only [List.cons.injEq] at e
        have := (posString_eq_of_data e.2).1
        exact hpos (List.mem_map.2 ⟨k, hk, this⟩)
    unfold SameLetters at ih' ⊢
    simp only [List.mem_cons, forall_eq_or_imp]
    cases h : b.pieceMap pos with
    | none =>
      cases h' : b'.pieceMap pos with
      | none =>
        rw [fingerprint_cons_none b pos rest h, fingerprint_cons_none b' pos rest h']
        simp only [Option.map_none', true_and]
        exact ih'
      | some q =>
        rw [fingerprint_cons_none b pos rest h, String.ext_iff,
          fingerprint_cons_some b' pos rest q h']
        simp only [Option.map_none', Option.map_some']
        constructor
        · intro e; exact absurd e (hclash b _ _)
        · intro e; exact absurd e.1 (by simp)
    | some p =>
      cases h' : b'.pieceMap pos with
      | none =>
        rw [fingerprint_cons_none b' pos rest h', String.ext_iff,
          fingerprint_cons_some b pos rest p h]
        simp only [Option.map_none', Option.map_some']
        constructor
        · intro e; exact absurd e.symm (hclash b' _ _)
        · intro e; exact absurd e.1 (by simp)
      | some q =>
        rw [String.ext_iff, fingerprint_cons_some b pos rest p h,
          fingerprint_cons_some b' pos rest q h']
        simp only [Option.map_some', List.cons.injEq, Option.some.injEq,
          List.append_cancel_left_eq]
        rw [← String.ext_iff]
        exact and_congr_right fun _ => ih'

theorem findPromotion_some :
    ∀ (slots : List (Option Piece)) (p : Piece), findPromotion slots = some p →
      some p ∈ slots ∧ p.letter = 'p' := by
  intro slots
  induction slots with
  | nil => intro p h; simp [findPromotion] at h
  | cons s rest ih =>
    intro p h
    cases s with
    | none =>
      obtain ⟨h1, h2⟩ := ih p h
      exact ⟨List.mem_cons_of_mem _ h1, h2⟩
    | some q =>
      unfold findPromotion at h
      by_cases hq : q.letter = 'p' ∧
          q.position.2 = (if q.color = PieceColor.white then 8 else 1)
      · rw [if_pos hq] at h
        simp only [Option.some.injEq] at h
        subst h
        exact ⟨List.mem_cons_self _ _, hq.1⟩
      · rw [if_neg hq] at h
        obtain ⟨h1, h2⟩ := ih p h
        exact ⟨List.mem_cons_of_mem _ h1, h2⟩

theorem back_ne_nil {α : Type} (l : List α) (h : l ≠ []) : ∃ x, back l = some x := by
  unfold back
  cases hl : l.getLast? with
  | none => exact absurd (List.getLast?_eq_none_iff.1 hl) h
  | some x => exact ⟨x, rfl⟩

theorem back_append_singleton {α : Type} (l : List α) (x : α) : back (l ++ [x]) = some x := by
  simp [back]

/-- One case of the promotion switch: what `promote` writes. -/
theorem promote_spec (g : Game) (pawn : Piece) (kind : PieceKind) (value : Int)
    (letter : Char) (suffix : String) (hc : g.board.contains pawn.position = true)
    (hlog : g.moveLog ≠ []) (htext : g.moveLogText ≠ []) :
    ∃ g' lm, g.promote pawn kind value letter suffix = some g' ∧
      g'.board.keys = g.board.keys ∧
      g'.board.pieceMap pawn.position =
        some ⟨g.board.nextAddr, kind, pawn.position, value, letter, pawn.color, 0⟩ ∧
      (∀ q, q ≠ pawn.position → g'.board.pieceMap q = g.board.pieceMap q) ∧
      back g'.moveLog = some lm ∧ lm.PiecePromoted = true ∧
      lm.startPiece = some g.board.nextAddr := by
  obtain ⟨lastMove, hm⟩ := back_ne_nil _ hlog
  obtain ⟨lastText, ht⟩ := back_ne_nil _ htext
  unfold Game.promote
  rw [if_pos hc, hm, ht]
  refine ⟨_, _, rfl, rfl, by simp, ?_, back_append_singleton _ _, rfl, rfl⟩
  intro q hq
  simp [hq]

theorem promotionOf_letter (key : Key) (kind : PieceKind) (value : Int) (letter : Char)
    (hk : promotionOf key = some (kind, value, letter)) : letter ≠ 'p' := by
  cases key <;> simp [promotionOf] at hk <;> obtain ⟨_, _, rfl⟩ := hk <;> decide

/-- The promotion handler on a promotion key is the matching case of `promote`. -/
theorem defaultPromotionHandler_key (g : Game) (pawn : Piece) (key : Key) (kind : PieceKind)
    (value : Int) (letter : Char) (hk : promotionOf key = some (kind, value, letter)) :
    ∃ suffix, g.defaultPromotionHandler pawn (Event.keyUp key) =
      (g.promote pawn kind value letter suffix).map fun g1 => (RunResult.still, g1) := by
  cases key <;> simp [promotionOf] at hk <;> obtain ⟨rfl, rfl, rfl⟩ := hk
  · exact ⟨"=q", rfl⟩
  · exact ⟨"=r", rfl⟩
  · exact ⟨"=n", rfl⟩
  · exact ⟨"=b", rfl⟩

/-- The result of `lookForWin` once the mate search has returned. -/
theorem lookForWin_of_mateSearch (depth : Nat) (g : Game) (r : WinSearchResult) (g1 : Game)
    (hm : g.mateSearch depth = some (r, g1)) :
    g.lookForWin depth =
      if r ≠ WinSearchResult.nothing then some (r, g1)
      else if g.movesUntilDraw = 0 then some (WinSearchResult.fiftyMoveDraw, g1)
      else if g1.board.Insufficient g.player1.color g.player2.color then
        some (WinSearchResult.materialDraw, g1)
      else if Threefold g.positions then some (WinSearchResult.repetitionDraw, g1)
      else some (WinSearchResult.nothing, g1) := by
  obtain ⟨hpos, hmud, hc1, hc2⟩ := mateSearch_sameCounters depth g _ hm
  simp only at hpos hmud hc1 hc2
  unfold Game.lookForWin
  rw [hm]
  simp only [hmud, hpos, hc1, hc2, material_test_iff, repetition_test_iff]

theorem letterOf_injective : ∀ k k' : PieceKind, letterOf k = letterOf k' → k = k' := by
  intro k k'
  cases k <;> cases k' <;> first
    | exact fun _ => rfl
    | exact fun h => absurd h (by decide)

theorem sameLetters_iff_sameKinds (b b' : Board) (keys : List Pos)
    (hs : StandardLetters b keys) (hs' : StandardLetters b' keys) :
    SameLetters b b' keys ↔ SameKinds b b' keys := by
  unfold SameLetters SameKinds
  refine forall_congr' fun k => forall_congr' fun hk => ?_
  have h1 := hs k hk
  have h2 := hs' k hk
  cases h : b.pieceMap k with
  | none => cases h' : b'.pieceMap k <;> simp
  | some p =>
    cases h' : b'.pieceMap k with
    | none => simp
    | some q =>
      simp only [Option.map_some', Option.some.injEq]
      rw [h1 p h, h2 q h']
      exact ⟨letterOf_injective _ _, fun e => by rw [e]⟩

/-- Lifting an evaluation of `lookForWin` after a line of play to a larger depth. -/
theorem play_lookForWin_mono (d d' : Nat) (hd : d ≤ d') (moves : List (Pos × Pos)) (g : Game)
    (x : WinSearchResult × Int)
    (h : ((g.play d moves).bind fun g1 =>
      (g1.lookForWin d).map fun r => (r.1, g1.moveCount)) = some x) :
    ((g.play d' moves).bind fun g1 =>
      (g1.lookForWin d').map fun r => (r.1, g1.moveCount)) = some x := by
  refine bind_some_lift h (fun a ha => play_mono d d' hd moves g a ha) fun g1 h1 => ?_
  cases hw : g1.lookForWin d with
  | none => rw [hw] at h1; simp at h1
  | some r =>
    rw [hw] at h1
    rw [lookForWin_mono d d' hd g1 r hw]
    exact h1

/-! ## The counters through `run`, `undoLastMove` and `lookForWin` -/

theorem sameTallies_refl (g : Game) : g.SameTallies g := ⟨rfl, rfl⟩

theorem sameTallies_trans {g g' g'' : Game} (h : g.SameTallies g')
    (h' : g'.SameTallies g'') : g.SameTallies g'' :=
  ⟨h'.1.trans h.1, h'.2.trans h.2⟩

theorem sameTallies_setPlayer (g : Game) (b : Board) (r : PlayerRef)
    (captured : List (Option Piece)) :
    g.SameTallies (({ g with board := b }).setPlayer r
      { ({ g with board := b } : Game).player r with capturedPieces := captured }) := by
  cases r <;> exact ⟨rfl, rfl⟩

theorem sameTallies_material (g : Game) (r : PlayerRef) (m : Int) :
    g.SameTallies (g.setPlayer r { g.player r with materialCaptured := m }) := by
  cases r <;> exact ⟨rfl, rfl⟩

theorem makeMove_sameTallies (g : Game) (move : Move) (r : Bool × Game)
    (h : g.makeMove move = some r) : g.SameTallies r.2 := by
  unfold Game.makeMove at h
  cases hb : g.board.makeMove move (g.player g.currentPlayer).capturedPieces with
  | none => rw [hb] at h; simp at h
  | some x =>
    obtain ⟨made, b1, captured1⟩ := x
    rw [hb] at h
    simp only [Option.some.injEq] at h
    rw [← h]
    exact sameTallies_setPlayer g b1 g.currentPlayer captured1

theorem restoreCaptured_sameTallies (g : Game) (r : PlayerRef) (pos : Pos) (g' : Game)
    (h : g.restoreCaptured r pos = some g') : g.SameTallies g' := by
  unfold Game.restoreCaptured at h
  split at h
  · simp only [Option.some.injEq] at h
    rw [← h]
    cases r <;> exact ⟨rfl, rfl⟩
  · simp at h

theorem revertMove_sameTallies (g : Game) (move : Move) (g' : Game)
    (h : g.revertMove move = some g') : g.SameTallies g' := by
  unfold Game.revertMove at h
  cases h1 : g.board.swapSlots move.endSq move.start with
  | none => rw [h1] at h; simp at h
  | some b1 =>
    rw [h1] at h
    simp only at h
    cases h2 : b1.setPosition move.start move.start with
    | none => rw [h2] at h; simp at h
    | some b2 =>
      rw [h2] at h
      simp only at h
      have hb : g.SameTallies { g with board := b2 } := ⟨rfl, rfl⟩
      split at h
      · split at h
        · simp at h
        · exact sameTallies_trans hb (restoreCaptured_sameTallies _ _ _ _ h)
      · split at h
        · split at h
          · simp at h
          · split at h
            · simp at h
            · simp only [Option.some.injEq] at h
              rw [← h]
              exact ⟨rfl, rfl⟩
        · split at h
          · exact sameTallies_trans hb (restoreCaptured_sameTallies _ _ _ _ h)
          · simp only [Option.some.injEq] at h
            rw [← h]
            exact ⟨rfl, rfl⟩

theorem isMoveLegal_sameTallies (d : Nat) (g : Game) (move : Move) (player : Player)
    (r : Bool × Move × Game) (h : g.isMoveLegal d move player = some r) :
    g.SameTallies r.2.2 := by
  unfold Game.isMoveLegal at h
  split at h
  · simp at h
  · split at h
    · simp at h
    · split at h
      · cases hm : g.makeMove { move with type := _ } with
        | none => rw [hm] at h; simp at h
        | some x =>
          obtain ⟨made, g1⟩ := x
          rw [hm] at h
          simp only at h
          have s1 := makeMove_sameTallies g _ _ hm
          split at h
          · simp at h
          · split at h
            · simp at h
            · rename_i g2 hr
              simp only [Option.some.injEq] at h
              rw [← h]
              exact sameTallies_trans s1 (revertMove_sameTallies _ _ _ hr)
      · simp only [Option.some.injEq] at h
        rw [← h]
        exact sameTallies_refl g

/-- The end piece of the move `isMoveLegal` returns is that of the move it was given. -/
theorem isMoveLegal_endPiece (d : Nat) (g : Game) (move : Move) (player : Player)
    (r : Bool × Move × Game) (h : g.isMoveLegal d move player = some r) :
    r.2.1.endPiece = move.endPiece ∧ r.2.1.startPiece = move.startPiece := by
  unfold Game.isMoveLegal at h
  split at h
  · simp at h
  · split at h
    · simp at h
    · split at h
      · cases hm : g.makeMove { move with type := _ } with
        | none => rw [hm] at h; simp at h
        | some x =>
          obtain ⟨made, g1⟩ := x
          rw [hm] at h
          simp only at h
          split at h
          · simp at h
          · split at h
            · simp at h
            · simp only [Option.some.injEq] at h
              rw [← h]
              exact ⟨rfl, rfl⟩
      · simp only [Option.some.injEq] at h
        rw [← h]
        exact ⟨rfl, rfl⟩

theorem promote_sameTallies (g : Game) (pawn : Piece) (kind : PieceKind) (value : Int)
    (letter : Char) (suffix : String) (g' : Game)
    (h : g.promote pawn kind value letter suffix = some g') : g.SameTallies g' := by
  unfold Game.promote at h
  split at h
  · split at h
    · simp only [Option.some.injEq] at h
      rw [← h]
      exact ⟨rfl, rfl⟩
    · simp at h
  · simp at h

/-- The promotion part of `run` returns `still` or `awaitPromotion` and leaves the
counters alone. -/
theorem promotionStep_sameTallies (g : Game) (event : Event) (r : RunResult × Game)
    (h : g.promotionStep event = some r) :
    (r.1 = RunResult.still ∨ r.1 = RunResult.awaitPromotion) ∧ g.SameTallies r.2 := by
  unfold Game.promotionStep at h
  split at h
  · rename_i piece _
    unfold Game.defaultPromotionHandler at h
    split at h
    all_goals
      first
      | (simp only [Option.some.injEq] at h
         rw [← h]
         first
         | exact ⟨Or.inl rfl, sameTallies_refl g⟩
         | exact ⟨Or.inr rfl, sameTallies_refl g⟩)
      | (simp only [Option.map_eq_some'] at h
         obtain ⟨g1, hg1, hr⟩ := h
         rw [← hr]
         exact ⟨Or.inl rfl, promote_sameTallies _ _ _ _ _ _ _ hg1⟩)
  · simp only [Option.some.injEq] at h
    rw [← h]
    exact ⟨Or.inl rfl, sameTallies_refl g⟩

theorem findAddr_addr (a : Nat) : ∀ (l : List (Option Piece)) (p : Piece),
    findAddr a l = some p → p.addr = a := by
  intro l
  induction l with
  | nil => intro p h; simp [findAddr] at h
  | cons s rest ih =>
    intro p h
    cases s with
    | none => exact ih p (by simpa [findAddr] using h)
    | some q =>
      simp only [findAddr] at h
      by_cases e : q.addr = a
      · rw [if_pos e] at h
        simp only [Option.some.injEq] at h
        rw [← h]; exact e
      · rw [if_neg e] at h
        exact ih p h

theorem findAddr_map (a : Nat) (m : Piece → Piece) (hm : ∀ p, (m p).addr = p.addr) :
    ∀ l : List (Option Piece), findAddr a (l.map (Option.map m)) = (findAddr a l).map m := by
  intro l
  induction l with
  | nil => rfl
  | cons s rest ih =>
    cases s with
    | none => simpa [findAddr] using ih
    | some p =>
      simp only [List.map_cons, Option.map_some', findAddr, hm p]
      by_cases e : p.addr = a
      · simp only [if_pos e, Option.map_some']
      · simp only [if_neg e]
        exact ih

/-- A write through a pointer that keeps the address changes the object the pointer leads
to and no other. -/
theorem heap_modifyAt (g : Game) (a : Nat) (f : Piece → Piece) (hf : ∀ p, (f p).addr = p.addr)
    (a' : Nat) :
    (g.modifyAt a f).heap a' = (g.heap a').map fun p => if p.addr = a then f p else p := by
  have hm : ∀ p : Piece, (if p.addr = a then f p else p).addr = p.addr := by
    intro p
    by_cases e : p.addr = a
    · rw [if_pos e]; exact hf p
    · rw [if_neg e]
  have := findAddr_map a' (fun p => if p.addr = a then f p else p) hm
    (g.board.keys.map g.board.pieceMap ++ g.player1.capturedPieces ++ g.player2.capturedPieces)
  unfold Game.heap
  rw [← this]
  simp only [Game.modifyAt, List.map_append, List.map_map]
  rfl

theorem heap_setPlayer_material (g : Game) (r : PlayerRef) (m : Int) :
    (g.setPlayer r { g.player r with materialCaptured := m }).heap = g.heap := by
  cases r <;> rfl

/-- The effect of the committing part of `run` on the counters: `moveCount` grows by one,
`turnCount` grows by one when the player to move holds White, the move is the last of the
log, and `movesUntilDraw` becomes 50 when the moved piece is a pawn or the move has an end
piece, and one less than it was otherwise. -/
theorem commit_tallies (g : Game) (move : Move) (r : RunResult) (g' : Game)
    (h : g.commit move = some (r, g')) :
    r = RunResult.turnedPassed ∧ g'.moveCount = g.moveCount + 1 ∧
      g'.turnCount = g.turnCount +
        (if (g.player g.currentPlayer).color = PieceColor.white then 1 else 0) ∧
      back g'.moveLog = some move ∧
      ∃ sp, deref g'.heap move.startPiece = some sp ∧
        g'.movesUntilDraw =
          if sp.letter = 'p' ∨ move.endPiece ≠ none then 50 else g.movesUntilDraw - 1 := by
  unfold Game.commit at h
  cases hl : g.logMove move with
  | none => rw [hl] at h; simp at h
  | some g1 =>
    rw [hl] at h
    simp only at h
    unfold Game.logMove at hl
    split at hl
    · simp at hl
    · rename_i text _
      simp only [Option.some.injEq] at hl
      split at h
      · simp at h
      · rename_i gain _
        split at h
        · rename_i a sp hsp hd
          simp only [Option.some.injEq, Prod.mk.injEq] at h
          obtain ⟨hr, hg⟩ := h
          refine ⟨hr.symm, ?_, ?_, ?_, ?_⟩
          · rw [← hg, ← hl]; cases g.currentPlayer <;> rfl
          · rw [← hg, ← hl]; cases g.currentPlayer <;> rfl
          · rw [← hg, ← hl]
            have : ∀ (l : List Move), back (l ++ [move]) = some move := fun l =>
              back_append_singleton l move
            cases g.currentPlayer <;> exact this _
          · refine ⟨{ sp with moveCount := sp.moveCount + 1 }, ?_, ?_⟩
            · rw [hsp]
              have h1 := heap_modifyAt (g1.setPlayer g1.currentPlayer
                { g1.player g1.currentPlayer with
                  materialCaptured := (g1.player g1.currentPlayer).materialCaptured + gain })
                a (fun p => { p with moveCount := p.moveCount + 1 }) (fun _ => rfl) a
              rw [heap_setPlayer_material] at h1
              rw [hsp] at hd
              simp only [deref] at hd
              rw [hd] at h1
              have haddr : sp.addr = a := by
                unfold Game.heap at hd
                exact findAddr_addr _ _ _ hd
              rw [← hg]
              simp only [deref]
              simp only [Option.map_some', if_pos haddr] at h1
              exact h1
            · rw [← hg, ← hl]
        · simp at h

theorem sameTallies_mover {g g' : Game} (h : g.SameTallies g') :
    (g'.player g'.currentPlayer).color = (g.player g.currentPlayer).color := by
  have hs := h.2
  simp only [Game.sides, Prod.mk.injEq] at hs
  obtain ⟨h1, h2, h3⟩ := hs
  rw [h1]
  cases g.currentPlayer
  · exact h2
  · exact h3

theorem sameTallies_fields {g g' : Game} (h : g.SameTallies g') :
    g'.moveCount = g.moveCount ∧ g'.turnCount = g.turnCount ∧
      g'.movesUntilDraw = g.movesUntilDraw := by
  have ht := h.1
  simp only [Game.tallies, Prod.mk.injEq] at ht
  exact ht

/-- The counters through one call of `run`: a call that does not return `turnedPassed`
leaves them alone, and a call that returns it has committed a move. -/
theorem run_tallies (d : Nat) (g : Game) (intent : Option Move) (event : Event)
    (r : RunResult) (g' : Game) (h : g.run d intent event = some (r, g')) :
    (r ≠ RunResult.turnedPassed → g.SameTallies g') ∧
      (r = RunResult.turnedPassed →
        g'.moveCount = g.moveCount + 1 ∧
        g'.turnCount = g.turnCount +
          (if (g.player g.currentPlayer).color = PieceColor.white then 1 else 0) ∧
        ∃ lm sp, back g'.moveLog = some lm ∧ deref g'.heap lm.startPiece = some sp ∧
          g'.movesUntilDraw =
            if sp.letter = 'p' ∨ lm.endPiece ≠ none then 50 else g.movesUntilDraw - 1) := by
  unfold Game.run at h
  by_cases hrun : g.running = true
  · rw [if_pos hrun] at h
    cases hp : g.promotionStep event with
    | none => rw [hp] at h; simp at h
    | some x =>
      obtain ⟨ret, g1⟩ := x
      rw [hp] at h
      simp only at h
      obtain ⟨hret, s1⟩ := promotionStep_sameTallies g event _ hp
      simp only at hret s1
      have quiet : ∀ g2, g.SameTallies g2 → some (ret, g2) = some (r, g') →
          (r ≠ RunResult.turnedPassed → g.SameTallies g') ∧
            (r = RunResult.turnedPassed →
              g'.moveCount = g.moveCount + 1 ∧
              g'.turnCount = g.turnCount +
                (if (g.player g.currentPlayer).color = PieceColor.white then 1 else 0) ∧
              ∃ lm sp, back g'.moveLog = some lm ∧ deref g'.heap lm.startPiece = some sp ∧
                g'.movesUntilDraw =
                  if sp.letter = 'p' ∨ lm.endPiece ≠ none then 50
                  else g.movesUntilDraw - 1) := by
        intro g2 s2 e
        simp only [Option.some.injEq, Prod.mk.injEq] at e
        obtain ⟨e1, e2⟩ := e
        rw [← e1, ← e2]
        refine ⟨fun _ => s2, fun hr => ?_⟩
        rcases hret with hh | hh <;> rw [hh] at hr <;> exact absurd hr (by decide)
      by_cases hstill : ret = RunResult.still
      · rw [if_pos hstill] at h
        cases intent with
        | none => exact quiet g1 s1 h
        | some move =>
          simp only at h
          cases hl : g1.isMoveLegal d move (g1.player g1.currentPlayer) with
          | none => rw [hl] at h; simp at h
          | some y =>
            obtain ⟨legal, move1, g2⟩ := y
            have s2 := sameTallies_trans s1 (isMoveLegal_sameTallies d g1 move _ _ hl)
            simp only at s2
            rw [hl] at h
            cases legal with
            | false => exact quiet g2 s2 h
            | true =>
              simp only at h
              cases hm : g2.makeMove move1 with
              | none => rw [hm] at h; simp at h
              | some z =>
                obtain ⟨made, g3⟩ := z
                have s3 := sameTallies_trans s2 (makeMove_sameTallies g2 move1 _ hm)
                simp only at s3
                rw [hm] at h
                cases made with
                | false => exact quiet g3 s3 h
                | true =>
                  simp only at h
                  obtain ⟨c1, c2, c3, c4, sp, c5, c6⟩ := commit_tallies g3 move1 r g' h
                  obtain ⟨f1, f2, f3⟩ := sameTallies_fields s3
                  refine ⟨fun hne => absurd c1 hne, fun _ => ⟨?_, ?_, move1, sp, c4, c5, ?_⟩⟩
                  · rw [c2, f1]
                  · rw [c3, f2, sameTallies_mover s3]
                  · rw [c6, f3]
      · rw [if_neg hstill] at h
        exact quiet g1 s1 h
  · rw [if_neg hrun] at h
    simp only [Option.some.injEq, Prod.mk.injEq] at h
    obtain ⟨e1, e2⟩ := h
    rw [← e1, ← e2]
    exact ⟨fun _ => sameTallies_refl g, fun hr => absurd hr (by decide)⟩

theorem recreatePawn_sameTallies (g : Game) (lastMove : Move) (g' : Game)
    (h : g.recreatePawn lastMove = some g') : g.SameTallies g' := by
  unfold Game.recreatePawn at h
  split at h
  · simp only [Option.some.injEq] at h
    rw [← h]
    exact ⟨rfl, rfl⟩
  · simp at h

theorem undoSpecial_sameTallies (g : Game) (lastMove : Move) (g' : Game)
    (h : g.undoSpecial lastMove = some g') : g.SameTallies g' := by
  unfold Game.undoSpecial at h
  split at h
  · split at h
    · simp at h
    · split at h
      · simp at h
      · rename_i g1 hr
        split at h
        · simp at h
        · simp only [Option.some.injEq] at h
          rw [← h]
          exact sameTallies_trans (restoreCaptured_sameTallies _ _ _ _ hr)
            (sameTallies_material _ _ _)
  · split at h
    · split at h
      · simp at h
      · split at h
        · simp at h
        · simp only [Option.some.injEq] at h
          rw [← h]
          exact ⟨rfl, rfl⟩
    · split at h
      · split at h
        · simp at h
        · rename_i g1 hr
          split at h
          · simp at h
          · simp only [Option.some.injEq] at h
            rw [← h]
            exact sameTallies_trans (restoreCaptured_sameTallies _ _ _ _ hr)
              (sameTallies_material _ _ _)
      · simp only [Option.some.injEq] at h
        rw [← h]
        exact sameTallies_refl g

/-- The effect of `undoLastMove` on the counters when a move is logged: `moveCount` falls
by one, `movesUntilDraw` is not written, and `turnCount` falls by one when the piece the
undone entry points to is black. -/
theorem undo_tallies (g g' : Game) (lm : Move) (hb : back g.moveLog = some lm)
    (h : g.undoLastMove = some g') :
    g'.moveCount = g.moveCount - 1 ∧ g'.movesUntilDraw = g.movesUntilDraw ∧
      ∃ sp, deref g'.heap lm.startPiece = some sp ∧
        g'.turnCount = g.turnCount - (if sp.color = PieceColor.black then 1 else 0) := by
  unfold Game.undoLastMove at h
  rw [hb] at h
  simp only at h
  cases h1 : (if lm.PiecePromoted then g.recreatePawn lm else some g) with
  | none => rw [h1] at h; simp at h
  | some g1 =>
    rw [h1] at h
    simp only at h
    have s1 : g.SameTallies g1 := by
      by_cases hp : lm.PiecePromoted = true
      · rw [if_pos hp] at h1
        exact recreatePawn_sameTallies g lm g1 h1
      · rw [if_neg hp] at h1
        simp only [Option.some.injEq] at h1
        rw [← h1]
        exact sameTallies_refl g
    cases h2 : g1.board.swapSlots lm.endSq lm.start with
    | none => rw [h2] at h; simp at h
    | some b2 =>
      rw [h2] at h
      simp only at h
      cases h3 : b2.setPosition lm.start lm.start with
      | none => rw [h3] at h; simp at h
      | some b3 =>
        rw [h3] at h
        simp only at h
        split at h
        · rename_i a sp hsp hd
          split at h
          · simp at h
          · rename_i g4 h4
            have s4 := undoSpecial_sameTallies _ _ _ h4
            have t4 : g4.tallies = g.tallies := s4.1.trans s1.1
            simp only [Game.tallies, Prod.mk.injEq] at t4
            obtain ⟨t41, t42, t43⟩ := t4
            split at h
            · rename_i sp4 moveLog moveLogText positions hsp4 _ _ _
              simp only [Option.some.injEq] at h
              refine ⟨?_, ?_, sp4, ?_, ?_⟩
              · rw [← h]; exact congrArg (fun x => x - 1) t41
              · rw [← h]; exact t43
              · rw [← h]; exact hsp4
              · rw [← h]
                exact congrArg
                  (fun x => x - (if sp4.color = PieceColor.black then 1 else 0)) t42
            · simp at h
        · simp at h

theorem start_tallies (g : Game) : g.start.2.tallies = g.tallies := by
  unfold Game.start
  split <;> rfl

/-- Calls of `run` never raise `movesUntilDraw` above 50. -/
theorem runs_countdown_le (d : Nat) : ∀ (steps : List (Option Move × Event)) (g g' : Game),
    g.movesUntilDraw ≤ 50 → g.runs d steps = some g' → g'.movesUntilDraw ≤ 50 := by
  intro steps
  induction steps with
  | nil =>
    intro g g' hle h
    simp only [Game.runs, Option.some.injEq] at h
    rw [← h]; exact hle
  | cons s rest ih =>
    intro g g' hle h
    obtain ⟨intent, event⟩ := s
    unfold Game.runs at h
    cases hr : g.run d intent event with
    | none => rw [hr] at h; simp at h
    | some x =>
      obtain ⟨r, g1⟩ := x
      rw [hr] at h
      simp only at h
      refine ih g1 g' ?_ h
      obtain ⟨q1, q2⟩ := run_tallies d g intent event r g1 hr
      by_cases e : r = RunResult.turnedPassed
      · obtain ⟨_, _, lm, sp, _, _, hm⟩ := q2 e
        rw [hm]
        split <;> omega
      · rw [(sameTallies_fields (q1 e)).2.2]; exact hle

/-- Absent mate and stalemate, `lookForWin` returns `fiftyMoveDraw` exactly when
`movesUntilDraw` is 0. -/
theorem lookForWin_fifty_iff (depth : Nat) (g g1 : Game)
    (hm : g.mateSearch depth = some (WinSearchResult.nothing, g1)) :
    g.lookForWin depth = some (WinSearchResult.fiftyMoveDraw, g1) ↔ g.movesUntilDraw = 0 := by
  rw [lookForWin_of_mateSearch depth g _ g1 hm]
  simp only [ne_eq, not_true_eq_false, if_false]
  constructor
  · intro h
    by_contra h0
    rw [if_neg h0] at h
    split at h
    · simp at h
    · split at h <;> simp at h
  · intro h0
    rw [if_pos h0]

/-! ## The default layout after `reset` -/

theorem emplace_alike (b b' : Board) (h : b.Alike b') (kind : PieceKind) (p : Pos)
    (value : Int) (letter : Char) (color : PieceColor) :
    (b.emplace kind p value letter color).Alike (b'.emplace kind p value letter color) := by
  obtain ⟨hk, hn, hs⟩ := h
  refine ⟨?_, hn, fun q => ?_⟩
  · simp only [Board.emplace, hk]
  · simp only [Board.emplace]
    by_cases e : q = p
    · simp only [if_pos e, slotData, Option.map_some']
    · simp only [if_neg e, hs q]

theorem placePawns_alike : ∀ (files : List Nat) (b b' : Board), b.Alike b' →
    (placePawns b files).Alike (placePawns b' files) := by
  intro files
  induction files with
  | nil => intro b b' h; exact h
  | cons x xs ih =>
    intro b b' h
    unfold placePawns
    exact ih _ _ (emplace_alike _ _ (emplace_alike _ _ h _ _ _ _ _) _ _ _ _ _)

theorem createDefaultPieceMap_alike (b b' : Board) (h : b.Alike b') :
    b.createDefaultPieceMap.Alike b'.createDefaultPieceMap := by
  unfold Board.createDefaultPieceMap
  rw [h.2.1]
  repeat apply emplace_alike
  exact placePawns_alike _ _ _ h

theorem alike_count (b b' : Board) (h : b.Alike b') :
    (b.keys.filterMap b.pieceMap).length = (b'.keys.filterMap b'.pieceMap).length := by
  obtain ⟨hk, _, hs⟩ := h
  rw [hk]
  induction b'.keys with
  | nil => rfl
  | cons k ks ih =>
    have hk := hs k
    simp only [List.filterMap_cons]
    cases h1 : b.pieceMap k <;> cases h2 : b'.pieceMap k <;>
      simp only [h1, h2, slotData, Option.map_some', Option.map_none'] at hk ⊢
    · exact ih
    · exact absurd hk (by simp)
    · exact absurd hk (by simp)
    · simp only [List.length_cons, ih]

set_option maxRecDepth 1000000 in
/-- The default layout on the 8 by 8 board, square by square. -/
theorem default_layout :
    (Board.new 64 true).keys = gridSquares 8 ∧
      ((Board.new 64 true).keys.filterMap (Board.new 64 true).pieceMap).length = 32 ∧
      ∀ p ∈ gridSquares 8, slotData ((Board.new 64 true).pieceMap p) =
        (standardSlot p).map fun s => (s, p, 0) := by
  decide!


/-! ## Lists of moves played one after the other -/

/-- Playing a list of moves and then a second list is playing the two lists in a row. -/
theorem play_append (d : Nat) : ∀ (l1 : List (Pos × Pos)) (g : Game) (l2 : List (Pos × Pos)),
    g.play d (l1 ++ l2) = (g.play d l1).bind fun g1 => g1.play d l2 := by
  intro l1
  induction l1 with
  | nil => intro g l2; rfl
  | cons m rest ih =>
    intro g l2
    obtain ⟨s, e⟩ := m
    simp only [List.cons_append, Game.play]
    cases g.run d (some (g.intent s e)) Event.otherEvent with
    | none => rfl
    | some x =>
      obtain ⟨r, g1⟩ := x
      cases r <;> first | exact ih g1 l2 | rfl

theorem play_append_mono (d d' : Nat) (hd : d ≤ d') (g : Game) (l1 l2 : List (Pos × Pos))
    (g1 g2 : Game) (h1 : g.play d l1 = some g1) (h2 : g1.play d l2 = some g2) :
    g.play d' (l1 ++ l2) = some g2 := by
  rw [play_append, play_mono d d' hd l1 g g1 h1]
  exact play_mono d d' hd l2 g1 g2 h2

/-! ## Squares of the boards used below -/

theorem mem_gridSquares (k : Nat) (p : Pos) :
    p ∈ gridSquares k ↔ (1 ≤ p.1 ∧ p.1 ≤ k ∧ 1 ≤ p.2 ∧ p.2 ≤ k) := by
  obtain ⟨x, y⟩ := p
  simp only [gridSquares, List.mem_flatMap, List.mem_map, List.mem_range, Prod.mk.injEq,
    Int.ofNat_eq_coe]
  constructor
  · rintro ⟨a, ha, c, hc, h1, h2⟩
    omega
  · intro h
    exact ⟨(x - 1).toNat, by omega, (y - 1).toNat, by omega, by omega, by omega⟩

theorem mem_insertKey (p q : Pos) (l : List Pos) : q ∈ insertKey p l ↔ q = p ∨ q ∈ l := by
  induction l with
  | nil => simp [insertKey]
  | cons a l ih =>
    unfold insertKey
    split
    · rename_i h
      subst h
      simp
    · split
      · simp
      · simp only [List.mem_cons, ih]
        tauto

theorem denseBoard_new : DenseBoard (Board.new 64 false) 8 := by
  intro p
  have h8 : intSqrt 64 = 8 := by decide
  have hmem := mem_gridSquares 8 p
  simp only [Board.new, Board.contains, decide_eq_true_eq, h8]
  simpa using hmem

theorem denseBoard_emplace (b : Board) (n : Int) (hb : DenseBoard b n) (kind : PieceKind)
    (p : Pos) (value : Int) (letter : Char) (color : PieceColor)
    (hp : 1 ≤ p.1 ∧ p.1 ≤ n ∧ 1 ≤ p.2 ∧ p.2 ≤ n) :
    DenseBoard (b.emplace kind p value letter color) n := by
  intro q
  have hq := hb q
  simp only [Board.contains, decide_eq_true_eq] at hq
  simp only [Board.emplace, Board.contains, decide_eq_true_eq, mem_insertKey, hq]
  constructor
  · rintro (h | h)
    · rw [h]; exact hp
    · exact h
  · exact fun h => Or.inr h

theorem denseBoard_fileBoard : DenseBoard fileBoard 8 :=
  denseBoard_emplace _ 8 (denseBoard_emplace _ 8 denseBoard_new _ _ _ _ _ (by decide)) _ _ _ _ _
    (by decide)

/-! ## The claims -/

/-- C1: `isMoveLegal(move, player)` tests the king of `currentPlayer`, not the king of
`player`.  On `pinBoard` with White to move, the black rook move h7-g7 asked for Black:
the rook is Black's, `canMove` gives `normal`, and after the move the black king is in
check from the rook on h1, yet `isMoveLegal` returns `true`. -/
theorem isMoveLegal_tests_current_player (depth : Nat) :
    pinGame.currentPlayer = PlayerRef.player1 ∧
      pinGame.player2.color = PieceColor.black ∧
      pinGame.board.inSync = true ∧
      (deref pinGame.heap (pinGame.intent (8, 7) (7, 7)).startPiece).map Piece.color =
        some PieceColor.black ∧
      ((deref pinGame.heap (pinGame.intent (8, 7) (7, 7)).startPiece).bind fun rook =>
        canMove depth pinGame.heap pinGame.board rook (7, 7) (back pinGame.moveLog)) =
          some (some MoveType.normal) ∧
      ((pinGame.makeMove
        { pinGame.intent (8, 7) (7, 7) with type := some MoveType.normal }).bind fun r =>
          r.2.isKingInCheck depth PieceColor.black) = some true ∧
      (pinGame.isMoveLegal depth (pinGame.intent (8, 7) (7, 7)) pinGame.player2).map Prod.fst =
        some true :=
  ⟨rfl, rfl, rfl, rfl, rfl, rfl, rfl⟩

/-- C2: on the default starting position (positions in sync, empty move log) the call
`isMoveLegal` for the intent e2-d3, whose declared pieces are the occupants of e2 and d3,
does not return: `Pawn::canMove` reads the absent last move. -/
theorem isMoveLegal_faults_on_start (depth : Nat) :
    startGame.board.inSync = true ∧ startGame.moveLog = [] ∧
      (startGame.intent (5, 2) (4, 3)).startPiece =
        (startGame.board.pieceMap (5, 2)).map Piece.addr ∧
      (startGame.intent (5, 2) (4, 3)).endPiece =
        (startGame.board.pieceMap (4, 3)).map Piece.addr ∧
      (startGame.isMoveLegal depth (startGame.intent (5, 2) (4, 3)) startGame.player1).isNone =
        true :=
  ⟨rfl, rfl, rfl, rfl, rfl⟩

/-- C3: on `shieldBoard` (one white king, positions in sync) the black rook on e8 reaches
the white king's square e3 with category `normal`, but `isKingInCheck(white)` does not
return `true`: the scan first asks the white pawn on d2, whose `canMove` reads the absent
last move. -/
theorem isKingInCheck_faults_before_attacker (depth : Nat) :
    shieldGame.board.inSync = true ∧
      ((shieldGame.board.keys.filterMap shieldGame.board.pieceMap).filter fun p =>
        decide (p.letter = 'k' ∧ p.color = PieceColor.white)).length = 1 ∧
      (shieldGame.board.pieceMap (5, 3)).map Piece.letter = some 'k' ∧
      ((shieldGame.board.pieceMap (5, 8)).map fun rook =>
        (rook.color, canMove depth shieldGame.heap shieldGame.board rook (5, 3) none)) =
          some (PieceColor.black, some (some MoveType.normal)) ∧
      (shieldGame.isKingInCheck depth PieceColor.white).isNone = true :=
  ⟨rfl, rfl, rfl, rfl, rfl⟩

set_option maxRecDepth 1000000 in
/-- C4: after 1. e4 Nf6 2. Ba6 Nh5 3. Bxb7 Nf4 4. a3 Nh3 5. a4 Nxg1 from the starting
position, `run` commits the intent e1-g1 as a short castle although g1 holds the black
knight; White's `materialCaptured` goes from 1 to 2 and `undoLastMove` leaves it at 2. -/
theorem undo_castle_keeps_material (depth : Nat) :
    ((startGame.play (depth + 1) castleLine).bind fun g =>
        some g.player1.materialCaptured) = some 1 ∧
      ((startGame.play (depth + 1) (castleLine ++ [((5, 1), (7, 1))])).bind fun g =>
        (back g.moveLog).map Move.type) = some (some MoveType.shortCastle) ∧
      ((startGame.play (depth + 1) (castleLine ++ [((5, 1), (7, 1))])).bind fun g =>
        some g.player1.materialCaptured) = some 2 ∧
      ((startGame.play (depth + 1) (castleLine ++ [((5, 1), (7, 1))])).bind fun g =>
        g.undoLastMove.map fun g1 => g1.player1.materialCaptured) = some 2 := by
  have h : ((startGame.play 1 castleLine).bind fun g =>
      (g.play 1 [((5, 1), (7, 1))]).bind fun g' =>
        (back g'.moveLog).bind fun m => g'.undoLastMove.bind fun g1 =>
          some ((g.player1.materialCaptured, m.type),
            (g'.player1.materialCaptured, g1.player1.materialCaptured))) =
      some ((1, some MoveType.shortCastle), (2, 2)) := by decide!
  obtain ⟨g, hg, h⟩ := Option.bind_eq_some.1 h
  obtain ⟨g', hg', h⟩ := Option.bind_eq_some.1 h
  obtain ⟨m, hm, h⟩ := Option.bind_eq_some.1 h
  obtain ⟨g1, hg1, h⟩ := Option.bind_eq_some.1 h
  simp only [Option.some.injEq, Prod.mk.injEq] at h
  obtain ⟨⟨a, b⟩, c, d⟩ := h
  rw [play_mono 1 (depth + 1) (by omega) _ _ _ hg,
    play_append_mono 1 (depth + 1) (by omega) _ _ _ _ _ hg hg']
  simp only [Option.some_bind, hm, hg1, Option.map_some', a, b, c, d, and_self]

set_option maxRecDepth 1000000 in
set_option maxHeartbeats 4000000 in
/-- C5: after 1. e4 a6 2. e5 d5 from the starting position `run` commits e5xd6 as an
en-passant capture (its logged `endPiece` is null), and `undoLastMove` called next does
not complete: it reads `lastMove.endPiece->value` through the null pointer. -/
theorem undo_enPassant_faults (depth : Nat) :
    ((startGame.play depth (enPassantLine ++ [((5, 5), (4, 6))])).bind fun g =>
        (back g.moveLog).map fun m => (m.type, m.endPiece)) =
          some (some MoveType.enPassant, none) ∧
      ((startGame.play depth (enPassantLine ++ [((5, 5), (4, 6))])).bind
        Game.undoLastMove).isNone = true :=
  ⟨rfl, rfl⟩

set_option maxRecDepth 1000000 in
set_option maxHeartbeats 4000000 in
/-- C6: after 1. h4 a6 2. h5 a5 3. h6 a4 4. hxg7 a3 5. gxh8 from the starting position
and the promotion choice Q (the step reports `still` and h8 holds a white queen),
`undoLastMove` does not complete: it destroys the promoted piece and then reads and
writes it through the logged pointer. -/
theorem undo_promotion_faults (depth : Nat) :
    ((startGame.play depth promotionLine).bind fun g =>
        (g.run depth none (Event.keyUp Key.q)).map fun r =>
          (r.1, (r.2.board.pieceMap (8, 8)).map fun p => (p.letter, p.color))) =
          some (RunResult.still, some ('q', PieceColor.white)) ∧
      ((startGame.play depth promotionLine).bind fun g =>
        (g.run depth none (Event.keyUp Key.q)).map fun r => r.2.undoLastMove.isNone) =
          some true :=
  ⟨rfl, rfl⟩

/-- C7: on `ownTargetBoard` the target d6 holds a white knight, the last move is the
double step d7-d5 of the black pawn, and `Pawn::canMove` of the white pawn on e5 returns
`enPassant` for d6; with no last move the same call does not return at all. -/
theorem pawn_enPassant_onto_own_piece :
    ownTargetBoard.pieceMap (5, 5) = some ownTargetPawn ∧
      (ownTargetBoard.pieceMap (4, 6)).map Piece.color = some ownTargetPawn.color ∧
      Pawn.canMove ownTargetHeap ownTargetBoard ownTargetPawn (4, 6) (some ownTargetLastMove) =
        some (some MoveType.enPassant) ∧
      Pawn.canMove ownTargetHeap ownTargetBoard ownTargetPawn (4, 6) none = none := by
  decide

/-- C8: a rook, bishop or queen standing on its own square of a dense `n` by `n` board
gets `normal` from `canMove` exactly when the target is another square of the board on a
line of the piece, every square strictly between is empty and the target is empty or holds
an enemy piece, and gets nothing otherwise; and on every board `Queen::canMove` returns a
category iff `Rook::canMove` or `Bishop::canMove` does for the same piece data. -/
theorem sliding_canMove_spec (depth : Nat) (heap : Heap) (b : Board) (n : Int) (self : Piece)
    (target : Pos) (lastMove : Option Move) (hb : DenseBoard b n)
    (hon : b.contains self.position = true) (hself : b.pieceMap self.position = some self)
    (hk : self.kind = PieceKind.rook ∨ self.kind = PieceKind.bishop ∨
      self.kind = PieceKind.queen) :
    (SlideAllowed b self target →
        canMove depth heap b self target lastMove = some (some MoveType.normal)) ∧
      (¬SlideAllowed b self target → canMove depth heap b self target lastMove = some none) ∧
      ∀ (b' : Board) (p : Piece) (t : Pos),
        (∃ c, Queen.canMove b' p t = some (some c)) ↔
          ((∃ c, Rook.canMove b' p t = some (some c)) ∨
            ∃ c, Bishop.canMove b' p t = some (some c)) := by
  refine ⟨?_, ?_, queen_iff_rook_or_bishop⟩
  · rintro ⟨hc, hne, hline, hfree, htgt⟩
    have hown := (holdsOwn_eq_false_iff _ _).2 htgt
    rcases hline with ⟨hkind, hl⟩ | ⟨hkind, hl⟩ | ⟨hkind, hl⟩
    · simp only [canMove, canMoveWith, hkind]
      rw [rook_canMove_eq b self target hc hown, if_pos hl]
      exact (slideScan_spec b n hb _ _ hon hc hne (Or.inl hl)).1 hfree
    · simp only [canMove, canMoveWith, hkind]
      rw [bishop_canMove_eq b self target hc hown hne, if_pos hl]
      exact (slideScan_spec b n hb _ _ hon hc hne (Or.inr hl)).1 hfree
    · simp only [canMove, canMoveWith, hkind]
      rw [queen_canMove_eq b self target hc hown hne, if_pos hl]
      exact (slideScan_spec b n hb _ _ hon hc hne hl).1 hfree
  · intro hnot
    by_cases hc : b.contains target = true
    · cases hown : holdsOwn (b.pieceMap target) self.color
      · have hne : target ≠ self.position := by
          intro h
          rw [h, hself] at hown
          simp [holdsOwn] at hown
        have htgt := (holdsOwn_eq_false_iff _ _).1 hown
        rcases hk with hkind | hkind | hkind
        · simp only [canMove, canMoveWith, hkind]
          rw [rook_canMove_eq b self target hc hown]
          by_cases hl : Orthogonal self.position target
          · rw [if_pos hl]
            refine (slideScan_spec b n hb _ _ hon hc hne (Or.inl hl)).2 (fun hfree => ?_)
            exact hnot ⟨hc, hne, Or.inl ⟨hkind, hl⟩, hfree, htgt⟩
          · rw [if_neg hl]
        · simp only [canMove, canMoveWith, hkind]
          rw [bishop_canMove_eq b self target hc hown hne]
          by_cases hl : Diagonal self.position target
          · rw [if_pos hl]
            refine (slideScan_spec b n hb _ _ hon hc hne (Or.inr hl)).2 (fun hfree => ?_)
            exact hnot ⟨hc, hne, Or.inr (Or.inl ⟨hkind, hl⟩), hfree, htgt⟩
          · rw [if_neg hl]
        · simp only [canMove, canMoveWith, hkind]
          rw [queen_canMove_eq b self target hc hown hne]
          by_cases hl : Orthogonal self.position target ∨ Diagonal self.position target
          · rw [if_pos hl]
            refine (slideScan_spec b n hb _ _ hon hc hne hl).2 (fun hfree => ?_)
            exact hnot ⟨hc, hne, Or.inr (Or.inr ⟨hkind, hl⟩), hfree, htgt⟩
          · rw [if_neg hl]
      · rcases hk with hkind | hkind | hkind <;>
          simp [canMove, canMoveWith, hkind, Rook.canMove, Bishop.canMove, Queen.canMove,
            Queen.dir, hc, hown]
    · rcases hk with hkind | hkind | hkind <;>
        simp [canMove, canMoveWith, hkind, Rook.canMove, Bishop.canMove, Queen.canMove, hc]

/-- C8, applied to the white rook on a1 of `fileBoard` and the target a5. -/
theorem sliding_canMove_spec_witness :
    (DenseBoard fileBoard 8 ∧ fileBoard.contains fileRook.position = true ∧
      fileBoard.pieceMap fileRook.position = some fileRook ∧
      (fileRook.kind = PieceKind.rook ∨ fileRook.kind = PieceKind.bishop ∨
        fileRook.kind = PieceKind.queen)) ∧
    ((SlideAllowed fileBoard fileRook (1, 5) →
        canMove 0 (fun _ => none) fileBoard fileRook (1, 5) none =
          some (some MoveType.normal)) ∧
      (¬SlideAllowed fileBoard fileRook (1, 5) →
        canMove 0 (fun _ => none) fileBoard fileRook (1, 5) none = some none) ∧
      ∀ (b' : Board) (p : Piece) (t : Pos),
        (∃ c, Queen.canMove b' p t = some (some c)) ↔
          ((∃ c, Rook.canMove b' p t = some (some c)) ∨
            ∃ c, Bishop.canMove b' p t = some (some c))) :=
  ⟨⟨denseBoard_fileBoard, by decide, by decide, Or.inl rfl⟩,
    sliding_canMove_spec 0 (fun _ => none) fileBoard 8 fileRook (1, 5) none
      denseBoard_fileBoard (by decide) (by decide) (Or.inl rfl)⟩

/-- C9: when `Pawn::canMove` returns `normal` the target is strictly ahead of the pawn
for its colour, and the move is one square straight ahead onto an empty square, two
squares straight ahead onto an empty square, or one square diagonally ahead onto a square
holding an enemy piece. -/
theorem pawn_normal_shape (heap : Heap) (b : Board) (self : Piece) (target : Pos)
    (lastMove : Option Move)
    (h : Pawn.canMove heap b self target lastMove = some (some MoveType.normal)) :
    0 < (target.2 - self.position.2) * fwd self.color ∧
    ((target = (self.position.1, self.position.2 + fwd self.color) ∧
        b.pieceMap target = none) ∨
      (target = (self.position.1, self.position.2 + 2 * fwd self.color) ∧
        b.pieceMap target = none) ∨
      ((target = (self.position.1 + 1, self.position.2 + fwd self.color) ∨
          target = (self.position.1 - 1, self.position.2 + fwd self.color)) ∧
        ∃ q, b.pieceMap target = some q ∧ q.color ≠ self.color)) := by
  obtain ⟨tf, tr⟩ := target
  unfold Pawn.canMove at h
  split at h
  · split at h
    · rename_i hah
      rw [isAhead_iff] at hah
      refine ⟨hah, ?_⟩
      have hf : fwd self.color = 1 ∨ fwd self.color = -1 := by unfold fwd; split <;> simp
      simp only [absDistance, Prod.mk.injEq, intAbs_eq_iff, holdsEnemy_iff] at h
      simp only [Prod.mk.injEq]
      split at h
      · rename_i h1
        refine Or.inl ⟨?_, h1.2⟩
        rcases hf with hf | hf <;> rw [hf] at hah ⊢ <;> omega
      · split at h
        · rename_i h1
          refine Or.inr (Or.inr ⟨?_, h1.2⟩)
          rcases hf with hf | hf <;> rw [hf] at hah ⊢ <;> omega
        · split at h
          · rename_i h1
            refine Or.inr (Or.inl ⟨?_, h1.2.2⟩)
            rcases hf with hf | hf <;> rw [hf] at hah ⊢ <;> omega
          · split at h
            · exact absurd h (enPassantTest_ne_normal _ _ _ _)
            · simp at h
    · simp at h
  · simp at h


/-- C9, applied to the white pawn on e3 of `thirdRankBoard` and the target e4. -/
theorem pawn_normal_shape_witness :
    Pawn.canMove (fun _ => none) thirdRankBoard thirdRankPawn (5, 4) none =
        some (some MoveType.normal) ∧
      (0 < (((5, 4) : Pos).2 - thirdRankPawn.position.2) * fwd thirdRankPawn.color ∧
        ((((5, 4) : Pos) = (thirdRankPawn.position.1,
              thirdRankPawn.position.2 + fwd thirdRankPawn.color) ∧
            thirdRankBoard.pieceMap (5, 4) = none) ∨
          (((5, 4) : Pos) = (thirdRankPawn.position.1,
              thirdRankPawn.position.2 + 2 * fwd thirdRankPawn.color) ∧
            thirdRankBoard.pieceMap (5, 4) = none) ∨
          ((((5, 4) : Pos) = (thirdRankPawn.position.1 + 1,
                thirdRankPawn.position.2 + fwd thirdRankPawn.color) ∨
              ((5, 4) : Pos) = (thirdRankPawn.position.1 - 1,
                thirdRankPawn.position.2 + fwd thirdRankPawn.color)) ∧
            ∃ q, thirdRankBoard.pieceMap (5, 4) = some q ∧ q.color ≠ thirdRankPawn.color))) :=
  ⟨by decide, pawn_normal_shape (fun _ => none) thirdRankBoard thirdRankPawn (5, 4) none
    (by decide)⟩

/-- C10 fails as stated: on `thirdRankBoard` the white pawn on e3 (not on rank 2,
move-count 0) gets `normal` for the two-square step to e5. -/
theorem pawn_double_step_off_start_rank :
    thirdRankBoard.pieceMap (5, 3) = some thirdRankPawn ∧
      thirdRankPawn.color = PieceColor.white ∧ thirdRankPawn.position.2 ≠ 2 ∧
      Pawn.canMove (fun _ => none) thirdRankBoard thirdRankPawn
        (thirdRankPawn.position.1, thirdRankPawn.position.2 + 2 * fwd thirdRankPawn.color)
        none = some (some MoveType.normal) := by
  decide

/-- C10, as amended: when `Pawn::canMove` returns a category for the square two ranks
straight ahead, the category is `normal`, the pawn has move-count 0, and both the square
it passes over and the destination are empty.  (The rank the pawn stands on is not
tested.) -/
theorem pawn_double_step_requires (heap : Heap) (b : Board) (self : Piece) (target : Pos)
    (lastMove : Option Move) (t : MoveType)
    (htarget : target = (self.position.1, self.position.2 + 2 * fwd self.color))
    (h : Pawn.canMove heap b self target lastMove = some (some t)) :
    t = MoveType.normal ∧ self.moveCount = 0 ∧
      b.pieceMap (self.position.1, self.position.2 + fwd self.color) = none ∧
      b.pieceMap target = none := by
  have hf := fwd_cases self.color
  subst htarget
  unfold Pawn.canMove at h
  split at h
  · split at h
    · simp only [absDistance, Prod.mk.injEq, intAbs_eq_iff, holdsEnemy_iff] at h
      split at h
      · rename_i h1
        rcases hf with hf | hf <;> rw [hf] at h1 <;> omega
      · split at h
        · rename_i h1
          rcases hf with hf | hf <;> rw [hf] at h1 <;> omega
        · split at h
          · rename_i h1
            have hd : (if self.color = PieceColor.white then ((0 : Int), (1 : Int)) else (0, -1))
                = (0, fwd self.color) := by unfold fwd; split <;> rfl
            have ht : (self.position.1, self.position.2 + 2 * fwd self.color) =
                (self.position.1 + (0, fwd self.color).1 * 2,
                  self.position.2 + (0, fwd self.color).2 * 2) := by
              simp only [zero_mul, add_zero, Prod.mk.injEq, true_and]; ring
            rw [hd, ht] at h
            have hu : UnitDir (0, fwd self.color) := by
              refine ⟨Or.inr (Or.inl rfl), ?_, ?_⟩
              · rcases hf with hf | hf <;> simp [hf]
              · rcases hf with hf | hf <;> simp [hf]
            obtain ⟨hn, hfree⟩ :=
              scanLine_some b self.position (0, fwd self.color) hu 2 2 1 none t (by omega)
                (by omega) h
            have h1' := hfree 1 (by omega) (by omega)
            simp only [Board.slotAt, zero_mul, add_zero, mul_one] at h1'
            refine ⟨hn, h1.2.1, ?_, h1.2.2⟩
            split at h1'
            · exact Option.some.inj h1'
            · simp at h1'
          · split at h
            · rename_i h1
              rcases hf with hf | hf <;> rw [hf] at h1 <;> omega
            · simp at h
    · simp at h
  · simp at h

/-- C10 as amended, applied to the white pawn on e3 of `thirdRankBoard`. -/
theorem pawn_double_step_requires_witness :
    ((5, 5) : Pos) = (thirdRankPawn.position.1,
        thirdRankPawn.position.2 + 2 * fwd thirdRankPawn.color) ∧
      Pawn.canMove (fun _ => none) thirdRankBoard thirdRankPawn (5, 5) none =
        some (some MoveType.normal) ∧
      (MoveType.normal = MoveType.normal ∧ thirdRankPawn.moveCount = 0 ∧
        thirdRankBoard.pieceMap
          (thirdRankPawn.position.1, thirdRankPawn.position.2 + fwd thirdRankPawn.color) =
            none ∧
        thirdRankBoard.pieceMap (5, 5) = none) :=
  ⟨by decide, by decide,
    pawn_double_step_requires (fun _ => none) thirdRankBoard thirdRankPawn (5, 5) none
      MoveType.normal (by decide) (by decide)⟩

/-! ## Claims C11 to C20 -/

/-- C11: `Pawn::canMove` returns `enPassant` only when there is a preceding move, made by
an enemy pawn, that covered two ranks and ended on the square directly beside this pawn,
and the target is the square one rank ahead of this pawn in that pawn's file (the square
that pawn passed over when its move was a straight double step); and for a preceding move
that does not meet these conditions a diagonal move onto an empty square returns nothing. -/
theorem pawn_enPassant_spec (heap : Heap) (b : Board) (self : Piece) (target : Pos)
    (lastMove : Option Move) :
    (Pawn.canMove heap b self target lastMove = some (some MoveType.enPassant) →
      ∃ lm a sp, lastMove = some lm ∧ lm.startPiece = some a ∧ heap a = some sp ∧
        EnPassantAllowed self target lm sp ∧
        (lm.endSq = (lm.start.1, lm.start.2 + 2 * fwd sp.color) →
          target = (lm.start.1, lm.start.2 + fwd sp.color))) ∧
      ∀ lm a sp, lastMove = some lm → lm.startPiece = some a → heap a = some sp →
        ¬EnPassantAllowed self target lm sp →
        absDistance self.position target = (1, 1) → b.pieceMap target = none →
        Pawn.canMove heap b self target lastMove = some none := by
  constructor
  · intro h
    unfold Pawn.canMove at h
    split at h
    · split at h
      · rename_i hahead
        split at h
        · simp at h
        · split at h
          · simp at h
          · split at h
            · rcases scanLine_result _ _ _ _ _ _ _ _ h with h1 | h1 | h1 <;> simp at h1
            · split at h
              · rename_i hdist
                cases hlm : lastMove with
                | none => rw [hlm] at h; simp [enPassantTest] at h
                | some lm =>
                  cases ha : lm.startPiece with
                  | none => rw [hlm] at h; simp [enPassantTest, ha] at h
                  | some a =>
                    cases hsp : heap a with
                    | none => rw [hlm] at h; simp [enPassantTest, ha, hsp] at h
                    | some sp =>
                      rw [hlm] at h
                      have hspec := enPassantTest_spec heap self target lm a sp ha hsp hahead hdist
                      have hall : EnPassantAllowed self target lm sp := by
                        by_contra hn
                        rw [hspec.2 hn] at h
                        simp at h
                      refine ⟨lm, a, sp, rfl, ha, hsp, hall, ?_⟩
                      intro hstep
                      obtain ⟨_, hcol, _, hrank, _, htgt⟩ := hall
                      have hfw := fwd_opposite _ _ hcol
                      rw [htgt]
                      have h1 := congrArg Prod.fst hstep
                      have h2 := congrArg Prod.snd hstep
                      simp only at h1 h2
                      rw [Prod.mk.injEq]
                      constructor <;> omega
              · simp at h
      · simp at h
    · simp at h
  · intro lm a sp hlm ha hsp hn hdist hempty
    subst hlm
    unfold Pawn.canMove
    split
    · split
      · rename_i hahead
        have e1 : ¬(absDistance self.position target = (0, 1) ∧ b.pieceMap target = none) := by
          intro h; rw [hdist] at h; exact absurd h.1 (by decide)
        have e2 : ¬(absDistance self.position target = (1, 1) ∧
            holdsEnemy (b.pieceMap target) self.color = true) := by
          rw [hempty]; simp [holdsEnemy]
        have e3 : ¬(absDistance self.position target = (0, 2) ∧ self.moveCount = 0 ∧
            b.pieceMap target = none) := by
          intro h; rw [hdist] at h; exact absurd h.1 (by decide)
        rw [if_neg e1, if_neg e2, if_neg e3]
        exact (enPassantTest_spec heap self target lm a sp ha hsp hahead hdist).2 hn
      · rfl
    · rfl

/-- The witness of `pawn_enPassant_spec`: on `passingBoard` the white pawn e5 may take the
d5-pawn in passing onto d6 right after d7-d5, with d6 the square passed over, and may not
when the preceding move is a7-a6. -/
theorem pawn_enPassant_spec_witness :
    (Pawn.canMove passingHeap passingBoard passingPawn (4, 6) (some passingLastMove) =
        some (some MoveType.enPassant) ∧
      ∃ lm a sp, some passingLastMove = some lm ∧ lm.startPiece = some a ∧
        passingHeap a = some sp ∧ EnPassantAllowed passingPawn (4, 6) lm sp ∧
        (lm.endSq = (lm.start.1, lm.start.2 + 2 * fwd sp.color) →
          (4, 6) = (lm.start.1, lm.start.2 + fwd sp.color))) ∧
      ¬EnPassantAllowed passingPawn (4, 6) idleLastMove idlePawn ∧
      Pawn.canMove passingHeap passingBoard passingPawn (4, 6) (some idleLastMove) =
        some none :=
  ⟨⟨by decide, (pawn_enPassant_spec passingHeap passingBoard passingPawn (4, 6)
      (some passingLastMove)).1 (by decide)⟩, by decide,
    (pawn_enPassant_spec passingHeap passingBoard passingPawn (4, 6)
      (some idleLastMove)).2 idleLastMove 3 idlePawn rfl rfl (by decide) (by decide)
      (by decide) (by decide)⟩

set_option maxRecDepth 1000000 in
/-- C12, counterexample: after 1. Nf3 a6 2. g3 a5 3. Bg2 a4 4. Rg1 b6 5. Rh1 b5 from the
starting position the white king's `canMove` to g1 returns `shortCastle` although the rook
on h1 has moved twice. -/
theorem castle_with_moved_rook :
    ((startGame.play 1 rookReturnLine).bind fun g =>
      (g.board.pieceMap (5, 1)).bind fun king =>
        (g.board.pieceMap (8, 1)).bind fun rook =>
          (canMove 1 g.heap g.board king (7, 1) (back g.moveLog)).bind fun r =>
            some (king.kind, king.moveCount, r, rook.letter, rook.color, rook.moveCount)) =
      some (PieceKind.king, 0, some MoveType.shortCastle, 'r', PieceColor.white, 2) := by
  decide!

/-- C12, amended: a king's `canMove` returns `shortCastle` or `longCastle` only if the
target is two files from the king on the same rank (towards the h-file for the short
castle, towards the a-file for the long one), the king's move-count is 0, and the square
three files towards the h-file (short) or four files towards the a-file (long) holds a
rook of the king's colour. -/
theorem king_castle_requires (depth : Nat) (heap : Heap) (b : Board) (self : Piece)
    (target : Pos) (lastMove : Option Move) (t : MoveType) (hk : self.kind = PieceKind.king)
    (ht : t = MoveType.shortCastle ∨ t = MoveType.longCastle)
    (h : canMove depth heap b self target lastMove = some (some t)) :
    absDistance self.position target = (2, 0) ∧ self.moveCount = 0 ∧
      ((t = MoveType.shortCastle ∧ target = (self.position.1 + 2, self.position.2) ∧
          ∃ rook, b.pieceMap (self.position.1 + 3, self.position.2) = some rook ∧
            rook.letter = 'r' ∧ rook.color = self.color) ∨
        (t = MoveType.longCastle ∧ target = (self.position.1 - 2, self.position.2) ∧
          ∃ rook, b.pieceMap (self.position.1 - 4, self.position.2) = some rook ∧
            rook.letter = 'r' ∧ rook.color = self.color)) := by
  have hn : t ≠ MoveType.normal := by rcases ht with rfl | rfl <;> decide
  have h1 : King.canMove (nestedCanMove heap b depth) b self target = some (some t) := by
    simpa only [canMove, canMoveWith, hk] using h
  obtain ⟨hm, _, hor⟩ := king_castle_tested _ b self target t hn h1
  have hdist : absDistance self.position target = (2, 0) := by
    rcases hor with ⟨_, htgt, _⟩ | ⟨_, htgt, _⟩ <;>
      · rw [htgt]
        simp only [absDistance, Prod.mk.injEq, intAbs_eq_iff]
        constructor <;> omega
  refine ⟨hdist, hm, ?_⟩
  rcases hor with ⟨h2, htgt, hrook, _⟩ | ⟨h2, htgt, hrook, _⟩
  · exact Or.inl ⟨h2, htgt, hrook⟩
  · exact Or.inr ⟨h2, htgt, hrook⟩

set_option maxRecDepth 1000000 in
/-- The witness of `king_castle_requires`: on `castleBoard` the white king e1 may castle
short, to g1, with the white rook on h1. -/
theorem king_castle_requires_witness :
    canMove 1 castleHeap castleBoard castleKing (7, 1) none =
        some (some MoveType.shortCastle) ∧
      absDistance castleKing.position (7, 1) = (2, 0) ∧ castleKing.moveCount = 0 ∧
      ((MoveType.shortCastle = MoveType.shortCastle ∧
          ((7, 1) : Pos) = (castleKing.position.1 + 2, castleKing.position.2) ∧
          ∃ rook, castleBoard.pieceMap (castleKing.position.1 + 3, castleKing.position.2) =
              some rook ∧ rook.letter = 'r' ∧ rook.color = castleKing.color) ∨
        (MoveType.shortCastle = MoveType.longCastle ∧
          ((7, 1) : Pos) = (castleKing.position.1 - 2, castleKing.position.2) ∧
          ∃ rook, castleBoard.pieceMap (castleKing.position.1 - 4, castleKing.position.2) =
              some rook ∧ rook.letter = 'r' ∧ rook.color = castleKing.color)) :=
  ⟨by decide!, king_castle_requires 1 castleHeap castleBoard castleKing (7, 1) none
    MoveType.shortCastle rfl (Or.inl rfl) (by decide!)⟩

set_option maxRecDepth 1000000 in
/-- C13: after 1. e4 b6 2. Bc4 Ba6 3. Bd5 c6 4. Nf3 h6 from the starting position the
black bishop on a6 can move to f1, the square the white king crosses, and yet the king's
`canMove` to g1 returns `shortCastle` and `run` commits the castle. -/
theorem castle_through_attacked_square (depth : Nat) :
    ((startGame.play (depth + 1) bishopLine).bind fun g =>
      (g.board.pieceMap (5, 1)).bind fun king =>
        (g.board.pieceMap (1, 6)).bind fun bishop =>
          (canMove (depth + 1) g.heap g.board bishop (6, 1) none).bind fun attack =>
            (canMove (depth + 1) g.heap g.board king (7, 1) (back g.moveLog)).bind fun r =>
              some ((king.kind, king.color), (bishop.kind, bishop.color), attack, r)) =
        some ((PieceKind.king, PieceColor.white), (PieceKind.bishop, PieceColor.black),
          some MoveType.normal, some MoveType.shortCastle) ∧
      ((startGame.play (depth + 1) (bishopLine ++ [((5, 1), (7, 1))])).bind fun g =>
        (back g.moveLog).map Move.type) = some (some MoveType.shortCastle) := by
  have h : ((startGame.play 1 bishopLine).bind fun g =>
      (g.board.pieceMap (5, 1)).bind fun king =>
        (g.board.pieceMap (1, 6)).bind fun bishop =>
          (canMove 1 g.heap g.board bishop (6, 1) none).bind fun attack =>
            (canMove 1 g.heap g.board king (7, 1) (back g.moveLog)).bind fun r =>
              some ((king.kind, king.color), (bishop.kind, bishop.color), attack, r)) =
        some ((PieceKind.king, PieceColor.white), (PieceKind.bishop, PieceColor.black),
          some MoveType.normal, some MoveType.shortCastle) ∧
      ((startGame.play 1 bishopLine).bind fun g =>
        (g.play 1 [((5, 1), (7, 1))]).bind fun g' => (back g'.moveLog).map Move.type) =
        some (some MoveType.shortCastle) := by
    decide!
  obtain ⟨h1, h2⟩ := h
  obtain ⟨g, hg, h2⟩ := Option.bind_eq_some.1 h2
  obtain ⟨g', hg', h2⟩ := Option.bind_eq_some.1 h2
  rw [hg] at h1
  simp only [Option.some_bind] at h1
  obtain ⟨king, hking, h1⟩ := Option.bind_eq_some.1 h1
  obtain ⟨bishop, hbishop, h1⟩ := Option.bind_eq_some.1 h1
  obtain ⟨attack, hattack, h1⟩ := Option.bind_eq_some.1 h1
  obtain ⟨r, hr, h1⟩ := Option.bind_eq_some.1 h1
  rw [play_mono 1 (depth + 1) (by omega) _ _ _ hg,
    play_append_mono 1 (depth + 1) (by omega) _ _ _ _ _ hg hg']
  simp only [hking, hbishop, Option.some_bind,
    canMove_mono 1 (depth + 1) (by omega) _ _ _ _ _ _ hattack,
    canMove_mono 1 (depth + 1) (by omega) _ _ _ _ _ _ hr]
  exact ⟨h1, h2⟩

set_option maxRecDepth 1000000 in
/-- C14: after 1. e4 Nf6 2. Ba6 Nh5 3. Bxb7 Nf4 4. a3 Nh3 5. a4 Nxg1 from the starting
position f1 is empty and g1, the king's destination, holds the black knight, and yet the
white king's `canMove` to g1 returns `shortCastle`. -/
theorem castle_onto_occupied_square (depth : Nat) :
    ((startGame.play (depth + 1) castleLine).bind fun g =>
      (g.board.pieceMap (5, 1)).bind fun king =>
        (canMove (depth + 1) g.heap g.board king (7, 1) (back g.moveLog)).bind fun r =>
          some ((king.kind, king.color), (g.board.pieceMap (6, 1)).isNone,
            (g.board.pieceMap (7, 1)).map fun p => (p.kind, p.color), r)) =
      some ((PieceKind.king, PieceColor.white), true,
        some (PieceKind.knight, PieceColor.black), some MoveType.shortCastle) :=
  bind_some_lift (x := startGame.play 1 castleLine) (by decide!)
    (fun g hg => play_mono 1 (depth + 1) (by omega) _ _ g hg)
    (fun g hg => bind_some_lift hg (fun _ h => h) fun king hk =>
      bind_some_lift hk (fun a h => canMove_mono 1 (depth + 1) (by omega) _ _ _ _ _ a h)
        fun _ h => h)

/-- C15: for a knight and a target square of the board, `canMove` returns `normal` exactly
when the absolute offset is (2, 1) or (1, 2) and the target is empty or holds an enemy
piece, and nothing otherwise; the result is the same on every board that has the target
square with the same content, whatever stands on the other squares. -/
theorem knight_canMove_spec (depth : Nat) (heap : Heap) (b : Board) (self : Piece)
    (target : Pos) (lastMove : Option Move) (hk : self.kind = PieceKind.knight)
    (hc : b.contains target = true) :
    (KnightAllowed b self target →
        canMove depth heap b self target lastMove = some (some MoveType.normal)) ∧
      (¬KnightAllowed b self target →
        canMove depth heap b self target lastMove = some none) ∧
      ∀ b' : Board, b'.contains target = true → b'.pieceMap target = b.pieceMap target →
        canMove depth heap b' self target lastMove =
          canMove depth heap b self target lastMove := by
  refine ⟨?_, ?_, ?_⟩
  · rintro ⟨hd, ht⟩
    have hown := (holdsOwn_eq_false_iff _ _).2 ht
    simp only [canMove, canMoveWith, hk, Knight.canMove, hc, hown, if_true, Bool.false_eq_true,
      if_false, if_pos hd]
  · intro hn
    simp only [canMove, canMoveWith, hk, Knight.canMove, hc, if_true]
    cases hown : holdsOwn (b.pieceMap target) self.color with
    | true => simp
    | false =>
      have ht := (holdsOwn_eq_false_iff _ _).1 hown
      have hd : ¬(absDistance self.position target = (2, 1) ∨
          absDistance self.position target = (1, 2)) := fun hd => hn ⟨hd, ht⟩
      simp only [Bool.false_eq_true, if_false, if_neg hd]
  · intro b' hc' hslot
    simp only [canMove, canMoveWith, hk, Knight.canMove, hc, hc', hslot]

/-- The witness of `knight_canMove_spec`: on the starting position the white knight b1 may
move to c3 and may not move to b3. -/
theorem knight_canMove_spec_witness :
    (startKnight.kind = PieceKind.knight ∧ startGame.board.contains (3, 3) = true ∧
        KnightAllowed startGame.board startKnight (3, 3) ∧
        canMove 0 startGame.heap startGame.board startKnight (3, 3) none =
          some (some MoveType.normal)) ∧
      (startGame.board.contains (2, 3) = true ∧
        ¬KnightAllowed startGame.board startKnight (2, 3) ∧
        canMove 0 startGame.heap startGame.board startKnight (2, 3) none = some none) :=
  ⟨⟨rfl, by decide, ⟨Or.inr (by decide), Or.inl (by decide)⟩,
      (knight_canMove_spec 0 startGame.heap startGame.board startKnight (3, 3) none rfl
        (by decide)).1 ⟨Or.inr (by decide), Or.inl (by decide)⟩⟩,
    ⟨by decide, fun h => absurd h.1 (by decide),
      (knight_canMove_spec 0 startGame.heap startGame.board startKnight (2, 3) none rfl
        (by decide)).2.1 fun h => absurd h.1 (by decide)⟩⟩

set_option maxRecDepth 1000000 in
/-- C16: on the starting position, White to move and nothing logged, `getLegalMoves` for
the white pawn on e2 does not return: the loop reaches d3, a diagonal step onto an empty
square, and `Pawn::canMove` reads the empty `lastMove`. -/
theorem getLegalMoves_faults_on_start (depth : Nat) :
    startGame.moveLog = [] ∧
      ((startGame.board.pieceMap (5, 2)).map fun pawn =>
        (pawn.kind, pawn.color,
          (startGame.getLegalMoves depth pawn.addr startGame.player1).isNone)) =
        some (PieceKind.pawn, PieceColor.white, true) :=
  ⟨rfl, rfl⟩

set_option maxRecDepth 1000000 in
/-- C17: after 1. e4 Nf6 2. Ba6 Nh5 3. a3 Nf4 4. a4 Nh3 5. a5 Nxg1 from the starting
position the game is running, no promotion is pending, White is to move and has captured
nothing, and `isMoveLegal` accepts the intent e1-g1 as a short castle; `run` with that
intent does not return: it reads `capturedPieces.back()` of an empty vector. -/
theorem run_faults_on_accepted_castle (depth : Nat) :
    ((startGame.play (depth + 1) quietLine).bind fun g =>
        (g.isMoveLegal (depth + 1) (g.intent (5, 1) (7, 1)) (g.player g.currentPlayer)).bind
          fun r => some ((g.running, g.lookForPromotion.isNone),
            (g.currentPlayer, g.player1.capturedPieces.length), r.1, r.2.1.type)) =
        some ((true, true), (PlayerRef.player1, 0), true, some MoveType.shortCastle) ∧
      ((startGame.play (depth + 1) quietLine).bind fun g =>
        some (g.run (depth + 1) (some (g.intent (5, 1) (7, 1))) Event.otherEvent).isNone) =
        some true := by
  have h : ((startGame.play 1 quietLine).bind fun g =>
        (g.isMoveLegal 1 (g.intent (5, 1) (7, 1)) (g.player g.currentPlayer)).bind
          fun r => some ((g.running, g.lookForPromotion.isNone),
            (g.currentPlayer, g.player1.capturedPieces.length), r.1, r.2.1.type)) =
        some ((true, true), (PlayerRef.player1, 0), true, some MoveType.shortCastle) ∧
      ((startGame.play 1 quietLine).bind fun g =>
        some (g.run 1 (some (g.intent (5, 1) (7, 1))) Event.otherEvent).isNone) =
        some true := by
    decide!
  obtain ⟨h1, h2⟩ := h
  cases hp : startGame.play 1 quietLine with
  | none => rw [hp] at h1; simp at h1
  | some g =>
    rw [hp] at h1 h2
    rw [play_mono 1 (depth + 1) (by omega) _ _ g hp]
    simp only [Option.some_bind, Option.some.injEq, Option.isNone_iff_eq_none] at h1 h2 ⊢
    cases hl : g.isMoveLegal 1 (g.intent (5, 1) (7, 1)) (g.player g.currentPlayer) with
    | none => rw [hl] at h1; simp at h1
    | some r =>
      rw [hl] at h1
      simp only [Option.some_bind, Option.some.injEq, Prod.mk.injEq,
        Option.isNone_iff_eq_none] at h1
      constructor
      · rw [isMoveLegal_mono 1 (depth + 1) (by omega) g _ _ r hl]
        simp [h1]
      · exact run_fault_of_accept 1 (depth + 1) (by omega) g _ _ h1.1.2
          (by rw [hl]; simp [h1]) h2

set_option maxRecDepth 1000000 in
/-- C18: after 1. e4 Nf6 2. Ba6 Nh5 3. Bxb7 Nf4 4. a3 Nh3 5. a4 Nxg1 from the starting
position White has captured one pawn and `materialCaptured` is 1; `run` then commits
e1-g1 as a short castle, after which White's captured list still holds that one pawn, of
value 1, while White's `materialCaptured` is 2. -/
theorem castle_breaks_material_sum (depth : Nat) :
    ((startGame.play (depth + 1) castleLine).bind fun g =>
        some (g.player1.materialCaptured, capturedValue g.player1.capturedPieces,
          g.player1.capturedPieces.length)) = some (1, 1, 1) ∧
      ((startGame.play (depth + 1) (castleLine ++ [((5, 1), (7, 1))])).bind fun g =>
        some (g.player1.materialCaptured, capturedValue g.player1.capturedPieces,
          g.player1.capturedPieces.length)) = some (2, 1, 1) := by
  have h : ((startGame.play 1 castleLine).bind fun g =>
      (g.play 1 [((5, 1), (7, 1))]).bind fun g' =>
        some ((g.player1.materialCaptured, capturedValue g.player1.capturedPieces,
            g.player1.capturedPieces.length),
          (g'.player1.materialCaptured, capturedValue g'.player1.capturedPieces,
            g'.player1.capturedPieces.length))) = some ((1, 1, 1), (2, 1, 1)) := by
    decide!
  obtain ⟨g, hg, h⟩ := Option.bind_eq_some.1 h
  obtain ⟨g', hg', h⟩ := Option.bind_eq_some.1 h
  simp only [Option.some.injEq, Prod.mk.injEq] at h
  obtain ⟨⟨a, b, c⟩, d, e, f⟩ := h
  rw [play_mono 1 (depth + 1) (by omega) _ _ _ hg,
    play_append_mono 1 (depth + 1) (by omega) _ _ _ _ _ hg hg']
  simp only [Option.some_bind, a, b, c, d, e, f, and_self]

set_option maxRecDepth 1000000 in
/-- C19: after 1. e4 Nf6 2. Ba6 Nh5 3. Bxb7 Nf4 4. Nf3 Nh3 5. Nd4 Ng1 from the starting
position `movesUntilDraw` is 45; `run` then commits e1-g1 as a short castle, a king move
that adds nothing to either captured list, and `movesUntilDraw` is 50, not 44. -/
theorem castle_resets_countdown (depth : Nat) :
    ((startGame.play (depth + 1) countdownLine).bind fun g =>
        some (g.movesUntilDraw, g.player1.capturedPieces.length,
          g.player2.capturedPieces.length)) = some (45, 1, 0) ∧
      ((startGame.play (depth + 1) (countdownLine ++ [((5, 1), (7, 1))])).bind fun g =>
        (back g.moveLog).bind fun m => (deref g.heap m.startPiece).bind fun sp =>
          some ((m.type, sp.letter), g.movesUntilDraw, g.player1.capturedPieces.length,
            g.player2.capturedPieces.length)) =
        some ((some MoveType.shortCastle, 'k'), 50, 1, 0) := by
  have h : ((startGame.play 1 countdownLine).bind fun g =>
      (g.play 1 [((5, 1), (7, 1))]).bind fun g' =>
        (back g'.moveLog).bind fun m => (deref g'.heap m.startPiece).bind fun sp =>
          some ((g.movesUntilDraw, g.player1.capturedPieces.length,
              g.player2.capturedPieces.length),
            ((m.type, sp.letter), g'.movesUntilDraw, g'.player1.capturedPieces.length,
              g'.player2.capturedPieces.length))) =
      some ((45, 1, 0), ((some MoveType.shortCastle, 'k'), 50, 1, 0)) := by
    decide!
  obtain ⟨g, hg, h⟩ := Option.bind_eq_some.1 h
  obtain ⟨g', hg', h⟩ := Option.bind_eq_some.1 h
  obtain ⟨m, hm, h⟩ := Option.bind_eq_some.1 h
  obtain ⟨sp, hsp, h⟩ := Option.bind_eq_some.1 h
  simp only [Option.some.injEq, Prod.mk.injEq] at h
  obtain ⟨⟨a, b, c⟩, ⟨d, e⟩, f, i, j⟩ := h
  rw [play_mono 1 (depth + 1) (by omega) _ _ _ hg,
    play_append_mono 1 (depth + 1) (by omega) _ _ _ _ _ hg hg']
  simp only [Option.some_bind, hm, hsp, a, b, c, d, e, f, i, j, and_self]

set_option maxRecDepth 1000000 in
/-- C20: from the starting position (`turnCount` 0, `moveCount` 0) White's 1. e4 leaves
`turnCount` 1 and `moveCount` 1, and Black's 1... e5 leaves `turnCount` 1 and
`moveCount` 2: `turnCount` grows on White's move and not on Black's.  `undoLastMove`
decrements it for Black's move: undoing 1... e5 gives `turnCount` 0 with one move
logged. -/
theorem turnCount_counts_white_moves (depth : Nat) :
    (startGame.turnCount, startGame.moveCount) = (0, 0) ∧
      ((startGame.play depth [((5, 2), (5, 4))]).bind fun g =>
        some (g.turnCount, g.moveCount)) = some (1, 1) ∧
      ((startGame.play depth [((5, 2), (5, 4)), ((5, 7), (5, 5))]).bind fun g =>
        some (g.turnCount, g.moveCount)) = some (1, 2) ∧
      ((startGame.play depth [((5, 2), (5, 4)), ((5, 7), (5, 5))]).bind fun g =>
        g.undoLastMove.map fun g1 => (g1.turnCount, g1.moveCount, g1.moveLog.length)) =
        some (0, 1, 1) := by
  have h : ((startGame.play 0 [((5, 2), (5, 4))]).bind fun g =>
      (g.play 0 [((5, 7), (5, 5))]).bind fun g' => g'.undoLastMove.bind fun g1 =>
        some ((g.turnCount, g.moveCount), (g'.turnCount, g'.moveCount),
          (g1.turnCount, g1.moveCount, g1.moveLog.length))) =
      some ((1, 1), (1, 2), (0, 1, 1)) := by decide!
  obtain ⟨g, hg, h⟩ := Option.bind_eq_some.1 h
  obtain ⟨g', hg', h⟩ := Option.bind_eq_some.1 h
  obtain ⟨g1, hg1, h⟩ := Option.bind_eq_some.1 h
  simp only [Option.some.injEq, Prod.mk.injEq] at h
  obtain ⟨⟨a, b⟩, ⟨c, d⟩, e, f, i⟩ := h
  have e2 : startGame.play depth [((5, 2), (5, 4)), ((5, 7), (5, 5))] = some g' :=
    play_append_mono 0 depth (Nat.zero_le depth) _ [((5, 2), (5, 4))] [((5, 7), (5, 5))] _ _
      hg hg'
  rw [play_mono 0 depth (Nat.zero_le depth) _ _ _ hg, e2]
  refine ⟨rfl, ?_⟩
  simp only [Option.some_bind, hg1, Option.map_some', a, b, c, d, e, f, i, and_self]

/-! ## Claims C21 to C30: promotion and the end of the game -/

set_option maxRecDepth 1000000 in
/-- C21: after 1. h4 a6 2. h5 a5 3. h6 a4 4. hxg7 a3 5. gxh8 from the starting position a
white pawn stands unpromoted on h8, Black is to move and nine moves are logged.  A step
whose event is the release of a key other than Q, R, N and B and that carries no intent
returns `still`, not `awaitPromotion`.  The same step carrying Black's intent Nb8-c6
commits it: the result is `turnedPassed`, ten moves are logged, the last as "10. nc6",
White is to move, and the pawn still stands unpromoted on h8.  With an event that is not
a key release the intent is ignored and the step returns `awaitPromotion`. -/
theorem run_commits_while_promotion_pending (depth : Nat) :
    ((startGame.play depth promotionLine).bind fun g =>
        some (g.lookForPromotion.map fun p => (p.letter, p.color, p.position),
          g.currentPlayer, g.moveCount)) =
        some (some ('p', PieceColor.white, (8, 8)), PlayerRef.player2, 9) ∧
      ((startGame.play depth promotionLine).bind fun g =>
        (g.run depth none (Event.keyUp Key.otherKey)).bind fun r => some r.1) =
        some RunResult.still ∧
      ((startGame.play depth promotionLine).bind fun g =>
        (g.run depth (some (g.intent (2, 8) (3, 6))) (Event.keyUp Key.otherKey)).bind fun r =>
          r.2.lookForPromotion.bind fun p => (back r.2.moveLogText).bind fun text =>
            some ((r.1, r.2.moveCount), (text, r.2.currentPlayer),
              (p.letter, p.color, p.position))) =
        some ((RunResult.turnedPassed, 10), ("10. nc6", PlayerRef.player1),
          ('p', PieceColor.white, (8, 8))) ∧
      ((startGame.play depth promotionLine).bind fun g =>
        (g.run depth (some (g.intent (2, 8) (3, 6))) Event.otherEvent).bind fun r =>
          some (r.1, r.2.moveCount)) = some (RunResult.awaitPromotion, 9) := by
  have h : (decide (((startGame.play 0 promotionLine).bind fun g =>
      some (g.lookForPromotion.map fun p => (p.letter, p.color, p.position),
        g.currentPlayer, g.moveCount)) =
      some (some ('p', PieceColor.white, (8, 8)), PlayerRef.player2, 9)) &&
      decide (((startGame.play 0 promotionLine).bind fun g =>
      (g.run 0 none (Event.keyUp Key.otherKey)).bind fun r => some r.1) =
      some RunResult.still) &&
      decide (((startGame.play 0 promotionLine).bind fun g =>
      (g.run 0 (some (g.intent (2, 8) (3, 6))) (Event.keyUp Key.otherKey)).bind fun r =>
        r.2.lookForPromotion.bind fun p => (back r.2.moveLogText).bind fun text =>
          some ((r.1, r.2.moveCount), (text, r.2.currentPlayer),
            (p.letter, p.color, p.position))) =
      some ((RunResult.turnedPassed, 10), ("10. nc6", PlayerRef.player1),
        ('p', PieceColor.white, (8, 8)))) &&
      decide (((startGame.play 0 promotionLine).bind fun g =>
      (g.run 0 (some (g.intent (2, 8) (3, 6))) Event.otherEvent).bind fun r =>
        some (r.1, r.2.moveCount)) = some (RunResult.awaitPromotion, 9))) = true := by
    decide!
  simp only [Bool.and_eq_true, decide_eq_true_eq] at h
  obtain ⟨⟨⟨h1, h2⟩, h3⟩, h4⟩ := h
  have hp := fun a ha => play_mono 0 depth (Nat.zero_le depth) promotionLine startGame a ha
  exact ⟨play_bind_mono 0 depth (Nat.zero_le depth) _ _ _ _ h1,
    bind_some_lift h2 hp fun g hg =>
      bind_some_lift hg (fun r hr => run_mono 0 depth (Nat.zero_le depth) g _ _ r hr)
        fun _ h => h,
    bind_some_lift h3 hp fun g hg =>
      bind_some_lift hg (fun r hr => run_mono 0 depth (Nat.zero_le depth) g _ _ r hr)
        fun _ h => h,
    bind_some_lift h4 hp fun g hg =>
      bind_some_lift hg (fun r hr => run_mono 0 depth (Nat.zero_le depth) g _ _ r hr)
        fun _ h => h⟩

/-- C22: when a promotion choice is supplied for a pawn pending promotion (the game is
running, stored positions agree with the squares, and a move is logged), the step returns
`still`; afterwards the pawn's square holds a new piece of the chosen type with the pawn's
colour, that square as stored position and the value 9, 5, 3 or 3, every other square is
unchanged, no pending pawn is found on that square, and the last `moveLog` entry is marked
promoted with its start piece pointing to the new piece. -/
theorem promotion_choice_spec (depth : Nat) (g : Game) (pawn : Piece) (key : Key)
    (kind : PieceKind) (value : Int) (letter : Char) (hrun : g.running = true)
    (hp : g.lookForPromotion = some pawn) (hs : g.board.inSync = true)
    (hlog : g.moveLog ≠ []) (htext : g.moveLogText ≠ [])
    (hk : promotionOf key = some (kind, value, letter)) :
    g.board.pieceMap pawn.position = some pawn ∧
      ∃ g' piece lm, g.run depth none (Event.keyUp key) = some (RunResult.still, g') ∧
        g'.board.pieceMap pawn.position = some piece ∧
        piece.kind = kind ∧ piece.color = pawn.color ∧ piece.position = pawn.position ∧
        piece.value = value ∧ piece.letter = letter ∧
        (∀ q, q ≠ pawn.position → g'.board.pieceMap q = g.board.pieceMap q) ∧
        (∀ p', g'.lookForPromotion = some p' → p'.position ≠ pawn.position) ∧
        back g'.moveLog = some lm ∧ lm.PiecePromoted = true ∧
        lm.startPiece = some piece.addr := by
  have hmem := (findPromotion_some _ _ hp).1
  obtain ⟨hc, hsq⟩ := inSync_slot g.board hs pawn hmem
  refine ⟨hsq, ?_⟩
  obtain ⟨suffix, hh⟩ := defaultPromotionHandler_key g pawn key kind value letter hk
  obtain ⟨g', lm, hpr, hkeys, hnew, hother, hback, hprom, hstart⟩ :=
    promote_spec g pawn kind value letter suffix hc hlog htext
  refine ⟨g', _, lm, ?_, hnew, rfl, rfl, rfl, rfl, rfl, hother, ?_, hback, hprom, hstart⟩
  · unfold Game.run Game.promotionStep
    rw [if_pos hrun, hp]
    simp only [hh, hpr, Option.map_some', if_true]
  · intro p' hp' hpos
    obtain ⟨hm', hl'⟩ := findPromotion_some _ _ hp'
    obtain ⟨k, hk1, hk2⟩ := List.mem_map.1 hm'
    rw [hkeys] at hk1
    by_cases e : k = pawn.position
    · rw [e, hnew] at hk2
      simp only [Option.some.injEq] at hk2
      rw [← hk2] at hl'
      exact promotionOf_letter key kind value letter hk hl'
    · rw [hother k e] at hk2
      have := (inSync_slot g.board hs p' (List.mem_map.2 ⟨k, hk1, hk2⟩)).2
      rw [hpos, hsq] at this
      simp only [Option.some.injEq] at this
      have hk3 : g.board.pieceMap k = some pawn := by rw [hk2, this]
      have hk4 := (inSync_slot g.board hs pawn hmem)
      unfold Board.inSync at hs
      rw [List.all_eq_true] at hs
      have := hs k hk1
      rw [hk3] at this
      simp only [decide_eq_true_eq] at this
      exact e this.symm

set_option maxRecDepth 1000000 in
/-- The witness of `promotion_choice_spec`: after 1. h4 a6 2. h5 a5 3. h6 a4 4. hxg7 a3
5. gxh8 from the starting position the white pawn on h8 is pending, and the choice Q puts
a white queen of value 9 on h8. -/
theorem promotion_choice_spec_witness :
    ∃ pawn, (startGame.after promotionLine).lookForPromotion = some pawn ∧
      pawn.position = (8, 8) ∧
      ∃ g' piece lm, (startGame.after promotionLine).run 1 none (Event.keyUp Key.q) =
          some (RunResult.still, g') ∧
        g'.board.pieceMap pawn.position = some piece ∧
        piece.kind = PieceKind.queen ∧ piece.color = pawn.color ∧
        piece.position = pawn.position ∧ piece.value = 9 ∧ piece.letter = 'q' ∧
        (∀ q, q ≠ pawn.position →
          g'.board.pieceMap q = (startGame.after promotionLine).board.pieceMap q) ∧
        (∀ p', g'.lookForPromotion = some p' → p'.position ≠ pawn.position) ∧
        back g'.moveLog = some lm ∧ lm.PiecePromoted = true ∧
        lm.startPiece = some piece.addr := by
  have h : (decide (((startGame.after promotionLine).lookForPromotion.map Piece.position) =
        some (8, 8)) &&
      decide ((startGame.after promotionLine).running = true) &&
      decide ((startGame.after promotionLine).board.inSync = true) &&
      decide ((startGame.after promotionLine).moveLog ≠ []) &&
      decide ((startGame.after promotionLine).moveLogText ≠ [])) = true := by
    decide!
  simp only [Bool.and_eq_true, decide_eq_true_eq] at h
  obtain ⟨⟨⟨⟨h, h1⟩, h2⟩, h3⟩, h4⟩ := h
  cases hp : (startGame.after promotionLine).lookForPromotion with
  | none => rw [hp] at h; simp at h
  | some pawn =>
    rw [hp] at h
    simp only [Option.map_some', Option.some.injEq] at h
    exact ⟨pawn, rfl, h, (promotion_choice_spec 1 (startGame.after promotionLine) pawn Key.q
      PieceKind.queen 9 'q' h1 hp h2 h3 h4 rfl).2⟩

set_option maxRecDepth 1000000 in
/-- C24, counterexample: on `blockedBoard` after 1. Kc7 h3 it is White's turn and the
white king has five legal moves, yet `lookForWin` returns `stalemateDraw`, on account of
Black, the side that has just moved. -/
theorem stalemate_for_side_that_moved :
    ((blockedGame.after blockedLine).currentPlayer,
      ((blockedGame.after blockedLine).board.pieceMap (3, 7)).bind fun king =>
        ((blockedGame.after blockedLine).getLegalMoves 1 king.addr
          ((blockedGame.after blockedLine).player
            (blockedGame.after blockedLine).currentPlayer)).map fun r =>
          ((king.kind, king.color), r.1.length),
      ((blockedGame.after blockedLine).lookForWin 1).map Prod.fst) =
      (PlayerRef.player1, some ((PieceKind.king, PieceColor.white), 5),
        some WinSearchResult.stalemateDraw) := by
  decide!

/-- C24, amended: `lookForWin` declares checkmate or stalemate on account of either
colour, whoever is to move: its result is a checkmate result or `stalemateDraw` exactly
when the legal-move count it computes for White or the one it computes for Black is zero;
when both counts are non-zero the result is neither. -/
theorem lookForWin_mate_iff_zero_count (depth : Nat) (g : Game) (r : WinSearchResult)
    (g' : Game) (h : g.lookForWin depth = some (r, g')) :
    ∃ nW nB g2, g.moveCounts depth = some (nW, nB, g2) ∧
      ((r = WinSearchResult.blackWinCheckmate ∨ r = WinSearchResult.whiteWinCheckmate ∨
          r = WinSearchResult.stalemateDraw) ↔ (nW = 0 ∨ nB = 0)) := by
  cases hm : g.mateSearch depth with
  | none => unfold Game.lookForWin at h; rw [hm] at h; simp at h
  | some x =>
    obtain ⟨r1, g1⟩ := x
    have hl := lookForWin_of_mateSearch depth g r1 g1 hm
    rw [h] at hl
    rw [mateSearch_eq] at hm
    cases hc : g.moveCounts depth with
    | none => rw [hc] at hm; simp at hm
    | some y =>
      obtain ⟨nW, nB, g2⟩ := y
      refine ⟨nW, nB, g2, rfl, ?_⟩
      rw [hc] at hm
      simp only at hm
      have hr1 : (r1 = WinSearchResult.blackWinCheckmate ∨
          r1 = WinSearchResult.whiteWinCheckmate ∨ r1 = WinSearchResult.stalemateDraw) ↔
          (nW = 0 ∨ nB = 0) := by
        by_cases h0 : nW = 0
        · rw [if_pos h0] at hm
          cases hk : g2.isKingInCheck depth PieceColor.white with
          | none => rw [hk] at hm; simp at hm
          | some c =>
            rw [hk] at hm
            cases c with
            | false =>
              simp only [Option.some.injEq, Prod.mk.injEq] at hm
              simp [← hm.1, h0]
            | true =>
              simp only at hm
              cases hmm : g2.markMate with
              | none => rw [hmm] at hm; simp at hm
              | some g3 =>
                rw [hmm] at hm
                simp only [Option.map_some', Option.some.injEq, Prod.mk.injEq] at hm
                simp [← hm.1, h0]
        · rw [if_neg h0] at hm
          by_cases h1 : nB = 0
          · rw [if_pos h1] at hm
            cases hk : g2.isKingInCheck depth PieceColor.black with
            | none => rw [hk] at hm; simp at hm
            | some c =>
              rw [hk] at hm
              cases c with
              | false =>
                simp only [Option.some.injEq, Prod.mk.injEq] at hm
                simp [← hm.1, h1]
              | true =>
                simp only at hm
                cases hmm : g2.markMate with
                | none => rw [hmm] at hm; simp at hm
                | some g3 =>
                  rw [hmm] at hm
                  simp only [Option.map_some', Option.some.injEq, Prod.mk.injEq] at hm
                  simp [← hm.1, h1]
          · rw [if_neg h1] at hm
            simp only [Option.some.injEq, Prod.mk.injEq] at hm
            simp [← hm.1, h0, h1]
      by_cases e : r1 ≠ WinSearchResult.nothing
      · rw [if_pos e] at hl
        simp only [Option.some.injEq, Prod.mk.injEq] at hl
        rw [hl.1]; exact hr1
      · rw [if_neg e] at hl
        have e' : r1 = WinSearchResult.nothing := by simpa using e
        rw [e'] at hr1
        have hnone : ¬(nW = 0 ∨ nB = 0) := by
          intro hh
          have := hr1.2 hh
          simp at this
        have hnot : ∀ x : WinSearchResult, some (r, g') = some (x, g1) →
            x ≠ WinSearchResult.blackWinCheckmate → x ≠ WinSearchResult.whiteWinCheckmate →
            x ≠ WinSearchResult.stalemateDraw →
            ((r = WinSearchResult.blackWinCheckmate ∨ r = WinSearchResult.whiteWinCheckmate ∨
              r = WinSearchResult.stalemateDraw) ↔ (nW = 0 ∨ nB = 0)) := by
          intro x hx a b c
          simp only [Option.some.injEq, Prod.mk.injEq] at hx
          rw [hx.1]
          simp [a, b, c, hnone]
        split at hl
        · exact hnot _ hl (by decide) (by decide) (by decide)
        · split at hl
          · exact hnot _ hl (by decide) (by decide) (by decide)
          · split at hl
            · exact hnot _ hl (by decide) (by decide) (by decide)
            · exact hnot _ hl (by decide) (by decide) (by decide)

set_option maxRecDepth 1000000 in
/-- The witness of `lookForWin_mate_iff_zero_count`: on the 3 by 3 board with white king b1 and
rook a1 and black king b3 `lookForWin` returns `nothing` and both counts are non-zero. -/
theorem lookForWin_mate_iff_zero_count_witness :
    ((smallGame PieceKind.rook 5 'r' (1, 1)).lookForWin 1).map Prod.fst =
        some WinSearchResult.nothing ∧
      ∃ nW nB g2, (smallGame PieceKind.rook 5 'r' (1, 1)).moveCounts 1 = some (nW, nB, g2) ∧
        ((WinSearchResult.nothing = WinSearchResult.blackWinCheckmate ∨
            WinSearchResult.nothing = WinSearchResult.whiteWinCheckmate ∨
            WinSearchResult.nothing = WinSearchResult.stalemateDraw) ↔
          (nW = 0 ∨ nB = 0)) := by
  have h : ((smallGame PieceKind.rook 5 'r' (1, 1)).lookForWin 1).map Prod.fst =
      some WinSearchResult.nothing := by decide!
  refine ⟨h, ?_⟩
  cases hl : (smallGame PieceKind.rook 5 'r' (1, 1)).lookForWin 1 with
  | none => rw [hl] at h; simp at h
  | some x =>
    obtain ⟨r, g'⟩ := x
    rw [hl] at h
    simp only [Option.map_some', Option.some.injEq] at h
    subst h
    exact lookForWin_mate_iff_zero_count 1 (smallGame PieceKind.rook 5 'r' (1, 1)) _ g' hl

/-- C25: `lookForWin` reports the first matching condition in the order mate or
stalemate, fifty-move, insufficient material, repetition.  With `r` the result of the mate
search and `g1` the game it leaves: a mate or stalemate is the result; when there is none
and `movesUntilDraw` is 0 the result is `fiftyMoveDraw`, whatever the material and the
history; when there is none, the countdown is not 0 and the material is insufficient the
result is `materialDraw`, whatever the history. -/
theorem lookForWin_first_match (depth : Nat) (g : Game) (r : WinSearchResult) (g1 : Game)
    (hm : g.mateSearch depth = some (r, g1)) :
    (r ≠ WinSearchResult.nothing → g.lookForWin depth = some (r, g1)) ∧
      (r = WinSearchResult.nothing → g.movesUntilDraw = 0 →
        g.lookForWin depth = some (WinSearchResult.fiftyMoveDraw, g1)) ∧
      (r = WinSearchResult.nothing → g.movesUntilDraw ≠ 0 →
        g1.board.Insufficient g.player1.color g.player2.color →
        g.lookForWin depth = some (WinSearchResult.materialDraw, g1)) := by
  rw [lookForWin_of_mateSearch depth g r g1 hm]
  refine ⟨fun h => by rw [if_pos h], fun h h0 => ?_, fun h h0 hi => ?_⟩
  · rw [if_neg (by simp [h]), if_pos h0]
  · rw [if_neg (by simp [h]), if_neg h0, if_pos hi]

set_option maxHeartbeats 4000000 in
set_option maxRecDepth 1000000 in
/-- The witness of `lookForWin_first_match`: on the 3 by 3 board of `tinyGame`, king
against king, after fifty plies nobody is mated or stalemated, the countdown is 0, the
material is insufficient and a fingerprint has occurred three times; the result is
`fiftyMoveDraw`.  After nine plies the countdown is 41 and the result is
`materialDraw`. -/
theorem lookForWin_first_match_witness :
    ((tinyGame.after (tinyLine 50)).movesUntilDraw = 0 ∧
        Threefold (tinyGame.after (tinyLine 50)).positions ∧
        ((tinyGame.after (tinyLine 50)).lookForWin 1).map Prod.fst =
          some WinSearchResult.fiftyMoveDraw) ∧
      ((tinyGame.after (tinyLine 9)).movesUntilDraw = 41 ∧
        Threefold (tinyGame.after (tinyLine 9)).positions ∧
        ((tinyGame.after (tinyLine 9)).lookForWin 1).map Prod.fst =
          some WinSearchResult.materialDraw) := by
  have key0 : ∀ g : Game,
      ((g.mateSearch 1).map Prod.fst = some WinSearchResult.nothing ∧
        g.movesUntilDraw = 0 ∧ Threefold g.positions) →
      (g.movesUntilDraw = 0 ∧ Threefold g.positions ∧
        (g.lookForWin 1).map Prod.fst = some WinSearchResult.fiftyMoveDraw) := by
    rintro g ⟨h, h0, ht⟩
    refine ⟨h0, ht, ?_⟩
    cases hm : g.mateSearch 1 with
    | none => rw [hm] at h; simp at h
    | some x =>
      obtain ⟨r, g1⟩ := x
      rw [hm] at h
      simp only [Option.map_some', Option.some.injEq] at h
      rw [(lookForWin_first_match 1 g r g1 hm).2.1 h h0]
      rfl
  have key41 : ∀ g : Game,
      (((g.mateSearch 1).bind fun x =>
          some (x.1, decide (x.2.board.Insufficient g.player1.color g.player2.color))) =
          some (WinSearchResult.nothing, true) ∧
        g.movesUntilDraw = 41 ∧ Threefold g.positions) →
      (g.movesUntilDraw = 41 ∧ Threefold g.positions ∧
        (g.lookForWin 1).map Prod.fst = some WinSearchResult.materialDraw) := by
    rintro g ⟨h, h0, ht⟩
    refine ⟨h0, ht, ?_⟩
    cases hm : g.mateSearch 1 with
    | none => rw [hm] at h; simp at h
    | some x =>
      obtain ⟨r, g1⟩ := x
      rw [hm] at h
      simp only [Option.some_bind, Option.some.injEq, Prod.mk.injEq, decide_eq_true_eq] at h
      rw [(lookForWin_first_match 1 g r g1 hm).2.2 h.1 (by rw [h0]; decide) h.2]
      rfl
  have a := key0 (tinyGame.after (tinyLine 50)) (by decide!)
  have b := key41 (tinyGame.after (tinyLine 9)) (by decide!)
  exact ⟨a, b⟩

/-- C26: when nobody is mated or stalemated and the countdown is not zero, `lookForWin`
returns `materialDraw` exactly when each side's material on the board is below 5 and
neither side has a pawn on the board (`g1` is the game as the mate search leaves it). -/
theorem materialDraw_iff (depth : Nat) (g g1 : Game)
    (hm : g.mateSearch depth = some (WinSearchResult.nothing, g1))
    (hmud : g.movesUntilDraw ≠ 0) :
    (g.lookForWin depth).map Prod.fst = some WinSearchResult.materialDraw ↔
      g1.board.Insufficient g.player1.color g.player2.color := by
  rw [lookForWin_of_mateSearch depth g _ g1 hm, if_neg (by simp), if_neg hmud]
  by_cases hi : g1.board.Insufficient g.player1.color g.player2.color
  · rw [if_pos hi]; simp [hi]
  · rw [if_neg hi]
    by_cases ht : Threefold g.positions
    · rw [if_pos ht]; simp [hi]
    · rw [if_neg ht]; simp [hi]

set_option maxRecDepth 1000000 in
/-- The witness of `materialDraw_iff`: on the 3 by 3 board king and bishop against king,
and king and knight against king, give `materialDraw`; king and rook against king does
not. -/
theorem materialDraw_iff_witness :
    ((smallGame PieceKind.bishop 3 'b' (1, 1)).lookForWin 1).map Prod.fst =
        some WinSearchResult.materialDraw ∧
      ((smallGame PieceKind.knight 3 'n' (1, 2)).lookForWin 1).map Prod.fst =
        some WinSearchResult.materialDraw ∧
      ¬((smallGame PieceKind.rook 5 'r' (1, 1)).lookForWin 1).map Prod.fst =
        some WinSearchResult.materialDraw := by
  have key : ∀ (g : Game) (i : Bool),
      (((g.mateSearch 1).bind fun x =>
          some (x.1, decide (x.2.board.Insufficient g.player1.color g.player2.color))) =
          some (WinSearchResult.nothing, i) ∧ g.movesUntilDraw ≠ 0) →
      ((g.lookForWin 1).map Prod.fst = some WinSearchResult.materialDraw ↔ i = true) := by
    rintro g i ⟨h, h0⟩
    cases hm : g.mateSearch 1 with
    | none => rw [hm] at h; simp at h
    | some x =>
      obtain ⟨r, g1⟩ := x
      rw [hm] at h
      simp only [Option.some_bind, Option.some.injEq, Prod.mk.injEq] at h
      obtain ⟨rfl, h2⟩ := h
      rw [materialDraw_iff 1 g g1 hm h0, ← h2]
      exact decide_eq_true_iff.symm
  exact ⟨(key (smallGame PieceKind.bishop 3 'b' (1, 1)) true (by decide!)).2 rfl,
    (key (smallGame PieceKind.knight 3 'n' (1, 2)) true (by decide!)).2 rfl,
    fun h => Bool.noConfusion ((key (smallGame PieceKind.rook 5 'r' (1, 1)) false (by decide!)).1 h)⟩

/-- C27: when no earlier condition fires (nobody is mated or stalemated, the countdown is
not zero, the material is not insufficient), `lookForWin` returns `repetitionDraw` exactly
when some fingerprint occurs at least three times in the position history, and `nothing`
otherwise; and whatever the other conditions, it does not return `repetitionDraw` while
every fingerprint has occurred at most twice. -/
theorem repetitionDraw_iff (depth : Nat) (g g1 : Game)
    (hm : g.mateSearch depth = some (WinSearchResult.nothing, g1))
    (hmud : g.movesUntilDraw ≠ 0)
    (hmat : ¬g1.board.Insufficient g.player1.color g.player2.color) :
    ((g.lookForWin depth).map Prod.fst = some WinSearchResult.repetitionDraw ↔
        Threefold g.positions) ∧
      (¬Threefold g.positions →
        g.lookForWin depth = some (WinSearchResult.nothing, g1)) ∧
      ((∀ s, g.positions.count s ≤ 2) → ¬Threefold g.positions) := by
  rw [lookForWin_of_mateSearch depth g _ g1 hm, if_neg (by simp), if_neg hmud, if_neg hmat]
  refine ⟨?_, fun ht => by rw [if_neg ht], ?_⟩
  · by_cases ht : Threefold g.positions
    · rw [if_pos ht]; simp [ht]
    · rw [if_neg ht]; simp [ht]
  · rintro h ⟨s, _, hs⟩
    have := h s
    omega

set_option maxHeartbeats 4000000 in
set_option maxRecDepth 1000000 in
/-- The witness of `repetitionDraw_iff`: on the 3 by 3 board with white king b1 and rook
a1 and black king b3 the pair 1. Kc1 Kc3 2. Kb1 Kb3 is replayed; after eight plies every
fingerprint has occurred at most twice and the result is `nothing`, and the ninth ply,
which produces the third occurrence of the position after 1. Kc1, gives
`repetitionDraw`. -/
theorem repetitionDraw_iff_witness :
    (¬Threefold ((smallGame PieceKind.rook 5 'r' (1, 1)).after (kingPair ++ kingPair)).positions ∧
        (((smallGame PieceKind.rook 5 'r' (1, 1)).after (kingPair ++ kingPair)).lookForWin 1).map Prod.fst =
          some WinSearchResult.nothing) ∧
      (Threefold
          ((smallGame PieceKind.rook 5 'r' (1, 1)).after (kingPair ++ kingPair ++ [((2, 1), (3, 1))])).positions ∧
        (((smallGame PieceKind.rook 5 'r' (1, 1)).after (kingPair ++ kingPair ++ [((2, 1), (3, 1))])).lookForWin
          1).map Prod.fst = some WinSearchResult.repetitionDraw) := by
  have pre : ∀ (g : Game) (t : Bool),
      ((g.mateSearch 1).bind fun x =>
        some ((x.1, decide (g.movesUntilDraw ≠ 0)),
          decide (x.2.board.Insufficient g.player1.color g.player2.color),
          decide (Threefold g.positions))) =
        some ((WinSearchResult.nothing, true), false, t) →
      ∃ g1, g.mateSearch 1 = some (WinSearchResult.nothing, g1) ∧ g.movesUntilDraw ≠ 0 ∧
        ¬g1.board.Insufficient g.player1.color g.player2.color ∧
        (Threefold g.positions ↔ t = true) := by
    intro g t h
    cases hm : g.mateSearch 1 with
    | none => rw [hm] at h; simp at h
    | some x =>
      obtain ⟨r, g1⟩ := x
      rw [hm] at h
      simp only [Option.some_bind, Option.some.injEq, Prod.mk.injEq, decide_eq_true_eq,
        decide_eq_false_iff_not] at h
      obtain ⟨⟨rfl, h2⟩, h3, h4⟩ := h
      exact ⟨g1, rfl, h2, h3, by rw [← h4]; exact decide_eq_true_iff.symm⟩
  have key8 : ∀ g : Game,
      ((g.mateSearch 1).bind fun x =>
        some ((x.1, decide (g.movesUntilDraw ≠ 0)),
          decide (x.2.board.Insufficient g.player1.color g.player2.color),
          decide (Threefold g.positions))) =
        some ((WinSearchResult.nothing, true), false, false) →
      (¬Threefold g.positions ∧
        (g.lookForWin 1).map Prod.fst = some WinSearchResult.nothing) := by
    intro g h
    obtain ⟨g1, hm, h2, h3, h4⟩ := pre g false h
    have ht : ¬Threefold g.positions := fun c => Bool.noConfusion (h4.1 c)
    refine ⟨ht, ?_⟩
    rw [(repetitionDraw_iff 1 g g1 hm h2 h3).2.1 ht]
    rfl
  have key9 : ∀ g : Game,
      ((g.mateSearch 1).bind fun x =>
        some ((x.1, decide (g.movesUntilDraw ≠ 0)),
          decide (x.2.board.Insufficient g.player1.color g.player2.color),
          decide (Threefold g.positions))) =
        some ((WinSearchResult.nothing, true), false, true) →
      (Threefold g.positions ∧
        (g.lookForWin 1).map Prod.fst = some WinSearchResult.repetitionDraw) := by
    intro g h
    obtain ⟨g1, hm, h2, h3, h4⟩ := pre g true h
    exact ⟨h4.2 rfl, (repetitionDraw_iff 1 g g1 hm h2 h3).1.2 (h4.2 rfl)⟩
  have a := key8 ((smallGame PieceKind.rook 5 'r' (1, 1)).after (kingPair ++ kingPair)) (by decide!)
  have b := key9 ((smallGame PieceKind.rook 5 'r' (1, 1)).after (kingPair ++ kingPair ++ [((2, 1), (3, 1))]))
    (by decide!)
  exact ⟨a, b⟩

set_option maxRecDepth 1000000 in
/-- C28, counterexample: a board whose only piece is a white pawn on e4 and a board whose
only piece is a black pawn on e4 have the same squares and the same fingerprint, "pe4",
although e4 holds pieces of different colours. -/
theorem fingerprint_ignores_colour :
    blackPawnBoard.keys = whitePawnBoard.keys ∧
      fingerprint whitePawnBoard whitePawnBoard.keys = "pe4" ∧
      fingerprint blackPawnBoard blackPawnBoard.keys = "pe4" ∧
      (whitePawnBoard.pieceMap (5, 4)).map (fun p => (p.kind, p.color)) =
        some (PieceKind.pawn, PieceColor.white) ∧
      (blackPawnBoard.pieceMap (5, 4)).map (fun p => (p.kind, p.color)) =
        some (PieceKind.pawn, PieceColor.black) ∧
      ¬SameKindsAndColours whitePawnBoard blackPawnBoard whitePawnBoard.keys := by
  refine ⟨by decide!, by decide!, by decide!, by decide!, by decide!, fun h => ?_⟩
  have h1 := h (5, 4) (by decide!)
  revert h1
  decide!

/-- C28, amended: the position fingerprint recorded by `logMove` encodes square occupancy
and the notation letter of each piece, not its colour.  Two boards over the same squares
(with distinct names) receive the same fingerprint if and only if every square is empty in
both or holds a piece with the same notation letter in both; when the pieces of both
boards carry the letters of their types, if and only if every square is empty in both or
holds a piece of the same type in both. -/
theorem fingerprint_encodes_letters (b b' : Board) (hk : b'.keys = b.keys)
    (hn : (b.keys.map posString).Nodup) :
    (fingerprint b b.keys = fingerprint b' b'.keys ↔ SameLetters b b' b.keys) ∧
      (StandardLetters b b.keys → StandardLetters b' b.keys →
        (fingerprint b b.keys = fingerprint b' b'.keys ↔ SameKinds b b' b.keys)) := by
  rw [hk]
  refine ⟨fingerprint_eq_iff b b' b.keys hn, fun hs hs' => ?_⟩
  rw [fingerprint_eq_iff b b' b.keys hn]
  exact sameLetters_iff_sameKinds b b' b.keys hs hs'

set_option maxHeartbeats 4000000 in
set_option maxRecDepth 1000000 in
/-- The witness of `fingerprint_encodes_letters`: the boards with a white and with a black
pawn on e4 agree in type on every square and have the same fingerprint; the boards with a
bishop and with a knight on c1 beside the two kings do not agree in type and have
different fingerprints. -/
theorem fingerprint_encodes_letters_witness :
    (SameKinds whitePawnBoard blackPawnBoard whitePawnBoard.keys ∧
        fingerprint whitePawnBoard whitePawnBoard.keys =
          fingerprint blackPawnBoard blackPawnBoard.keys) ∧
      (¬SameKinds (minorBoard PieceKind.bishop 3 'b') (minorBoard PieceKind.knight 3 'n')
          (minorBoard PieceKind.bishop 3 'b').keys ∧
        fingerprint (minorBoard PieceKind.bishop 3 'b') (minorBoard PieceKind.bishop 3 'b').keys ≠
          fingerprint (minorBoard PieceKind.knight 3 'n')
            (minorBoard PieceKind.knight 3 'n').keys) := by
  have hn : (whitePawnBoard.keys.map posString).Nodup := by decide!
  have hn2 : ((minorBoard PieceKind.bishop 3 'b').keys.map posString).Nodup := by decide!
  have a := (fingerprint_encodes_letters whitePawnBoard blackPawnBoard (by decide!) hn).2
    (by decide!) (by decide!)
  have b := (fingerprint_encodes_letters (minorBoard PieceKind.bishop 3 'b')
    (minorBoard PieceKind.knight 3 'n') (by decide!) hn2).2 (by decide!) (by decide!)
  have hd : fingerprint (minorBoard PieceKind.bishop 3 'b')
      (minorBoard PieceKind.bishop 3 'b').keys ≠
      fingerprint (minorBoard PieceKind.knight 3 'n')
        (minorBoard PieceKind.knight 3 'n').keys := by decide!
  exact ⟨⟨a.1 (by decide!), by decide!⟩, ⟨fun h => hd (b.2 h), hd⟩⟩

set_option maxRecDepth 1000000 in
/-- C30: after 1. e4 d5 from the starting position, e4 holds the white pawn and d5 the
black pawn, each with its stored position equal to its square.  `run` with the intent
whose start piece is the pawn on e4, start square e4, end square d5 and end piece null
(it does not agree with the board, d5 being occupied) returns `still` and logs nothing,
but leaves the black pawn on e4 and the white pawn on d5, the white pawn with the stored
position e4. -/
theorem rejected_intent_swaps_pieces (depth : Nat) :
    ((startGame.play depth [((5, 2), (5, 4)), ((4, 7), (4, 5))]).bind fun g =>
        (g.board.pieceMap (5, 4)).bind fun p => (g.board.pieceMap (4, 5)).bind fun q =>
          some ((p.letter, p.color, p.position), (q.letter, q.color, q.position))) =
        some (('p', PieceColor.white, (5, 4)), ('p', PieceColor.black, (4, 5))) ∧
      ((startGame.play depth [((5, 2), (5, 4)), ((4, 7), (4, 5))]).bind fun g =>
        (g.run depth (some ⟨(g.board.pieceMap (5, 4)).map Piece.addr, none, (5, 4), (4, 5),
            none, false⟩) Event.otherEvent).bind fun r =>
          some (r.1, g.moveLog.length, r.2.moveLog.length)) =
        some (RunResult.still, 2, 2) ∧
      ((startGame.play depth [((5, 2), (5, 4)), ((4, 7), (4, 5))]).bind fun g =>
        (g.run depth (some ⟨(g.board.pieceMap (5, 4)).map Piece.addr, none, (5, 4), (4, 5),
            none, false⟩) Event.otherEvent).bind fun r =>
          (r.2.board.pieceMap (5, 4)).bind fun p => (r.2.board.pieceMap (4, 5)).bind fun q =>
            some ((p.letter, p.color, p.position), (q.letter, q.color, q.position))) =
        some (('p', PieceColor.black, (5, 4)), ('p', PieceColor.white, (5, 4))) := by
  have h : (decide (((startGame.play 0 [((5, 2), (5, 4)), ((4, 7), (4, 5))]).bind fun g =>
        (g.board.pieceMap (5, 4)).bind fun p => (g.board.pieceMap (4, 5)).bind fun q =>
          some ((p.letter, p.color, p.position), (q.letter, q.color, q.position))) =
        some (('p', PieceColor.white, (5, 4)), ('p', PieceColor.black, (4, 5)))) &&
      decide (((startGame.play 0 [((5, 2), (5, 4)), ((4, 7), (4, 5))]).bind fun g =>
      (g.run 0 (some ⟨(g.board.pieceMap (5, 4)).map Piece.addr, none, (5, 4), (4, 5),
          none, false⟩) Event.otherEvent).bind fun r =>
        some (r.1, g.moveLog.length, r.2.moveLog.length)) =
      some (RunResult.still, 2, 2)) &&
      decide (((startGame.play 0 [((5, 2), (5, 4)), ((4, 7), (4, 5))]).bind fun g =>
      (g.run 0 (some ⟨(g.board.pieceMap (5, 4)).map Piece.addr, none, (5, 4), (4, 5),
          none, false⟩) Event.otherEvent).bind fun r =>
        (r.2.board.pieceMap (5, 4)).bind fun p => (r.2.board.pieceMap (4, 5)).bind fun q =>
          some ((p.letter, p.color, p.position), (q.letter, q.color, q.position))) =
      some (('p', PieceColor.black, (5, 4)), ('p', PieceColor.white, (5, 4))))) = true := by
    decide!
  simp only [Bool.and_eq_true, decide_eq_true_eq] at h
  obtain ⟨⟨h1, h2⟩, h3⟩ := h
  have hp := fun a ha =>
    play_mono 0 depth (Nat.zero_le depth) [((5, 2), (5, 4)), ((4, 7), (4, 5))] startGame a ha
  exact ⟨play_bind_mono 0 depth (Nat.zero_le depth) _ _ _ _ h1,
    bind_some_lift h2 hp fun g hg =>
      bind_some_lift hg (fun r hr => run_mono 0 depth (Nat.zero_le depth) g _ _ r hr)
        fun _ h => h,
    bind_some_lift h3 hp fun g hg =>
      bind_some_lift hg (fun r hr => run_mono 0 depth (Nat.zero_le depth) g _ _ r hr)
        fun _ h => h⟩

/-! ## Claims C31 to C37: invariants, `reset` and the counters -/

set_option maxRecDepth 1000000 in
/-- C31: after 1. h4 e6 2. h5 Be7 3. h6 Nf6 4. hxg7 a6 5. gxh8 from the starting position
a white pawn stands unpromoted on h8 and both kings are on the board.  Black's a6-a5,
submitted with the release of a key other than Q, R, N and B, is committed; the release
of Q, with no intent, then promotes the pawn while White is to move; and White's Qh8xe8
is committed: the three steps return `turnedPassed`, `still` and `turnedPassed`, the log
ends with "11. qxe8", and the only king left on the board is White's on e1. -/
theorem run_captures_king (depth : Nat) :
    ((startGame.play depth huntLine).bind fun g =>
      (g.run depth (some (g.intent (1, 6) (1, 5))) (Event.keyUp Key.otherKey)).bind fun r1 =>
        (r1.2.run depth none (Event.keyUp Key.q)).bind fun r2 =>
          (r2.2.run depth (some (r2.2.intent (8, 8) (5, 8))) Event.otherEvent).bind fun r3 =>
            (back r3.2.moveLogText).bind fun text =>
              some (decide (
                kingsOf g.board = [(PieceColor.white, (5, 1)), (PieceColor.black, (5, 8))] ∧
                r1.1 = RunResult.turnedPassed ∧ r2.1 = RunResult.still ∧
                r2.2.currentPlayer = PlayerRef.player1 ∧
                r3.1 = RunResult.turnedPassed ∧ text = "11. qxe8" ∧
                kingsOf r3.2.board = [(PieceColor.white, (5, 1))]))) = some true := by
  have h : ((startGame.play 0 huntLine).bind fun g =>
      (g.run 0 (some (g.intent (1, 6) (1, 5))) (Event.keyUp Key.otherKey)).bind fun r1 =>
        (r1.2.run 0 none (Event.keyUp Key.q)).bind fun r2 =>
          (r2.2.run 0 (some (r2.2.intent (8, 8) (5, 8))) Event.otherEvent).bind fun r3 =>
            (back r3.2.moveLogText).bind fun text =>
              some (decide (
                kingsOf g.board = [(PieceColor.white, (5, 1)), (PieceColor.black, (5, 8))] ∧
                r1.1 = RunResult.turnedPassed ∧ r2.1 = RunResult.still ∧
                r2.2.currentPlayer = PlayerRef.player1 ∧
                r3.1 = RunResult.turnedPassed ∧ text = "11. qxe8" ∧
                kingsOf r3.2.board = [(PieceColor.white, (5, 1))]))) = some true := by decide!
  exact bind_some_lift h
    (fun a ha => play_mono 0 depth (Nat.zero_le depth) huntLine startGame a ha) fun g hg =>
      bind_some_lift hg (fun r hr => run_mono 0 depth (Nat.zero_le depth) g _ _ r hr)
        fun r1 h1 =>
          bind_some_lift h1 (fun r hr => run_mono 0 depth (Nat.zero_le depth) r1.2 _ _ r hr)
            fun r2 h2 =>
              bind_some_lift h2
                (fun r hr => run_mono 0 depth (Nat.zero_le depth) r2.2 _ _ r hr)
                fun _ h3 => h3

set_option maxRecDepth 1000000 in
/-- C32: after `reset(crowdedSetup)`, `start()` and 1. hxg3 Ke7 every piece has its
square as stored position.  White's castle e1-g1, onto the square of the black knight, is
then committed; it leaves the key set of the board unchanged, but afterwards the black
knight stands on e1 with the stored position g1. -/
theorem castle_leaves_stale_position (depth : Nat) :
    ((crowdedGame.play (depth + 1) crowdedLine).bind fun g =>
      (g.play (depth + 1) [((5, 1), (7, 1))]).bind fun g' =>
        some ((g.board.inSync, decide (g'.board.keys = g.board.keys)),
          (g'.board.look (5, 1), g'.board.inSync))) =
      some ((true, true), (some ('n', PieceColor.black, (7, 1)), false)) := by
  have h : ((crowdedGame.play 1 crowdedLine).bind fun g =>
      (g.play 1 [((5, 1), (7, 1))]).bind fun g' =>
        some ((g.board.inSync, decide (g'.board.keys = g.board.keys)),
          (g'.board.look (5, 1), g'.board.inSync))) =
      some ((true, true), (some ('n', PieceColor.black, (7, 1)), false)) := by decide!
  exact bind_some_lift h
    (fun a ha => play_mono 1 (depth + 1) (by omega) crowdedLine crowdedGame a ha) fun g hg =>
      play_bind_mono 1 (depth + 1) (by omega) _ g _ _ hg

/-- C33: after `reset()` with no setup function, whatever the game before, the 8 by 8
board has its squares unchanged and holds the 32 pieces of the standard layout (pawns on
ranks 2 and 7, rooks on a and h, knights on b and g, bishops on c and f, queen on d and
king on e of ranks 1 and 8, White on ranks 1 and 2), every piece with move-count 0 and
its square as stored position; the logs, the position history and both captured lists are
empty, `moveCount`, `turnCount` and both `materialCaptured` are 0, `movesUntilDraw` is 50,
the game is not running and the current player is `player1` if it holds White and
`player2` otherwise, so it holds White whenever one of the two players does; the
colours of the players are unchanged. -/
theorem reset_spec (g : Game) (hn : g.board.numSquares = 64)
    (hk : g.board.keys = gridSquares 8) :
    (g.reset none).board.keys = g.board.keys ∧
      ((g.reset none).board.keys.filterMap (g.reset none).board.pieceMap).length = 32 ∧
      (∀ p ∈ g.board.keys, slotData ((g.reset none).board.pieceMap p) =
        (standardSlot p).map fun s => (s, p, 0)) ∧
      ((g.reset none).moveLog = [] ∧ (g.reset none).moveLogText = [] ∧
        (g.reset none).positions = [] ∧ (g.reset none).player1.capturedPieces = [] ∧
        (g.reset none).player2.capturedPieces = []) ∧
      ((g.reset none).moveCount = 0 ∧ (g.reset none).turnCount = 0 ∧
        (g.reset none).player1.materialCaptured = 0 ∧
        (g.reset none).player2.materialCaptured = 0 ∧
        (g.reset none).movesUntilDraw = 50) ∧
      (g.reset none).running = false ∧
      (g.reset none).currentPlayer =
        (if g.player1.color = PieceColor.white then PlayerRef.player1
          else PlayerRef.player2) ∧
      (g.reset none).player1.color = g.player1.color ∧
      (g.reset none).player2.color = g.player2.color ∧
      (g.player1.color = PieceColor.white ∨ g.player2.color = PieceColor.white →
        ((g.reset none).player (g.reset none).currentPlayer).color = PieceColor.white) := by
  have h0 : g.board.clear.Alike (Board.new 64 false) := by
    refine ⟨?_, ?_, fun p => rfl⟩
    · rw [Board.clear, hk]; decide
    · rw [Board.clear, hn]; rfl
  have h1 : (g.reset none).board.Alike (Board.new 64 true) :=
    createDefaultPieceMap_alike _ _ h0
  obtain ⟨d1, d2, d3⟩ := default_layout
  refine ⟨?_, ?_, ?_, ⟨rfl, rfl, rfl, rfl, rfl⟩, ⟨rfl, rfl, rfl, rfl, rfl⟩, rfl, rfl, rfl, rfl,
    ?_⟩
  · rw [h1.1, d1, hk]
  · rw [alike_count _ _ h1, d2]
  · intro p hp
    rw [h1.2.2 p]
    exact d3 p (hk ▸ hp)
  · intro hw
    by_cases e : g.player1.color = PieceColor.white
    · simp only [Game.reset, if_pos e, Game.player]
      exact e
    · simp only [Game.reset, if_neg e, Game.player]
      exact hw.resolve_left e

set_option maxRecDepth 1000000 in
/-- The witness of `reset_spec`: the game of `crowdedGame` after 1. hxg3 Ke7, with two
moves logged, is reset to the standard layout. -/
theorem reset_spec_witness :
    (crowdedGame.after crowdedLine).moveCount = 2 ∧
      ((crowdedGame.after crowdedLine).reset none).board.keys =
        (crowdedGame.after crowdedLine).board.keys ∧
      ((((crowdedGame.after crowdedLine).reset none).board.keys.filterMap
        ((crowdedGame.after crowdedLine).reset none).board.pieceMap).length = 32) ∧
      (∀ p ∈ (crowdedGame.after crowdedLine).board.keys,
        slotData (((crowdedGame.after crowdedLine).reset none).board.pieceMap p) =
          (standardSlot p).map fun s => (s, p, 0)) ∧
      ((crowdedGame.after crowdedLine).reset none).moveCount = 0 := by
  have h : (crowdedGame.after crowdedLine).moveCount = 2 ∧
      (crowdedGame.after crowdedLine).board.numSquares = 64 ∧
      (crowdedGame.after crowdedLine).board.keys = gridSquares 8 := by decide!
  have w := reset_spec (crowdedGame.after crowdedLine) h.2.1 h.2.2
  exact ⟨h.1, w.1, w.2.1, w.2.2.1, w.2.2.2.2.1.1⟩

set_option maxRecDepth 1000000 in
/-- C34: after 1. hxg3 Ke7 on the board of `crowdedGame` (white king e1, rooks a1 and
h1, black knights c1 and g1) `run` commits e1-g1 as a short castle and, from the same
position, e1-c1 as a long castle.  After the short castle the king is on g1 and the rook
of h1 on f1, each with its square as stored position, and h1 is empty, but e1 holds the
black knight.  After the long castle the king is on c1 and the rook of a1 on d1, and a1
and b1 are empty, but e1 holds the black knight. -/
theorem castle_fills_king_square (depth : Nat) :
    ((crowdedGame.play (depth + 1) crowdedLine).bind fun g =>
      (g.play (depth + 1) [((5, 1), (7, 1))]).bind fun g1 =>
        (g.play (depth + 1) [((5, 1), (3, 1))]).bind fun g2 =>
          (back g1.moveLog).bind fun m1 => (back g2.moveLog).bind fun m2 =>
            some ((m1.type, [(5, 1), (6, 1), (7, 1), (8, 1)].map g1.board.look),
              (m2.type, [(1, 1), (2, 1), (3, 1), (4, 1), (5, 1)].map g2.board.look))) =
      some ((some MoveType.shortCastle,
          [some ('n', PieceColor.black, (7, 1)), some ('r', PieceColor.white, (6, 1)),
            some ('k', PieceColor.white, (7, 1)), none]),
        (some MoveType.longCastle,
          [none, none, some ('k', PieceColor.white, (3, 1)),
            some ('r', PieceColor.white, (4, 1)), some ('n', PieceColor.black, (3, 1))])) := by
  have h : ((crowdedGame.play 1 crowdedLine).bind fun g =>
      (g.play 1 [((5, 1), (7, 1))]).bind fun g1 =>
        (g.play 1 [((5, 1), (3, 1))]).bind fun g2 =>
          (back g1.moveLog).bind fun m1 => (back g2.moveLog).bind fun m2 =>
            some ((m1.type, [(5, 1), (6, 1), (7, 1), (8, 1)].map g1.board.look),
              (m2.type, [(1, 1), (2, 1), (3, 1), (4, 1), (5, 1)].map g2.board.look))) =
      some ((some MoveType.shortCastle,
          [some ('n', PieceColor.black, (7, 1)), some ('r', PieceColor.white, (6, 1)),
            some ('k', PieceColor.white, (7, 1)), none]),
        (some MoveType.longCastle,
          [none, none, some ('k', PieceColor.white, (3, 1)),
            some ('r', PieceColor.white, (4, 1)), some ('n', PieceColor.black, (3, 1))])) := by
    decide!
  exact bind_some_lift h
    (fun a ha => play_mono 1 (depth + 1) (by omega) crowdedLine crowdedGame a ha) fun g hg =>
      bind_some_lift hg (fun a ha => play_mono 1 (depth + 1) (by omega) _ g a ha) fun g1 h1 =>
        bind_some_lift h1 (fun a ha => play_mono 1 (depth + 1) (by omega) _ g a ha)
          fun _ h2 => h2

/-- C35: with an empty move log `isMoveLegal` passes no `lastMove`, and `Pawn::canMove`
called without `lastMove` on a diagonal-forward square that holds no enemy piece (it is
empty or holds a piece of the pawn's own colour) reads the absent move: the call of
`canMove` faults, `isMoveLegal` faults, and the scan of `isKingInCheck` faults when it
reaches the pawn with that square as the king's square. -/
theorem pawn_diagonal_reads_absent_move (depth : Nat) (g : Game) (move : Move)
    (player : Player) (self : Piece) (hlog : g.moveLog = [])
    (hs : deref g.heap move.startPiece = some self) (hk : self.kind = PieceKind.pawn)
    (hc : g.board.contains move.endSq = true)
    (ha : isAhead self.color move.endSq self.position = true)
    (hd : absDistance self.position move.endSq = (1, 1))
    (he : holdsEnemy (g.board.pieceMap move.endSq) self.color = false) :
    canMove depth g.heap g.board self move.endSq none = none ∧
      g.isMoveLegal depth move player = none ∧
      ∀ rest, checkScan depth g.heap g.board move.endSq (some self :: rest) = none := by
  have h : canMove depth g.heap g.board self move.endSq none = none := by
    unfold canMove canMoveWith
    rw [hk]
    show Pawn.canMove g.heap g.board self move.endSq none = none
    unfold Pawn.canMove
    rw [if_pos hc, if_pos ha, hd, he, if_neg (fun h => absurd h.1 (by decide)),
      if_neg (fun h => absurd h.2 (by decide)), if_neg (fun h => absurd h.1 (by decide)),
      if_pos rfl]
    rfl
  refine ⟨h, ?_, fun rest => ?_⟩
  · unfold Game.isMoveLegal
    rw [hs, hlog]
    simp only [back, List.getLast?_nil, h]
  · unfold checkScan
    rw [h]

set_option maxRecDepth 1000000 in
/-- The witness of `pawn_diagonal_reads_absent_move`: on the starting position the intent
e2-d3 of the pawn on e2 makes `isMoveLegal` fault. -/
theorem pawn_diagonal_reads_absent_move_witness :
    (startGame.board.pieceMap (5, 2)).map (fun p => (p.kind, p.color)) =
        some (PieceKind.pawn, PieceColor.white) ∧
      startGame.board.pieceMap (4, 3) = none ∧
      startGame.isMoveLegal 1 (startGame.intent (5, 2) (4, 3)) startGame.player1 = none := by
  have h : (startGame.board.pieceMap (5, 2)).map (fun p => (p.kind, p.color)) =
      some (PieceKind.pawn, PieceColor.white) ∧ startGame.board.pieceMap (4, 3) = none := by
    decide!
  have hs : ((deref startGame.heap (startGame.intent (5, 2) (4, 3)).startPiece).map fun p =>
      (p.kind, p.color, p.position)) = some (PieceKind.pawn, PieceColor.white, (5, 2)) := by
    decide!
  cases hp : deref startGame.heap (startGame.intent (5, 2) (4, 3)).startPiece with
  | none => rw [hp] at hs; simp at hs
  | some self =>
    rw [hp] at hs
    simp only [Option.map_some', Option.some.injEq, Prod.mk.injEq] at hs
    obtain ⟨h1, h2, h3⟩ := hs
    refine ⟨h.1, h.2, (pawn_diagonal_reads_absent_move 1 startGame
      (startGame.intent (5, 2) (4, 3)) startGame.player1 self rfl hp h1 (by decide!) ?_ ?_
      ?_).2.1⟩
    · rw [h2, h3]; decide
    · rw [h3]; decide
    · have e : (startGame.intent (5, 2) (4, 3)).endSq = (4, 3) := rfl
      rw [e, h.2]; rfl

set_option maxRecDepth 1000000 in
/-- C36, counterexample: after `reset(tinySetup)` and `start()` on a 3 by 3 board, fifty
king moves without a capture leave `movesUntilDraw` at 0 and `lookForWin` returns
`fiftyMoveDraw`; the fifty-first is committed as well, `movesUntilDraw` is then -1, and
`lookForWin` returns `materialDraw`, not `fiftyMoveDraw`. -/
theorem countdown_falls_below_zero :
    ((tinyGame.play 1 (tinyLine 50)).bind fun g =>
      (g.lookForWin 1).bind fun w => (g.play 1 [((1, 1), (2, 1))]).bind fun g' =>
        (g'.lookForWin 1).bind fun w' =>
          some ((g.movesUntilDraw, w.1), (g'.movesUntilDraw, w'.1))) =
      some ((0, WinSearchResult.fiftyMoveDraw), (-1, WinSearchResult.materialDraw)) := by
  decide!

/-- C36, amended: in every state reached from `reset` and `start` by calls of `run`,
`movesUntilDraw` is at most 50.  A call of `run` that does not commit a move leaves it
alone; a call that commits one sets it to 50 when the moved piece is a pawn or the move
has an end piece, and lowers it by one otherwise, whatever its value, so it is not kept
at zero or above.  Absent mate and stalemate, `lookForWin` returns `fiftyMoveDraw` exactly
when `movesUntilDraw` is 0. -/
theorem countdown_spec (depth : Nat) (g0 : Game) (fn : Option (Board → Board))
    (steps : List (Option Move × Event)) (g : Game)
    (h : ((g0.reset fn).start).2.runs depth steps = some g) :
    g.movesUntilDraw ≤ 50 ∧
      (∀ intent event r g', g.run depth intent event = some (r, g') →
        (r ≠ RunResult.turnedPassed → g'.movesUntilDraw = g.movesUntilDraw) ∧
        (r = RunResult.turnedPassed →
          ∃ lm sp, back g'.moveLog = some lm ∧ deref g'.heap lm.startPiece = some sp ∧
            g'.movesUntilDraw =
              if sp.letter = 'p' ∨ lm.endPiece ≠ none then 50 else g.movesUntilDraw - 1)) ∧
      ∀ g1, g.mateSearch depth = some (WinSearchResult.nothing, g1) →
        (g.lookForWin depth = some (WinSearchResult.fiftyMoveDraw, g1) ↔
          g.movesUntilDraw = 0) := by
  refine ⟨runs_countdown_le depth steps _ g ?_ h, fun intent event r g' hr => ?_,
    fun g1 hm => lookForWin_fifty_iff depth g g1 hm⟩
  · have := start_tallies (g0.reset fn)
    simp only [Game.tallies, Prod.mk.injEq] at this
    rw [this.2.2]
    exact le_of_eq rfl
  · obtain ⟨q1, q2⟩ := run_tallies depth g intent event r g' hr
    exact ⟨fun e => (sameTallies_fields (q1 e)).2.2, fun e => (q2 e).2.2⟩

set_option maxRecDepth 1000000 in
/-- The witness of `countdown_spec`: on the 3 by 3 board after `reset(tinySetup)`,
`start()` and the call of `run` that commits 1. Ka1. -/
theorem countdown_spec_witness :
    ∃ g, tinyGame.runs 1 [(some (tinyGame.intent (2, 1) (1, 1)), Event.otherEvent)] = some g ∧
      g.movesUntilDraw = 49 ∧ g.movesUntilDraw ≤ 50 ∧
      (∀ intent event r g', g.run 1 intent event = some (r, g') →
        (r ≠ RunResult.turnedPassed → g'.movesUntilDraw = g.movesUntilDraw) ∧
        (r = RunResult.turnedPassed →
          ∃ lm sp, back g'.moveLog = some lm ∧ deref g'.heap lm.startPiece = some sp ∧
            g'.movesUntilDraw =
              if sp.letter = 'p' ∨ lm.endPiece ≠ none then 50 else g.movesUntilDraw - 1)) ∧
      ∀ g1, g.mateSearch 1 = some (WinSearchResult.nothing, g1) →
        (g.lookForWin 1 = some (WinSearchResult.fiftyMoveDraw, g1) ↔
          g.movesUntilDraw = 0) := by
  have hs : (tinyGame.runs 1 [(some (tinyGame.intent (2, 1) (1, 1)), Event.otherEvent)]).map
      (fun g => g.movesUntilDraw) = some 49 := by decide!
  cases hg : tinyGame.runs 1 [(some (tinyGame.intent (2, 1) (1, 1)), Event.otherEvent)] with
  | none => rw [hg] at hs; simp at hs
  | some g =>
    rw [hg] at hs
    simp only [Option.map_some', Option.some.injEq] at hs
    exact ⟨g, rfl, hs, countdown_spec 1
      (Game.new (Board.new 9 false) (Player.new PieceColor.white) (Player.new PieceColor.black))
      (some tinySetup) _ g hg⟩

set_option maxRecDepth 1000000 in
/-- C37, counterexample: on the starting position `moveCount`, `turnCount` and
`movesUntilDraw` are 0, 0 and 50; after White's 1. Nf3 they are 1, 1 and 49, and after
`undoLastMove` 0, 1 and 49.  After 1. Nf3 Nf6 they are 2, 1 and 48, and after
`undoLastMove` 1, 0 and 48. -/
theorem undo_keeps_turnCount_and_countdown :
    ((startGame.play 1 [((7, 1), (6, 3))]).bind fun g1 => g1.undoLastMove.bind fun g2 =>
      (g1.play 1 [((7, 8), (6, 6))]).bind fun g3 => g3.undoLastMove.bind fun g4 =>
        some [startGame.tallies, g1.tallies, g2.tallies, g3.tallies, g4.tallies]) =
      some [(0, 0, 50), (1, 1, 49), (0, 1, 49), (2, 1, 48), (1, 0, 48)] := by
  decide!

/-- C37, amended: when `run` commits a move and `undoLastMove` follows, `moveCount` is
back at its value before the move, and `movesUntilDraw` is not written by `undoLastMove`:
it keeps the value `run` gave it, which is 50 or one less than its value before the
move. -/
theorem run_undo_counters (depth : Nat) (g : Game) (intent : Option Move) (event : Event)
    (g1 g2 : Game) (hrun : g.run depth intent event = some (RunResult.turnedPassed, g1))
    (hundo : g1.undoLastMove = some g2) :
    g2.moveCount = g.moveCount ∧ g2.movesUntilDraw = g1.movesUntilDraw ∧
      (g1.movesUntilDraw = 50 ∨ g1.movesUntilDraw = g.movesUntilDraw - 1) := by
  obtain ⟨c1, _, lm, sp, c3, _, c5⟩ := (run_tallies depth g intent event _ g1 hrun).2 rfl
  obtain ⟨u1, u2, _⟩ := undo_tallies g1 g2 lm c3 hundo
  refine ⟨?_, u2, ?_⟩
  · rw [u1, c1]
    omega
  · rw [c5]
    split
    · exact Or.inl rfl
    · exact Or.inr rfl

set_option maxRecDepth 1000000 in
/-- The witness of `run_undo_counters`: White's 1. Ka1 on the 3 by 3 board of `tinyGame`,
committed and undone; `moveCount` and `movesUntilDraw`, 0 and 50 before the move, end as
0 and 49. -/
theorem run_undo_counters_witness :
    ∃ g1 g2, tinyGame.run 1 (some (tinyGame.intent (2, 1) (1, 1))) Event.otherEvent =
        some (RunResult.turnedPassed, g1) ∧ g1.undoLastMove = some g2 ∧
      (tinyGame.moveCount, tinyGame.movesUntilDraw) = (0, 50) ∧
      (g2.moveCount, g2.movesUntilDraw) = (0, 49) ∧
      g2.moveCount = tinyGame.moveCount ∧ g2.movesUntilDraw = g1.movesUntilDraw ∧
      (g1.movesUntilDraw = 50 ∨ g1.movesUntilDraw = tinyGame.movesUntilDraw - 1) := by
  have hs : ((tinyGame.run 1 (some (tinyGame.intent (2, 1) (1, 1))) Event.otherEvent).bind
      fun r => r.2.undoLastMove.bind fun g2 =>
        some (r.1, (g2.moveCount, g2.movesUntilDraw))) =
      some (RunResult.turnedPassed, (0, 49)) := by decide!
  cases hr : tinyGame.run 1 (some (tinyGame.intent (2, 1) (1, 1))) Event.otherEvent with
  | none => rw [hr] at hs; simp at hs
  | some x =>
    obtain ⟨r, g1⟩ := x
    rw [hr] at hs
    simp only [Option.some_bind] at hs
    cases hu : g1.undoLastMove with
    | none => rw [hu] at hs; simp at hs
    | some g2 =>
      rw [hu] at hs
      simp only [Option.some_bind] at hs
      have e1 : r = RunResult.turnedPassed := (Prod.mk.inj (Option.some.inj hs)).1
      have e2 : (g2.moveCount, g2.movesUntilDraw) = (0, 49) :=
        (Prod.mk.inj (Option.some.inj hs)).2
      rw [e1] at hr
      exact ⟨g1, g2, congrArg (fun x => some (x, g1)) e1, hu, by decide!, e2,
        run_undo_counters 1 tinyGame _ _ g1 g2 hr hu⟩

end Chess
